import Mathlib

/-!
# Cailianshe news cache: deduplication, global store and snapshot

Shallow embedding of `src/cailianshe/fetch_news.go` (package `cailianshe`):
`deduplicateNews`, `GetGlobalCachedNews`, `updateGlobalCache` and the ingest
tail of `NewsAction.FetchLatestNews`, together with the record type of
`src/cailianshe/types.go`; then `FetchLatestNews` and `FetchNewsDetail` as a
whole, the scheduler of `src/cailianshe/scheduler.go`, `AnalyzeNews` with the
functions it calls in `src/cailianshe/analyzer.go`, and goroutines that call
`updateGlobalCache` and `GetGlobalCachedNews` at the same time.

Modelling conventions

* `time.Time` is an instant, an `Int` counted from the Go zero time, so that
  `t.IsZero()` is `t = 0` and `a.Before(b)` is `a < b`.
* A Go slice is a `List`; an indexed read is `a[i]?` and an indexed write is
  `List.set`.
* The Go map `globalNewsCache` is a list of key/value entries with pairwise
  distinct keys.  The order in which `range` visits a map is not specified by
  the language, so every function that ranges over the map takes a
  `RangeOrder`: an arbitrary rearrangement of the entries.
* The package-level variables are passed explicitly as a `GlobalState`.
* The browser page, the clock and the Go library are outside the program: what
  they answer to one call is a `FetchEnv`.  A Go result pair `(value, error)` is
  a value with an `Option String` error.
* The calls `MustWaitLoad`, `MustEval` and `MustHTML` of the browser driver panic
  with the error of the driver, and no function of the package recovers.  A
  function that can panic has the field `panicked` in its output: the value of
  the panic, or `none` when the function returns.  When it panics nothing is
  returned, and the other fields tell the state that the panic leaves behind.
* The calls a scheduler method makes to the outside (`FetchLatestNews`, the
  callback, the `go` statement) are listed in order as `Event`s.
* Goroutines take turns: a schedule is the list of the goroutines that take the
  next step, and a step is one statement that reads or writes a shared variable.
  The mutex is part of the shared state; a goroutine whose `Lock()` or `RLock()`
  cannot return yet does nothing when it is scheduled.
-/

namespace Cailianshe

/-! ## Data model (`types.go`) -/

/-- TelegraphNews: one telegraph bulletin (`types.go`, lines 6-15). -/
structure TelegraphNews where
  ID : String
  Title : String
  Content : String
  Brief : String
  PublishTime : Int
  Source : String
  Tags : List String
  URL : String
  deriving DecidableEq, Repr

/-! ## `deduplicateNews` (`fetch_news.go`, lines 547-573) -/

/-- The `for _, news := range newsList` loop of `deduplicateNews`.  `seen` holds
the keys of the Go map `seen` (only the value `true` is ever stored), `result`
is the slice built so far. -/
def deduplicateLoop (seen : List String) (result : List TelegraphNews) :
    List TelegraphNews → List TelegraphNews
  | [] => result
  | news :: rest =>
    if news.ID = "" then
      deduplicateLoop seen (result ++ [news]) rest
    else if ¬ (news.ID ∈ seen) then
      deduplicateLoop (news.ID :: seen) (result ++ [news]) rest
    else
      deduplicateLoop seen result rest

/-- deduplicateNews: drop the records whose non-empty ID was already seen. -/
def deduplicateNews (newsList : List TelegraphNews) : List TelegraphNews :=
  if newsList.length = 0 then newsList
  else deduplicateLoop [] [] newsList

/-! ## The global cache (`fetch_news.go`, lines 16-21) -/

/-- The Go map `map[string]TelegraphNews`: key/value entries, no key twice. -/
structure NewsCache where
  entries : List (String × TelegraphNews)
  nodupKeys : (entries.map Prod.fst).Nodup

/-- Writing `m[k] = v` on the entry list: replace the entry of `k` if there is
one, add a new entry otherwise. -/
def insertEntry (k : String) (v : TelegraphNews) :
    List (String × TelegraphNews) → List (String × TelegraphNews)
  | [] => [(k, v)]
  | e :: es => if e.1 = k then (k, v) :: es else e :: insertEntry k v es

namespace NewsCache

/-- The map made by `make(map[string]TelegraphNews)`. -/
def empty : NewsCache := ⟨[], List.nodup_nil⟩

/-- Reading `m[k]` with the comma-ok form: the value, if the key is present. -/
def lookup (m : NewsCache) (k : String) : Option TelegraphNews :=
  (m.entries.find? (fun e => decide (e.1 = k))).map Prod.snd

/-- The assignment `m[k] = v`. -/
def insert (m : NewsCache) (k : String) (v : TelegraphNews) : NewsCache :=
  ⟨insertEntry k v m.entries, by
    have keys : ∀ es : List (String × TelegraphNews),
        (insertEntry k v es).map Prod.fst =
          if k ∈ es.map Prod.fst then es.map Prod.fst else es.map Prod.fst ++ [k] := by
      intro es
      induction es with
      | nil => simp [insertEntry]
      | cons e es ih =>
        simp only [insertEntry]
        by_cases h : e.1 = k
        · simp [h]
        · have hne : ¬ k = e.1 := fun h2 => h h2.symm
          simp only [h, if_false, List.map_cons, ih, List.mem_cons, hne, false_or]
          split <;> simp
    rw [keys]
    split
    · exact m.nodupKeys
    · next hk =>
      exact List.Nodup.append m.nodupKeys (List.nodup_singleton k) (by simpa using hk)⟩

/-- The builtin `len(m)`. -/
def len (m : NewsCache) : Nat := m.entries.length

/-- The values held by the map, in the order of the entry list. -/
def values (m : NewsCache) : List TelegraphNews := m.entries.map Prod.snd

end NewsCache

/-- The order in which one `range` statement visits the values of a map: some
rearrangement of them, chosen by the Go runtime. -/
structure RangeOrder where
  order : List TelegraphNews → List TelegraphNews
  perm : ∀ l, (order l).Perm l

/-- The package-level variables `globalNewsCache` and `globalNewsCacheTime`
(every function below runs alone; the mutex is part of the state of the goroutines
further down). -/
structure GlobalState where
  globalNewsCache : NewsCache
  globalNewsCacheTime : Int

/-! ## The swap sort shared by `GetGlobalCachedNews` and `updateGlobalCache` -/

/-- The body of the inner loop:
`if a[i].PublishTime.Before(a[j].PublishTime) { a[i], a[j] = a[j], a[i] }`
(inside the loops both indices are in range). -/
def compareSwap (a : List TelegraphNews) (i j : Nat) : List TelegraphNews :=
  match a[i]?, a[j]? with
  | some x, some y =>
    if x.PublishTime < y.PublishTime then (a.set i y).set j x else a
  | _, _ => a

/-- The inner loop `for j := i + 1; j < len(a); j++` (a swap keeps the length). -/
def sortInner (i : Nat) (a : List TelegraphNews) : List TelegraphNews :=
  (List.range' (i + 1) (a.length - (i + 1))).foldl (fun a j => compareSwap a i j) a

/-- The nested loop `for i := 0; i < len(a)-1; i++ { for j := i + 1; ... }`
that orders a slice by publish time, latest first. -/
def sortByPublishTime (a : List TelegraphNews) : List TelegraphNews :=
  (List.range (a.length - 1)).foldl (fun a i => sortInner i a) a

/-! ## `GetGlobalCachedNews` (`fetch_news.go`, lines 581-606) -/

/-- GetGlobalCachedNews: copy the map values to a slice, order it by publish time
(latest first) and cut it to `limit` when `limit > 0`.  Returns the slice and the
global state after the call. -/
def GetGlobalCachedNews (σ : RangeOrder) (limit : Int) (g : GlobalState) :
    List TelegraphNews × GlobalState :=
  let newsList := σ.order g.globalNewsCache.values
  let newsList := sortByPublishTime newsList
  let newsList :=
    if limit > 0 ∧ (newsList.length : Int) > limit then newsList.take limit.toNat
    else newsList
  (newsList, g)

/-- getLatestNewsFromCache (`fetch_news.go`, lines 576-578): the method of
`NewsAction` that forwards to `GetGlobalCachedNews`. -/
def getLatestNewsFromCache (σ : RangeOrder) (limit : Int) (g : GlobalState) :
    List TelegraphNews × GlobalState :=
  GetGlobalCachedNews σ limit g

/-! ## `updateGlobalCache` (`fetch_news.go`, lines 609-654) -/

/-- The merge loop of `updateGlobalCache`: every record with a non-empty ID is
written under its ID (the counters `oldCount` and `newCount` only feed the log
line and are left out). -/
def mergeNews (cache : NewsCache) : List TelegraphNews → NewsCache
  | [] => cache
  | news :: rest =>
    if news.ID ≠ "" then mergeNews (cache.insert news.ID news) rest
    else mergeNews cache rest

/-- The loop `for i := 0; i < 100 && i < len(allNews); i++` that fills a fresh
map with the first 100 records of `allNews`. -/
def keepLatest (allNews : List TelegraphNews) : NewsCache :=
  (allNews.take 100).foldl (fun c news => c.insert news.ID news) NewsCache.empty

/-- updateGlobalCache: merge the batch into the map; when the map then holds more
than 100 records, keep the 100 first of the time-ordered values; stamp the
cache time with `now` (the value of `time.Now()`). -/
def updateGlobalCache (σ : RangeOrder) (now : Int) (newsList : List TelegraphNews)
    (g : GlobalState) : GlobalState :=
  let cache := mergeNews g.globalNewsCache newsList
  let cache :=
    if cache.len > 100 then keepLatest (sortByPublishTime (σ.order cache.values))
    else cache
  { globalNewsCache := cache, globalNewsCacheTime := now }

/-! ## The ingest tail of `NewsAction.FetchLatestNews` (`fetch_news.go`, lines 302-328) -/

/-- The loop of lines 307-314 at index `i`: a zero publish time becomes the
value `nowAt i` of `time.Now()`, an empty source becomes the fixed label. -/
def fillDefaults (nowAt : Nat → Int) (i : Nat) (news : TelegraphNews) : TelegraphNews :=
  let news := if news.PublishTime = 0 then { news with PublishTime := nowAt i } else news
  if news.Source = "" then { news with Source := "财联社" } else news

/-- Lines 302-328 of `FetchLatestNews` in fast mode (`fetchDetail = false`), from
the unmarshalled list on: deduplicate, fill the defaults, merge into the global
cache (range order `σm`, clock value `now`), and read the cache back (range order
`σr`) with `getLatestNewsFromCache(limit)`. -/
def FetchLatestNews_ingest (σm σr : RangeOrder) (nowAt : Nat → Int) (now : Int)
    (limit : Int) (extracted : List TelegraphNews) (g : GlobalState) :
    List TelegraphNews × GlobalState :=
  let newsList := deduplicateNews extracted
  let newsList := newsList.enum.map (fun p => fillDefaults nowAt p.1 p.2)
  let g := updateGlobalCache σm now newsList g
  getLatestNewsFromCache σr limit g

/-! ## Sequences of merges -/

/-- One call of `updateGlobalCache`: the range order of its eviction pass, the
value of `time.Now()` and the batch. -/
structure MergeCall where
  order : RangeOrder
  now : Int
  batch : List TelegraphNews

/-- A sequence of `updateGlobalCache` calls, first call first. -/
def runMerges (g : GlobalState) : List MergeCall → GlobalState
  | [] => g
  | c :: cs => runMerges (updateGlobalCache c.order c.now c.batch g) cs

/-! ## Goroutines on the global store under `globalNewsCacheMutex`

Two goroutines that each run `updateGlobalCache` and one goroutine that runs
`GetGlobalCachedNews` share the package variables and the mutex.  Every statement
that reads or writes a shared variable is one step of its goroutine; a schedule
lists which goroutine takes the next step.  `Lock()` returns when no goroutine
holds the mutex for writing or for reading, `RLock()` returns when no goroutine
holds it for writing; a goroutine whose call has not returned leaves the state
as it is when scheduled. -/

/-- Where a goroutine that runs `updateGlobalCache` (lines 609-654) stands. -/
inductive MergePc where
  /-- Called; `globalNewsCacheMutex.Lock()` (line 610) has not returned. -/
  | waiting
  /-- In the merge loop of lines 617-624, with these records still to visit. -/
  | merging (rest : List TelegraphNews)
  /-- In the `range` of lines 630-632, with these records appended to `allNews`. -/
  | collecting (allNews : List TelegraphNews)
  /-- After the sort of lines 635-641, before the assignment of line 644. -/
  | evicting (allNews : List TelegraphNews)
  /-- In the loop of lines 645-647, with these records still to write. -/
  | refilling (rest : List TelegraphNews)
  /-- Before the assignment `globalNewsCacheTime = time.Now()` of line 651. -/
  | stamping
  /-- Before the deferred `globalNewsCacheMutex.Unlock()`. -/
  | unlocking
  /-- Returned. -/
  | finished
  deriving DecidableEq

/-- One step of `updateGlobalCache` between `Lock()` and the deferred `Unlock()`,
on the package variables. -/
def mergeStep (c : MergeCall) (pc : MergePc) (g : GlobalState) : MergePc × GlobalState :=
  match pc with
  | MergePc.merging (news :: rest) =>
    if news.ID ≠ "" then
      (MergePc.merging rest,
        { g with globalNewsCache := g.globalNewsCache.insert news.ID news })
    else (MergePc.merging rest, g)
  | MergePc.merging [] =>
    if g.globalNewsCache.len > 100 then (MergePc.collecting [], g)
    else (MergePc.stamping, g)
  | MergePc.collecting allNews =>
    match (c.order.order g.globalNewsCache.values)[allNews.length]? with
    | some news => (MergePc.collecting (allNews ++ [news]), g)
    | none => (MergePc.evicting (sortByPublishTime allNews), g)
  | MergePc.evicting allNews =>
    (MergePc.refilling (allNews.take 100), { g with globalNewsCache := NewsCache.empty })
  | MergePc.refilling (news :: rest) =>
    (MergePc.refilling rest,
      { g with globalNewsCache := g.globalNewsCache.insert news.ID news })
  | MergePc.refilling [] => (MergePc.stamping, g)
  | MergePc.stamping => (MergePc.unlocking, { g with globalNewsCacheTime := c.now })
  | MergePc.waiting => (MergePc.waiting, g)
  | MergePc.unlocking => (MergePc.unlocking, g)
  | MergePc.finished => (MergePc.finished, g)

/-- Where a goroutine that runs `GetGlobalCachedNews` (lines 581-606) stands. -/
inductive ReadPc where
  /-- Called; `globalNewsCacheMutex.RLock()` (line 582) has not returned. -/
  | waiting
  /-- In the `range` of lines 587-589, with these records appended to `newsList`. -/
  | copying (newsList : List TelegraphNews)
  /-- After the sort and the cut of lines 592-603, before the deferred `RUnlock()`. -/
  | unlocking (result : List TelegraphNews)
  /-- Returned, with this slice. -/
  | finished (result : List TelegraphNews)
  deriving DecidableEq

/-- One step of `GetGlobalCachedNews` between `RLock()` and the deferred `RUnlock()`:
one more record of the map is appended, or, at the end of the `range`, the slice
is ordered and cut (which reads no shared variable). -/
def readStep (σ : RangeOrder) (limit : Int) (pc : ReadPc) (g : GlobalState) : ReadPc :=
  match pc with
  | ReadPc.copying newsList =>
    match (σ.order g.globalNewsCache.values)[newsList.length]? with
    | some news => ReadPc.copying (newsList ++ [news])
    | none =>
      let newsList := sortByPublishTime newsList
      ReadPc.unlocking
        (if limit > 0 ∧ (newsList.length : Int) > limit then newsList.take limit.toNat
         else newsList)
  | pc => pc

/-- The three goroutines. -/
inductive Goroutine where
  | first
  | second
  | reader
  deriving DecidableEq

/-- The calls that the goroutines make: two calls of `updateGlobalCache` and one
call of `GetGlobalCachedNews` with this `limit` and this order of its `range`. -/
structure ConcEnv where
  first : MergeCall
  second : MergeCall
  readOrder : RangeOrder
  limit : Int

/-- The shared memory and the goroutines: the package variables, the state of
`globalNewsCacheMutex` (held for writing, and the number of holders for reading)
and where each goroutine stands. -/
structure Conc where
  g : GlobalState
  writer : Bool
  readers : Nat
  first : MergePc
  second : MergePc
  reader : ReadPc

/-- One step of a goroutine that runs `updateGlobalCache`, on the package variables
and the write side of the mutex. -/
def mergerStep (c : MergeCall) (pc : MergePc) (g : GlobalState) (writer : Bool)
    (readers : Nat) : MergePc × GlobalState × Bool :=
  match pc with
  | MergePc.waiting =>
    if writer = false ∧ readers = 0 then (MergePc.merging c.batch, g, true)
    else (MergePc.waiting, g, writer)
  | MergePc.unlocking => (MergePc.finished, g, false)
  | MergePc.finished => (MergePc.finished, g, writer)
  | pc => ((mergeStep c pc g).1, (mergeStep c pc g).2, writer)

/-- One step of the goroutine `t`. -/
def concStep (env : ConcEnv) (t : Goroutine) (s : Conc) : Conc :=
  match t with
  | Goroutine.first =>
    let r := mergerStep env.first s.first s.g s.writer s.readers
    { s with first := r.1, g := r.2.1, writer := r.2.2 }
  | Goroutine.second =>
    let r := mergerStep env.second s.second s.g s.writer s.readers
    { s with second := r.1, g := r.2.1, writer := r.2.2 }
  | Goroutine.reader =>
    match s.reader with
    | ReadPc.waiting =>
      if s.writer = false then { s with readers := s.readers + 1, reader := ReadPc.copying [] }
      else s
    | ReadPc.copying newsList =>
      { s with reader := readStep env.readOrder env.limit (ReadPc.copying newsList) s.g }
    | ReadPc.unlocking result =>
      { s with readers := s.readers - 1, reader := ReadPc.finished result }
    | ReadPc.finished _ => s

/-- The steps of a schedule, first step first. -/
def runSchedule (env : ConcEnv) : List Goroutine → Conc → Conc
  | [], s => s
  | t :: ts, s => runSchedule env ts (concStep env t s)

/-- The three calls have just been made on the store `g`: the mutex is free. -/
def concStart (g : GlobalState) : Conc :=
  { g := g, writer := false, readers := 0, first := MergePc.waiting,
    second := MergePc.waiting, reader := ReadPc.waiting }

/-- Whether a goroutine is between `Lock()` and `Unlock()`. -/
def inCritical : MergePc → Bool
  | MergePc.waiting => false
  | MergePc.finished => false
  | _ => true

/-- Whether the reading goroutine is between `RLock()` and `RUnlock()`. -/
def holdsRead : ReadPc → Bool
  | ReadPc.copying _ => true
  | ReadPc.unlocking _ => true
  | _ => false

/-! ## Analysis types (`types.go`, lines 23-41) -/

/-- NewsAnalysis: the analysis of one bulletin.  `Confidence` is a `float64`; the
finite values that occur are rationals. -/
structure NewsAnalysis where
  NewsID : String
  Summary : String
  Sentiment : String
  Keywords : List String
  Industries : List String
  Stocks : List String
  Impact : String
  Prediction : String
  Confidence : ℚ
  AnalyzedAt : Int
  deriving DecidableEq

/-- NewsWithAnalysis: a bulletin with its analysis; `none` is the nil pointer. -/
structure NewsWithAnalysis where
  News : TelegraphNews
  Analysis : Option NewsAnalysis
  deriving DecidableEq

/-! ## `calculateConfidence` (`analyzer.go`, lines 282-312) -/

/-- calculateConfidence: the score built from a base of 0.3 and four bonuses, capped
at 1.0.  The arithmetic is `float64`: `rnd` is the rounding to the nearest double,
applied to every decimal literal and to every sum (1.0 is a double and
comparisons are exact). -/
def calculateConfidence (rnd : ℚ → ℚ) (analysis : NewsAnalysis) : ℚ :=
  let confidence := rnd (3 / 10)
  let confidence :=
    if analysis.Keywords.length > 0 then rnd (confidence + rnd (2 / 10)) else confidence
  let confidence :=
    if analysis.Industries.length > 0 then rnd (confidence + rnd (2 / 10)) else confidence
  let confidence :=
    if analysis.Stocks.length > 0 then rnd (confidence + rnd (15 / 100)) else confidence
  let confidence :=
    if analysis.Sentiment ≠ "neutral" then rnd (confidence + rnd (15 / 100)) else confidence
  if confidence > 1 then 1 else confidence

/-! ## `AnalyzeNews` (`analyzer.go`, lines 25-280) -/

/-- The functions of the Go library that the analyzer calls on texts. -/
structure TextLib where
  /-- The function `strings.ToLower`. -/
  ToLower : String → String
  /-- The function `strings.Contains`, as `Contains s substr`. -/
  Contains : String → String → Bool
  /-- The function `strings.Count`, as `Count s substr`. -/
  Count : String → String → Nat
  /-- The call `regexp.MustCompile(pattern).FindAllString(s, -1)`, as
  `FindAllString pattern s`. -/
  FindAllString : String → String → List String
  /-- The builtin `len` on a string: its number of bytes. -/
  len : String → Nat
  /-- The slice expression `s[:n]`, as `slice s n`. -/
  slice : String → Nat → String

/-- The order in which one `range` statement visits the entries of a map whose
entries, or keys, have the type `α`. -/
structure VisitOrder (α : Type) where
  order : List α → List α
  perm : ∀ l, (order l).Perm l

/-- What is outside of one call of `AnalyzeNews`: the library, the rounding of
`float64` arithmetic, the orders of the four `range` statements over maps (the keys
of `keywords`, the entries of `industryKeywords`, the keys of `industries` and of
`stocks`), and the value of `time.Now()`. -/
structure AnalyzerEnv where
  lib : TextLib
  rnd : ℚ → ℚ
  keywordOrder : VisitOrder String
  industryMapOrder : VisitOrder (String × List String)
  industryOrder : VisitOrder String
  stockOrder : VisitOrder String
  now : Int

/-- The assignment `m[k] = true` on a `map[string]bool` that only ever holds the value
`true`: the map is the list of its keys. -/
def setTrue (m : List String) (k : String) : List String :=
  if k ∈ m then m else m ++ [k]

/-- The function `strings.Join(elems, sep)`. -/
def Join : List String → String → String
  | [], _ => ""
  | [x], _ => x
  | x :: y :: rest, sep => x ++ sep ++ Join (y :: rest) sep

/-- The slice `financialKeywords` of `extractKeywords` (lines 68-80). -/
def financialKeywords : List String :=
  ["央行", "货币政策", "利率", "降息", "加息", "存款准备金",
   "GDP", "CPI", "PPI", "PMI", "通胀", "通缩",
   "股市", "A股", "港股", "美股", "指数", "涨停", "跌停",
   "IPO", "重组", "并购", "增发", "配股",
   "业绩", "财报", "营收", "利润", "亏损",
   "监管", "政策", "改革", "开放",
   "科技", "芯片", "新能源", "人工智能", "5G",
   "房地产", "地产", "楼市",
   "消费", "零售", "电商",
   "金融", "银行", "保险", "证券",
   "制造", "工业", "基建"]

/-- extractKeywords (lines 64-96): the keywords of the list that the text contains,
in the order of the `range` over the set. -/
def extractKeywords (lib : TextLib) (σ : VisitOrder String) (text : String) :
    List String :=
  let textLower := lib.ToLower text
  let keywords := financialKeywords.foldl (fun keywords keyword =>
    if lib.Contains textLower (lib.ToLower keyword) then setTrue keywords keyword
    else keywords) []
  σ.order keywords

/-- The map literal `industryKeywords` of `identifyIndustries` (lines 102-115). -/
def industryKeywords : List (String × List String) :=
  [("科技", ["科技", "互联网", "软件", "芯片", "半导体", "人工智能", "AI", "5G", "云计算"]),
   ("金融", ["银行", "保险", "证券", "基金", "信托", "金融"]),
   ("地产", ["房地产", "地产", "楼市", "住宅", "商业地产"]),
   ("消费", ["消费", "零售", "电商", "商超", "百货"]),
   ("医药", ["医药", "生物", "制药", "医疗", "器械"]),
   ("能源", ["能源", "石油", "天然气", "煤炭", "电力"]),
   ("新能源", ["新能源", "光伏", "风电", "锂电", "电池", "充电桩"]),
   ("汽车", ["汽车", "车企", "新能源车", "电动车"]),
   ("制造", ["制造", "工业", "机械", "装备"]),
   ("基建", ["基建", "建筑", "工程", "铁路", "公路"]),
   ("农业", ["农业", "种植", "养殖", "农产品"]),
   ("传媒", ["传媒", "影视", "游戏", "广告"])]

/-- identifyIndustries (lines 99-133): the industries of which the text contains a
keyword (the inner loop stops at the first keyword found). -/
def identifyIndustries (lib : TextLib) (σm : VisitOrder (String × List String))
    (σ : VisitOrder String) (text : String) : List String :=
  let textLower := lib.ToLower text
  let industries := (σm.order industryKeywords).foldl (fun industries entry =>
    if entry.2.any (fun keyword => lib.Contains textLower (lib.ToLower keyword))
    then setTrue industries entry.1 else industries) []
  σ.order industries

/-- identifyStocks (lines 136-161): the texts matched by the two patterns. -/
def identifyStocks (lib : TextLib) (σ : VisitOrder String) (text : String) :
    List String :=
  let stocks : List String := []
  let found := lib.FindAllString "\\b([036]\\d\x7b5\x7d|[0-9]\x7b5\x7d)\\b" text
  let stocks := found.foldl setTrue stocks
  let foundWithCode := lib.FindAllString "(SH|SZ|HK)?[036]\\d\x7b5\x7d" text
  let stocks := foundWithCode.foldl setTrue stocks
  σ.order stocks

/-- The slice `positiveWords` of `analyzeSentiment` (lines 165-168). -/
def positiveWords : List String :=
  ["上涨", "增长", "提升", "改善", "利好", "突破", "创新高", "超预期",
   "强劲", "积极", "乐观", "看好", "机会", "受益", "推动", "支持"]

/-- The slice `negativeWords` of `analyzeSentiment` (lines 170-173). -/
def negativeWords : List String :=
  ["下跌", "下降", "下滑", "恶化", "利空", "跌破", "创新低", "不及预期",
   "疲软", "悲观", "担忧", "风险", "压力", "冲击", "拖累", "制约"]

/-- analyzeSentiment (lines 164-193): compare the numbers of occurrences of the
positive and of the negative words. -/
def analyzeSentiment (lib : TextLib) (text : String) : String :=
  let textLower := lib.ToLower text
  let positiveCount := positiveWords.foldl
    (fun n word => n + lib.Count textLower (lib.ToLower word)) 0
  let negativeCount := negativeWords.foldl
    (fun n word => n + lib.Count textLower (lib.ToLower word)) 0
  if positiveCount > negativeCount then "positive"
  else if negativeCount > positiveCount then "negative"
  else "neutral"

/-- generateSummary (lines 196-207): the title, followed by at most 200 bytes of the
content when there is one. -/
def generateSummary (lib : TextLib) (news : TelegraphNews) : String :=
  if lib.len news.Content > 0 then
    let contentPreview :=
      if lib.len news.Content > 200 then lib.slice news.Content 200 ++ "..."
      else news.Content
    news.Title ++ " - " ++ contentPreview
  else news.Title

/-- The map literal `sentimentDesc` of `analyzeImpact`, read at a key: the empty
string for a key that it does not hold. -/
def sentimentDesc (sentiment : String) : String :=
  if sentiment = "positive" then "利好"
  else if sentiment = "negative" then "利空"
  else if sentiment = "neutral" then "中性"
  else ""

/-- analyzeImpact (lines 210-248). -/
def analyzeImpact (lib : TextLib) (news : TelegraphNews) (analysis : NewsAnalysis) :
    String :=
  let impacts : List String := []
  let impacts :=
    if analysis.Industries.length > 0 then
      impacts ++ ["该新闻对" ++ Join analysis.Industries "、" ++ "行业呈" ++
        sentimentDesc analysis.Sentiment ++ "影响"]
    else impacts
  let impacts :=
    if analysis.Stocks.length > 0 then
      impacts ++ ["可能影响股票: " ++ Join analysis.Stocks "、"]
    else impacts
  let text := news.Title ++ " " ++ news.Content
  let impacts :=
    if lib.Contains text "政策" ∨ lib.Contains text "监管" then
      impacts ++ ["政策面影响较大，需关注后续政策落地情况"]
    else impacts
  let impacts :=
    if lib.Contains text "业绩" ∨ lib.Contains text "财报" then
      impacts ++ ["业绩相关消息，可能影响相关公司估值"]
    else impacts
  let impacts :=
    if lib.Contains text "央行" ∨ lib.Contains text "货币政策" then
      impacts ++ ["宏观政策影响，可能波及整体市场"]
    else impacts
  if impacts.length = 0 then "影响程度有限，建议持续关注"
  else Join impacts "；"

/-- generatePrediction (lines 251-280): the advice for the sentiment, then the caveat
when `analysis.Confidence < 0.5` (0.5 is a double), joined by a semicolon. -/
def generatePrediction (_news : TelegraphNews) (analysis : NewsAnalysis) : String :=
  let predictions : List String := []
  let predictions :=
    if analysis.Sentiment = "positive" then
      let predictions :=
        if analysis.Industries.length > 0 then
          predictions ++ ["建议关注" ++ Join analysis.Industries "、" ++ "板块的投资机会"]
        else predictions
      predictions ++ ["短期内相关标的可能有上涨动能"]
    else if analysis.Sentiment = "negative" then
      let predictions := predictions ++ ["建议谨慎对待相关板块，注意风险控制"]
      if analysis.Industries.length > 0 then
        predictions ++ [Join analysis.Industries "、" ++ "板块可能面临压力"]
      else predictions
    else if analysis.Sentiment = "neutral" then
      (predictions ++ ["建议保持观望，等待更多信息"]) ++ ["可适当关注后续发展"]
    else predictions
  let predictions :=
    if analysis.Confidence < 1 / 2 then
      predictions ++ ["注意：分析置信度较低，建议结合更多信息综合判断"]
    else predictions
  Join predictions "；"

/-- AnalyzeNews (lines 26-61): the fields of the analysis are set one after the
other on the same struct, which starts with the zero value in every field but
`NewsID` and `AnalyzedAt`.  Returns the analysis and the error, which is always nil. -/
def AnalyzeNews (env : AnalyzerEnv) (news : TelegraphNews) :
    NewsAnalysis × Option String :=
  let analysis : NewsAnalysis :=
    { NewsID := news.ID, Summary := "", Sentiment := "", Keywords := [],
      Industries := [], Stocks := [], Impact := "", Prediction := "", Confidence := 0,
      AnalyzedAt := env.now }
  let analysis := { analysis with
    Keywords := extractKeywords env.lib env.keywordOrder (news.Title ++ " " ++ news.Content) }
  let analysis := { analysis with
    Industries := identifyIndustries env.lib env.industryMapOrder env.industryOrder
      (news.Title ++ " " ++ news.Content) }
  let analysis := { analysis with
    Stocks := identifyStocks env.lib env.stockOrder (news.Title ++ " " ++ news.Content) }
  let analysis := { analysis with
    Sentiment := analyzeSentiment env.lib (news.Title ++ " " ++ news.Content) }
  let analysis := { analysis with Summary := generateSummary env.lib news }
  let analysis := { analysis with Impact := analyzeImpact env.lib news analysis }
  let analysis := { analysis with Prediction := generatePrediction news analysis }
  let analysis := { analysis with Confidence := calculateConfidence env.rnd analysis }
  (analysis, none)

/-! ## `FetchNewsDetail` and `FetchLatestNews` (`fetch_news.go`, lines 39-455) -/

/-- The value of the key `publish_time` in one object of the JSON array that the
extraction script returns, as `time.Time.UnmarshalJSON` of the Go library takes
it: a missing key or `null` leaves the zero time, a string in RFC 3339 format
gives its instant, any other string is an error. -/
inductive TimeField where
  | absent
  | rfc3339 (t : Int)
  | other (text : String)
  deriving DecidableEq

/-- One object of the JSON array returned by the extraction script, with the
keys of the `json` tags of `TelegraphNews`. -/
structure NewsJSON where
  id : String
  title : String
  content : String
  brief : String
  publish_time : TimeField
  source : String
  tags : List String
  url : String
  deriving DecidableEq

/-- The Go library call `json.Unmarshal` on the objects of the array: the fields
are copied, the publish time is decoded, and the first time that cannot be
decoded makes the whole call return an error. -/
def unmarshalNews : List NewsJSON → List TelegraphNews × Option String
  | [] => ([], none)
  | item :: rest =>
    match item.publish_time with
    | TimeField.other text => ([], some ("parsing time " ++ text))
    | TimeField.absent =>
      match unmarshalNews rest with
      | (_, some err) => ([], some err)
      | (news, none) =>
        ({ ID := item.id, Title := item.title, Content := item.content, Brief := item.brief,
           PublishTime := 0, Source := item.source, Tags := item.tags, URL := item.url } :: news,
         none)
    | TimeField.rfc3339 t =>
      match unmarshalNews rest with
      | (_, some err) => ([], some err)
      | (news, none) =>
        ({ ID := item.id, Title := item.title, Content := item.content, Brief := item.brief,
           PublishTime := t, Source := item.source, Tags := item.tags, URL := item.url } :: news,
         none)

/-- What the browser page answers to one call of `FetchNewsDetail`: the errors of
`Navigate` and `WaitLoad`, if any, the error of the evaluation of the script, if
any, and the string that the script returns. -/
structure DetailPage where
  navigateErr : Option String
  waitLoadErr : Option String
  evalErr : Option String
  content : String

/-- What one call of `FetchNewsDetail` gives: the returned text and error, or the
value of a panic (`none` when the call returns; nothing is returned otherwise). -/
structure DetailOutput where
  content : String
  err : Option String
  panicked : Option String
  deriving DecidableEq

/-- FetchNewsDetail (lines 371-455): the text of the detail page, or an error.  The
errors of `Navigate` and `WaitLoad` are returned; the script is evaluated with
`n.page.MustEval` (line 391), which panics with the error of the evaluation.
`trimSpace` is the Go library function `strings.TrimSpace`. -/
def FetchNewsDetail (trimSpace : String → String) (page : DetailPage) : DetailOutput :=
  match page.navigateErr with
  | some err => ⟨"", some ("访问详情页失败: " ++ err), none⟩
  | none =>
    match page.waitLoadErr with
    | some err => ⟨"", some ("等待页面加载失败: " ++ err), none⟩
    | none =>
      match page.evalErr with
      | some err => ⟨"", none, some err⟩
      | none =>
        if page.content = "" then ⟨"", some "未能提取到详细内容", none⟩
        else ⟨trimSpace page.content, none, none⟩

/-- NewsAction: the field `contentCache`, a Go map from URL to full content (the
browser page is outside the program). -/
structure NewsAction where
  contentCache : String → Option String

/-- NewNewsAction: an action with an empty content cache. -/
def NewNewsAction : NewsAction := ⟨fun _ => none⟩

/-- Everything outside the program that one call of `FetchLatestNews` reads. -/
structure FetchEnv where
  /-- The error of `page.Navigate`, if any. -/
  navigateErr : Option String
  /-- The error of the wait for the page load, if any: `page.MustWaitLoad()`
  (line 50) panics with it. -/
  waitLoadErr : Option String
  /-- The error of the evaluation of the debug script, if any: `page.MustEval`
  (line 56) panics with it. -/
  debugErr : Option String
  /-- The error of the evaluation of the extraction script, if any: `page.MustEval`
  (line 91) panics with it. -/
  evalErr : Option String
  /-- The string returned by the extraction script. -/
  result : String
  /-- The error of reading the page HTML, if any: `page.MustHTML()` (line 289), on
  the path without data, panics with it. -/
  htmlErr : Option String
  /-- The error of `json.Unmarshal` on `result` for a reason other than a publish
  time (malformed JSON, a value of the wrong type), if any. -/
  syntaxErr : Option String
  /-- The objects of the JSON array that `result` denotes. -/
  items : List NewsJSON
  /-- The value of `time.Now()` in the defaults loop at index `i`. -/
  nowAt : Nat → Int
  /-- The value of `time.Now()` in `updateGlobalCache`. -/
  mergeNow : Int
  /-- The range order of the eviction pass of `updateGlobalCache`. -/
  mergeOrder : RangeOrder
  /-- The range order of `GetGlobalCachedNews`. -/
  readOrder : RangeOrder
  /-- The answer of the page to `FetchNewsDetail` at index `i` of the detail loop. -/
  detailAt : Nat → String → DetailPage
  /-- The Go library function `strings.TrimSpace`. -/
  trimSpace : String → String

/-- The state of the detail loop (lines 337-364): the records already processed,
the content cache, the URLs `FetchNewsDetail` was called with so far, and the
value of the panic that ended the loop, if one did (the counters `successCount`
and `cachedCount` only feed the log line). -/
structure DetailState where
  done : List TelegraphNews
  contentCache : String → Option String
  fetched : List String
  panicked : Option String

/-- One iteration of the detail loop, at index `i` on the record `news`.  A panic of
`FetchNewsDetail` leaves the record unprocessed. -/
def detailStep (env : FetchEnv) (st : DetailState) (i : Nat) (news : TelegraphNews) :
    DetailState :=
  if news.URL ≠ "" then
    match st.contentCache news.URL with
    | some cachedContent =>
      { st with done := st.done ++ [{ news with Content := cachedContent }] }
    | none =>
      match (FetchNewsDetail env.trimSpace (env.detailAt i news.URL)).panicked with
      | some p => { st with fetched := st.fetched ++ [news.URL], panicked := some p }
      | none =>
        match (FetchNewsDetail env.trimSpace (env.detailAt i news.URL)).err with
        | some _ =>
          { st with done := st.done ++ [news], fetched := st.fetched ++ [news.URL] }
        | none =>
          if (FetchNewsDetail env.trimSpace (env.detailAt i news.URL)).content ≠ "" then
            { st with
              done := st.done ++ [{ news with Content :=
                (FetchNewsDetail env.trimSpace (env.detailAt i news.URL)).content }]
              contentCache := fun url =>
                if url = news.URL then
                  some (FetchNewsDetail env.trimSpace (env.detailAt i news.URL)).content
                else st.contentCache url
              fetched := st.fetched ++ [news.URL] }
          else
            { st with done := st.done ++ [news], fetched := st.fetched ++ [news.URL] }
  else
    { st with done := st.done ++ [news] }

/-- The detail loop `for i := range newsList` from index `i` on: a panic in an
iteration ends the loop, the records after it are not visited. -/
def detailLoop (env : FetchEnv) : Nat → List TelegraphNews → DetailState → DetailState
  | _, [], st => st
  | i, news :: rest, st =>
    match (detailStep env st i news).panicked with
    | some _ => detailStep env st i news
    | none => detailLoop env (i + 1) rest (detailStep env st i news)

/-- What one call of `FetchLatestNews` gives and leaves behind: the returned slice
and error, the package-level state, the action, the URLs that `FetchNewsDetail`
was called with, and the value of a panic (`none` when the call returns; when it
panics nothing is returned, and `news` and `err` are empty). -/
structure FetchOutput where
  news : List TelegraphNews
  err : Option String
  global : GlobalState
  action : NewsAction
  fetched : List String
  panicked : Option String

/-- FetchLatestNews (lines 39-368) on the answers `env` of the page.  The error of
`page.Navigate` is returned; `page.MustWaitLoad`, the two `page.MustEval` and
`page.MustHTML` panic with the error of the driver; a panic of `FetchNewsDetail`
goes through the detail loop.  The log lines have no effect. -/
def FetchLatestNews (env : FetchEnv) (limit : Int) (fetchDetail : Bool)
    (g : GlobalState) (n : NewsAction) : FetchOutput :=
  match env.navigateErr with
  | some err => ⟨[], some ("访问财联社电报页面失败: " ++ err), g, n, [], none⟩
  | none =>
    match env.waitLoadErr with
    | some err => ⟨[], none, g, n, [], some err⟩
    | none =>
      match env.debugErr with
      | some err => ⟨[], none, g, n, [], some err⟩
      | none =>
        match env.evalErr with
        | some err => ⟨[], none, g, n, [], some err⟩
        | none =>
          if env.result = "" ∨ env.result = "[]" then
            match env.htmlErr with
            | some err => ⟨[], none, g, n, [], some err⟩
            | none => ⟨[], some "页面未返回新闻数据，请检查页面结构", g, n, [], none⟩
          else
            match env.syntaxErr with
            | some err => ⟨[], some ("解析新闻数据失败: " ++ err), g, n, [], none⟩
            | none =>
              match unmarshalNews env.items with
              | (_, some err) => ⟨[], some ("解析新闻数据失败: " ++ err), g, n, [], none⟩
              | (newsList, none) =>
                let r := FetchLatestNews_ingest env.mergeOrder env.readOrder env.nowAt
                  env.mergeNow limit newsList g
                if ¬ fetchDetail then ⟨r.1, none, r.2, n, [], none⟩
                else
                  let d := detailLoop env 0 r.1
                    { done := [], contentCache := n.contentCache, fetched := [],
                      panicked := none }
                  match d.panicked with
                  | some p => ⟨[], none, r.2, ⟨d.contentCache⟩, d.fetched, some p⟩
                  | none => ⟨d.done, none, r.2, ⟨d.contentCache⟩, d.fetched, none⟩

/-! ## The scheduler (`scheduler.go`) -/

/-- The struct `NewsCache` of `scheduler.go`: the latest batch and the time it was
set (the name `NewsCache` denotes the Go map of the global store in this file). -/
structure SchedulerCache where
  news : List NewsWithAnalysis
  lastUpdate : Int
  deriving DecidableEq

/-- NewNewsCache: an empty cache with the zero time. -/
def NewNewsCache : SchedulerCache := ⟨[], 0⟩

/-- Set: replace the batch and stamp the cache with `now`, the value of `time.Now()`. -/
def SchedulerCache.Set (_c : SchedulerCache) (news : List NewsWithAnalysis) (now : Int) :
    SchedulerCache :=
  ⟨news, now⟩

/-- Get: the batch and its time. -/
def SchedulerCache.Get (c : SchedulerCache) : List NewsWithAnalysis × Int :=
  (c.news, c.lastUpdate)

/-- GetLatest: the first `n` records, or all of them. -/
def SchedulerCache.GetLatest (c : SchedulerCache) (n : Int) : List NewsWithAnalysis :=
  if n ≤ 0 ∨ n > (c.news.length : Int) then c.news else c.news.take n.toNat

/-- The channel `stopChan`: it carries no value, it is only ever closed. -/
inductive StopChan where
  | opened
  | closed
  deriving DecidableEq

/-- A Go value of type `func([]NewsWithAnalysis)`: the scheduler only compares it
with nil and calls it, so it is known by a name. -/
structure Callback where
  name : Nat
  deriving DecidableEq

/-- NewsScheduler: the fields of the struct (`analyzer` has no state, the mutex is
not modelled). -/
structure NewsScheduler where
  interval : Int
  newsAction : NewsAction
  cache : SchedulerCache
  running : Bool
  stopChan : StopChan
  onNewNews : Option Callback

/-- NewNewsScheduler: a stopped scheduler with an empty cache, an open stop channel
and no callback. -/
def NewNewsScheduler (interval : Int) : NewsScheduler :=
  { interval := interval, newsAction := NewNewsAction, cache := NewNewsCache,
    running := false, stopChan := StopChan.opened, onNewNews := none }

/-- The package-level state and one scheduler. -/
structure World where
  global : GlobalState
  scheduler : NewsScheduler

/-- What a scheduler method does that is visible outside of the state. -/
inductive Event where
  /-- A call of `FetchLatestNews` with this limit and detail flag. -/
  | fetch (limit : Int) (fetchDetail : Bool)
  /-- A call of the callback with this slice. -/
  | callback (f : Callback) (items : List NewsWithAnalysis)
  /-- The statement `go s.run(context.Background())`. -/
  | spawnRun
  deriving DecidableEq

/-- What a scheduler method returns and leaves behind: the returned error, the
state, the events in the order they happened, and the value of a panic (`none`
when the method returns; when it panics nothing is returned and `err` is empty). -/
structure CycleOutput where
  err : Option String
  world : World
  events : List Event
  panicked : Option String

/-- findNewNews (lines 185-204): the records of `current` whose ID is not the ID of
a record of `old`.  `oldIDs` lists the keys of the Go map `oldIDs`. -/
def findNewNews (current old : List NewsWithAnalysis) : List NewsWithAnalysis :=
  if old.length = 0 then current
  else
    let oldIDs := old.foldl (fun m news => news.News.ID :: m) []
    current.foldl (fun newNews news =>
      if ¬ (news.News.ID ∈ oldIDs) then newNews ++ [news] else newNews) []

/-- fetchAndAnalyze (lines 143-183): one cycle.  `setNow` is the value of
`time.Now()` in `cache.Set`.  A panic of `FetchLatestNews` goes through: nothing
after the call is executed. -/
def fetchAndAnalyze (env : FetchEnv) (setNow : Int) (w : World) : CycleOutput :=
  let out := FetchLatestNews env 20 false w.global w.scheduler.newsAction
  let w1 : World :=
    { global := out.global, scheduler := { w.scheduler with newsAction := out.action } }
  match out.panicked with
  | some p => ⟨none, w1, [Event.fetch 20 false], some p⟩
  | none =>
    match out.err with
    | some err => ⟨some err, w1, [Event.fetch 20 false], none⟩
    | none =>
      if out.news.length = 0 then ⟨none, w1, [Event.fetch 20 false], none⟩
      else
        let newsWithAnalysis := out.news.map (fun news => ⟨news, none⟩)
        let oldNews := w1.scheduler.cache.Get.1
        let newNewsItems := findNewNews newsWithAnalysis oldNews
        let w2 : World :=
          { w1 with scheduler :=
              { w1.scheduler with cache := w1.scheduler.cache.Set newsWithAnalysis setNow } }
        match w2.scheduler.onNewNews with
        | some f =>
          if newNewsItems.length > 0 then
            ⟨none, w2, [Event.fetch 20 false, Event.callback f newNewsItems], none⟩
          else ⟨none, w2, [Event.fetch 20 false], none⟩
        | none => ⟨none, w2, [Event.fetch 20 false], none⟩

/-- Start (lines 75-96): nothing when already running; otherwise set the flag,
run one cycle (its error is only logged) and spawn the background loop.  A panic
of the cycle goes through after the flag was set: the loop is not spawned. -/
def Start (env : FetchEnv) (setNow : Int) (w : World) : CycleOutput :=
  if w.scheduler.running then ⟨none, w, [], none⟩
  else
    let w1 : World := { w with scheduler := { w.scheduler with running := true } }
    let out := fetchAndAnalyze env setNow w1
    match out.panicked with
    | some p => ⟨none, out.world, out.events, some p⟩
    | none => ⟨none, out.world, out.events ++ [Event.spawnRun], none⟩

/-- Stop (lines 98-110): nothing when not running; otherwise clear the flag and
close the stop channel.  The flag of the result tells whether the call panics:
closing a channel that is already closed panics, after the flag was cleared. -/
def Stop (s : NewsScheduler) : NewsScheduler × Bool :=
  if ¬ s.running then (s, false)
  else
    match s.stopChan with
    | StopChan.opened => ({ s with running := false, stopChan := StopChan.closed }, false)
    | StopChan.closed => ({ s with running := false }, true)

/-- IsRunning: the flag. -/
def IsRunning (s : NewsScheduler) : Bool := s.running

/-- ForceUpdate (lines 224-228): one cycle on demand. -/
def ForceUpdate (env : FetchEnv) (setNow : Int) (w : World) : CycleOutput :=
  fetchAndAnalyze env setNow w

/-! ## Sequences of calls on one scheduler, and the `select` of `run` -/

/-- One call that the owner of a scheduler makes: `Start`, with what the outside
answers during its first cycle, or `Stop`. -/
inductive SchedulerCall where
  | start (env : FetchEnv) (setNow : Int)
  | stop

/-- What a sequence of calls leaves behind: the state, how many times the statement
`close(s.stopChan)` of line 109 was executed, and whether it panicked. -/
structure CallsOutput where
  world : World
  closes : Nat
  panicked : Bool

/-- The calls of a list made one after the other on the same scheduler.  `Stop`
reaches `close(s.stopChan)` exactly when the running flag is set; a panic of
`close` ends the sequence, the calls after it are not made.  (A `Start` whose
cycle panics in the browser driver leaves the state it reached, and the owner
that recovers from it goes on with the next call.) -/
def runCalls : List SchedulerCall → World → CallsOutput
  | [], w => ⟨w, 0, false⟩
  | SchedulerCall.start env setNow :: rest, w => runCalls rest (Start env setNow w).world
  | SchedulerCall.stop :: rest, w =>
    let closes := if w.scheduler.running then 1 else 0
    let out := Stop w.scheduler
    if out.2 then ⟨{ w with scheduler := out.1 }, closes, true⟩
    else
      let r := runCalls rest { w with scheduler := out.1 }
      ⟨r.world, closes + r.closes, r.panicked⟩

/-- The three cases of the `select` statement of `run` (lines 125-139). -/
inductive SelectCase where
  | tick
  | stop
  | ctxDone
  deriving DecidableEq

/-- The cases of the `select` of `run` that can proceed: `<-ticker.C` when a tick is
pending, `<-s.stopChan` when the channel is closed (nothing is ever sent on it, and
a receive from a closed channel proceeds at once), `<-ctx.Done()` when the context
is cancelled.  With the case `stop` the loop returns. -/
def readyCases (tickPending : Bool) (s : NewsScheduler) (ctxDone : Bool) :
    List SelectCase :=
  (if tickPending then [SelectCase.tick] else []) ++
  (if s.stopChan = StopChan.closed then [SelectCase.stop] else []) ++
  (if ctxDone then [SelectCase.ctxDone] else [])

/-! ## Functions used to state and prove the properties -/

/-- The records the loop appends, as a function of the IDs already seen. -/
def keptFrom (seen : List String) : List TelegraphNews → List TelegraphNews
  | [] => []
  | news :: rest =>
    if news.ID = "" then news :: keptFrom seen rest
    else if ¬ (news.ID ∈ seen) then news :: keptFrom (news.ID :: seen) rest
    else keptFrom seen rest

/-- One run of the inner loop, seen from the slot `i`: `x` is the record in slot
`i`, the list holds the records of the slots after it.  Returns the record left
in slot `i` and the records left in the later slots. -/
def passMax (x : TelegraphNews) : List TelegraphNews → TelegraphNews × List TelegraphNews
  | [] => (x, [])
  | y :: ys =>
    if x.PublishTime < y.PublishTime then ((passMax y ys).1, x :: (passMax y ys).2)
    else ((passMax x ys).1, y :: (passMax x ys).2)

/-- The first `n` runs of the outer loop. -/
def sortPasses : Nat → List TelegraphNews → List TelegraphNews
  | 0, l => l
  | _ + 1, [] => []
  | n + 1, x :: xs => (passMax x xs).1 :: sortPasses n (passMax x xs).2

/-- The last record of a batch that carries the ID `k`. -/
def lastWithID (k : String) (batch : List TelegraphNews) : Option TelegraphNews :=
  (batch.filter (fun r => decide (r.ID = k))).getLast?

/-- A record with the given ID, title and publish time, every other field empty. -/
def mkNews (id title : String) (t : Int) : TelegraphNews :=
  { ID := id, Title := title, Content := "", Brief := "", PublishTime := t,
    Source := "", Tags := [], URL := "" }

/-- The range order that visits the entries in the order of the entry list. -/
def listOrder : RangeOrder := ⟨fun l => l, fun l => List.Perm.refl l⟩

/-- The range order that visits the entries in the reverse order of the entry list. -/
def reverseOrder : RangeOrder := ⟨List.reverse, fun l => List.reverse_perm l⟩

/-- The state of a fresh process: an empty cache and the zero cache time. -/
def initialState : GlobalState := ⟨NewsCache.empty, 0⟩

/-- A store of three records, built by one merge into the empty store. -/
def sampleState : GlobalState :=
  updateGlobalCache listOrder 1
    [mkNews "1" "A" 10, mkNews "2" "B" 30, mkNews "3" "C" 20] initialState

/-- A bulletin without an ID, with a publish time and a source. -/
def anonymousNews : TelegraphNews :=
  { ID := "", Title := "flash", Content := "", Brief := "", PublishTime := 7,
    Source := "财联社", Tags := [], URL := "" }

/-- Every entry of the cache is stored under the ID of its record, as all the
writes `globalNewsCache[news.ID] = news` of the package make it. -/
def KeyedByID (c : NewsCache) : Prop := ∀ e ∈ c.entries, e.1 = e.2.ID

/-- The records of all the batches of a sequence of calls, first call first. -/
def allBatches : List MergeCall → List TelegraphNews
  | [] => []
  | c :: cs => c.batch ++ allBatches cs

/-- 101 records that all carry the ID 1, with the publish times 0 to 100. -/
def sameIdBatch : List TelegraphNews :=
  (List.range 101).map (fun i => mkNews "1" "A" i)

/-- 101 calls, each merging one record of `sameIdBatch`. -/
def sameIdCalls : List MergeCall :=
  sameIdBatch.map (fun r => ⟨listOrder, 0, [r]⟩)

/-- 101 records with the IDs 0 to 100 and the common publish time 5. -/
def sameTimeBatch : List TelegraphNews :=
  (List.range 101).map (fun i => mkNews (toString i) "A" 5)

/-- 101 records with the IDs 0 to 100 and the publish times 0 to 100. -/
def risingBatch : List TelegraphNews :=
  (List.range 101).map (fun i => mkNews (toString i) "A" i)

/-- Two calls that merge the first 60 and then the last 41 records of
`risingBatch`. -/
def risingCalls : List MergeCall :=
  [⟨listOrder, 1, risingBatch.take 60⟩, ⟨reverseOrder, 2, risingBatch.drop 60⟩]

/-- An analysis with keywords, industries, stocks and a positive sentiment. -/
def fullAnalysis : NewsAnalysis :=
  { NewsID := "1", Summary := "", Sentiment := "positive", Keywords := ["央行"],
    Industries := ["金融"], Stocks := ["600000"], Impact := "", Prediction := "",
    Confidence := 0, AnalyzedAt := 0 }

/-- An analysis with no keyword, industry or stock and a neutral sentiment. -/
def emptyAnalysis : NewsAnalysis :=
  { NewsID := "1", Summary := "", Sentiment := "neutral", Keywords := [],
    Industries := [], Stocks := [], Impact := "", Prediction := "",
    Confidence := 0, AnalyzedAt := 0 }

/-- One object of the script result with the given ID, title and publish time, and
the source label of the site. -/
def mkItem (id title : String) (time : TimeField) : NewsJSON :=
  { id := id, title := title, content := "", brief := "", publish_time := time,
    source := "财联社", tags := [], url := "" }

/-- The record that `json.Unmarshal` makes of `mkItem id title (rfc3339 t)`. -/
def mkRecord (id title : String) (t : Int) : TelegraphNews :=
  { ID := id, Title := title, Content := "", Brief := "", PublishTime := t,
    Source := "财联社", Tags := [], URL := "" }

/-- A page that loads and whose script returns `result`, the JSON text of `items`;
no call of the driver fails, every call of `time.Now()` gives 1000, no detail
page has content. -/
def pageEnv (result : String) (items : List NewsJSON) : FetchEnv :=
  { navigateErr := none, waitLoadErr := none, debugErr := none, evalErr := none,
    result := result, htmlErr := none, syntaxErr := none, items := items,
    nowAt := fun _ => 1000, mergeNow := 1000, mergeOrder := listOrder,
    readOrder := listOrder, detailAt := fun _ _ => ⟨none, none, none, ""⟩,
    trimSpace := id }

/-- A page with three bulletins. -/
def threeItemsEnv : FetchEnv :=
  pageEnv "[3 objects]"
    [mkItem "a" "first bulletin" (TimeField.rfc3339 10),
     mkItem "b" "second bulletin" (TimeField.rfc3339 30),
     mkItem "c" "third bulletin" (TimeField.rfc3339 20)]

/-- A page on which the script finds nothing. -/
def emptyPageEnv : FetchEnv := pageEnv "[]" []

/-- A fresh process with a new scheduler on which the callback 1 is registered. -/
def callbackWorld : World :=
  ⟨initialState, { NewNewsScheduler 60 with onNewNews := some ⟨1⟩ }⟩

/-- A fresh process with a scheduler that is running. -/
def runningWorld : World :=
  ⟨initialState, { NewNewsScheduler 60 with running := true }⟩

/-- A page with one bulletin that has no publish time. -/
def noTimeEnv : FetchEnv :=
  pageEnv "[1 object]" [mkItem "cls_1" "央行宣布降息" TimeField.absent]

/-- A page with two bulletins; the publish time of the second is the text of the
page element, which is not in RFC 3339 format. -/
def rawTimeEnv : FetchEnv :=
  pageEnv "[2 objects]"
    [mkItem "cls_1" "央行宣布降息" (TimeField.rfc3339 50),
     mkItem "cls_2" "沪指午后走强" (TimeField.other "10:30")]

/-- A page with three bulletins that have the URLs u1, u2 and u3; the detail page
of u2 has a text, every other detail page fails to load. -/
def detailEnv : FetchEnv :=
  { pageEnv "[3 objects]"
      [{ mkItem "a" "first bulletin" (TimeField.rfc3339 30) with url := "u1" },
       { mkItem "b" "second bulletin" (TimeField.rfc3339 20) with url := "u2" },
       { mkItem "c" "third bulletin" (TimeField.rfc3339 10) with url := "u3" }] with
    detailAt := fun _ url =>
      if url = "u2" then ⟨none, none, none, "full text of b"⟩
      else ⟨some "timeout", none, none, ""⟩ }

/-- An action whose content cache holds the text of u1. -/
def cachedAction : NewsAction :=
  ⟨fun url => if url = "u1" then some "cached text of a" else none⟩

/-- The error with which the driver makes `FetchLatestNews` panic before the script
result is looked at: the first of the errors of the load wait, of the debug
script and of the extraction script. -/
def loadPanic (env : FetchEnv) : Option String :=
  match env.waitLoadErr with
  | some err => some err
  | none =>
    match env.debugErr with
    | some err => some err
    | none => env.evalErr

/-- The state in which the detail loop of `FetchLatestNews` starts on the action `n`. -/
def detailStart (n : NewsAction) : DetailState :=
  { done := [], contentCache := n.contentCache, fetched := [], panicked := none }

/-- The snapshot of the store that `FetchLatestNews` takes in detail mode, after the
merge: the list that the detail loop walks through. -/
def detailSnapshot (env : FetchEnv) (limit : Int) (g : GlobalState) (n : NewsAction) :
    List TelegraphNews :=
  (GetGlobalCachedNews env.readOrder limit (FetchLatestNews env limit true g n).global).1

/-- The state of the detail loop of `FetchLatestNews` when it reaches the index `k`
of the snapshot: the loop run on the first `k` records. -/
def detailBefore (env : FetchEnv) (limit : Int) (g : GlobalState) (n : NewsAction)
    (k : Nat) : DetailState :=
  detailLoop env 0 ((detailSnapshot env limit g n).take k) (detailStart n)

/-- A page whose load wait fails: `page.MustWaitLoad()` panics. -/
def loadFailureEnv : FetchEnv :=
  { threeItemsEnv with waitLoadErr := some "context deadline exceeded" }

/-- A page with one bulletin that has a title and no ID, as the script gives it
when it returns the objects of the page state as they are (lines 142-146) and
these have no key `id`. -/
def noIdEnv : FetchEnv :=
  pageEnv "[1 object]"
    [{ id := "", title := "flash without id", content := "", brief := "",
       publish_time := TimeField.absent, source := "", tags := [], url := "" }]

/-- A page on which the script finds nothing and whose HTML cannot be read. -/
def noHtmlEnv : FetchEnv :=
  { emptyPageEnv with htmlErr := some "context deadline exceeded" }

/-- The page of `detailEnv`, but the evaluation of the script on the detail page
of u2 fails. -/
def detailPanicEnv : FetchEnv :=
  { detailEnv with
    detailAt := fun _ url =>
      if url = "u2" then ⟨none, none, some "context deadline exceeded", ""⟩
      else ⟨some "timeout", none, none, ""⟩ }

/-- A fresh process with a new scheduler. -/
def freshWorld : World := ⟨initialState, NewNewsScheduler 60⟩

/-- Whether the first list of characters starts the second. -/
def startsWith : List Char → List Char → Bool
  | [], _ => true
  | _ :: _, [] => false
  | c :: cs, d :: ds => c = d && startsWith cs ds

/-- Whether the first list of characters occurs in the second. -/
def occursIn (sub : List Char) : List Char → Bool
  | [] => sub.isEmpty
  | d :: ds => startsWith sub (d :: ds) || occursIn sub ds

/-- The number of non-overlapping occurrences of a non-empty list of characters in
the first `fuel` positions of a text. -/
def countIn (sub : List Char) : Nat → List Char → Nat
  | 0, _ => 0
  | _ + 1, [] => 0
  | fuel + 1, d :: ds =>
    if startsWith sub (d :: ds) then 1 + countIn sub fuel ((d :: ds).drop sub.length)
    else countIn sub fuel ds

/-- The answers of the Go library on texts of at most 200 bytes, without digits,
whose only cased letters are ASCII, for the words of the analyzer: `ToLower` lowers
the ASCII letters, `Contains` and `Count` look for the characters of the word, the
two patterns of `identifyStocks` need digits and find nothing, and no text is
sliced. -/
def plainTextLib : TextLib :=
  { ToLower := fun s => String.mk (s.data.map Char.toLower),
    Contains := fun s substr => occursIn substr.data s.data,
    Count := fun s substr => countIn substr.data s.data.length s.data,
    FindAllString := fun _ _ => [],
    len := fun s => s.utf8ByteSize,
    slice := fun s _ => s }

/-- The order of a `range` that visits the entries in the order of the list. -/
def listVisit (α : Type) : VisitOrder α := ⟨fun l => l, fun l => List.Perm.refl l⟩

/-- An analyzer with the library answers of `plainTextLib`, exact decimal arithmetic
and the clock at 1000. -/
def plainAnalyzerEnv : AnalyzerEnv :=
  { lib := plainTextLib, rnd := id, keywordOrder := listVisit String,
    industryMapOrder := listVisit (String × List String),
    industryOrder := listVisit String, stockOrder := listVisit String, now := 1000 }

/-- A bulletin about a rate cut that is good for the banks. -/
def rateCutNews : TelegraphNews := mkNews "cls_1" "央行宣布降息，利好银行板块" 100

/-- The store that a call of `updateGlobalCache` leads to, from the point `pc` of the
call and the store `g`, when the call runs alone to its end. -/
def finishMerge (c : MergeCall) (pc : MergePc) (g : GlobalState) : GlobalState :=
  match pc with
  | MergePc.merging rest => updateGlobalCache c.order c.now rest g
  | MergePc.collecting allNews =>
    ⟨keepLatest (sortByPublishTime
      (allNews ++ (c.order.order g.globalNewsCache.values).drop allNews.length)), c.now⟩
  | MergePc.evicting allNews => ⟨keepLatest allNews, c.now⟩
  | MergePc.refilling rest =>
    ⟨rest.foldl (fun c news => c.insert news.ID news) g.globalNewsCache, c.now⟩
  | MergePc.stamping => ⟨g.globalNewsCache, c.now⟩
  | _ => g

/-- The stores that the calls of `updateGlobalCache` which have returned can have
left, when the calls ran one after the other: `a` and `b` tell whether the first
and the second call have returned. -/
def SerialStore (env : ConcEnv) (g0 : GlobalState) (a b : Bool) (G : GlobalState) : Prop :=
  match a, b with
  | false, false => G = g0
  | true, false => G = runMerges g0 [env.first]
  | false, true => G = runMerges g0 [env.second]
  | true, true =>
    G = runMerges g0 [env.first, env.second] ∨ G = runMerges g0 [env.second, env.first]

/-- The slice `result` is what `GetGlobalCachedNews` returns on a store that some of
the two merges, run one after the other, leave. -/
def SerialRead (env : ConcEnv) (g0 : GlobalState) (result : List TelegraphNews) : Prop :=
  ∃ a b G, SerialStore env g0 a b G ∧
    result = (GetGlobalCachedNews env.readOrder env.limit G).1

/-- What holds of the reading goroutine at each point: the records copied so far
are the first records of the `range` over the current map, and a slice already
built is a serial read. -/
def ReaderOk (env : ConcEnv) (g0 : GlobalState) (g : GlobalState) : ReadPc → Prop
  | ReadPc.waiting => True
  | ReadPc.copying newsList =>
    newsList = (env.readOrder.order g.globalNewsCache.values).take newsList.length
  | ReadPc.unlocking result => SerialRead env g0 result
  | ReadPc.finished result => SerialRead env g0 result

/-- The invariant of the three goroutines.  `G` is the store at the last moment at
which the mutex was not held for writing. -/
def ConcInv (env : ConcEnv) (g0 : GlobalState) (s : Conc) : Prop :=
  ∃ G : GlobalState,
    (s.writer = true ↔ inCritical s.first = true ∨ inCritical s.second = true) ∧
    ¬ (inCritical s.first = true ∧ inCritical s.second = true) ∧
    s.readers = (if holdsRead s.reader = true then 1 else 0) ∧
    (s.writer = true → s.readers = 0) ∧
    SerialStore env g0 (decide (s.first = MergePc.finished))
      (decide (s.second = MergePc.finished)) G ∧
    (inCritical s.first = true →
      finishMerge env.first s.first s.g = runMerges G [env.first]) ∧
    (inCritical s.second = true →
      finishMerge env.second s.second s.g = runMerges G [env.second]) ∧
    (s.writer = false → s.g = G) ∧
    ReaderOk env g0 s.g s.reader

/-- A bound on the number of steps that a goroutine at the point `pc` of
`updateGlobalCache` still takes before it has returned, once it holds the mutex. -/
def mergeFuel (pc : MergePc) (g : GlobalState) : Nat :=
  match pc with
  | MergePc.waiting => 0
  | MergePc.merging rest => 2 * rest.length + g.globalNewsCache.len + 106
  | MergePc.collecting allNews => (g.globalNewsCache.len - allNews.length) + 105
  | MergePc.evicting allNews => (allNews.take 100).length + 4
  | MergePc.refilling rest => rest.length + 3
  | MergePc.stamping => 2
  | MergePc.unlocking => 1
  | MergePc.finished => 0

/-- A bound on the number of steps that the reading goroutine still takes before it
has returned, once it holds the mutex. -/
def readFuel (pc : ReadPc) (g : GlobalState) : Nat :=
  match pc with
  | ReadPc.waiting => 0
  | ReadPc.copying newsList => (g.globalNewsCache.len - newsList.length) + 2
  | ReadPc.unlocking _ => 1
  | ReadPc.finished _ => 0

/-- The number of goroutines whose `Lock()` or `RLock()` has not returned. -/
def waitingCount (s : Conc) : Nat :=
  (if s.first = MergePc.waiting then 1 else 0) +
  (if s.second = MergePc.waiting then 1 else 0) +
  (if s.reader = ReadPc.waiting then 1 else 0)

/-- The sum of the bounds of the three goroutines. -/
def concFuel (s : Conc) : Nat :=
  mergeFuel s.first s.g + mergeFuel s.second s.g + readFuel s.reader s.g

/-- The three calls have returned. -/
def AllReturned (s : Conc) : Prop :=
  s.first = MergePc.finished ∧ s.second = MergePc.finished ∧
    ∃ result, s.reader = ReadPc.finished result

/-- The stores that the two merges leave when none, one or both of them run on
`g0`, one after the other. -/
def SerialStores (env : ConcEnv) (g0 : GlobalState) : List GlobalState :=
  [g0, runMerges g0 [env.first], runMerges g0 [env.second],
   runMerges g0 [env.first, env.second], runMerges g0 [env.second, env.first]]

/-- Two merges of one record each and a read without limit. -/
def twoMergesEnv : ConcEnv :=
  { first := ⟨listOrder, 1, [mkNews "1" "A" 10]⟩,
    second := ⟨listOrder, 2, [mkNews "2" "B" 30]⟩,
    readOrder := listOrder, limit := 0 }

/-- A schedule in which the second merge and the read are scheduled while the first
merge holds the mutex, the second merge is scheduled while the read holds it, and
every goroutine returns. -/
def mixedSchedule : List Goroutine :=
  [Goroutine.first, Goroutine.second, Goroutine.reader, Goroutine.first,
   Goroutine.second, Goroutine.first, Goroutine.reader, Goroutine.first,
   Goroutine.first, Goroutine.reader, Goroutine.second, Goroutine.reader,
   Goroutine.second, Goroutine.reader, Goroutine.reader, Goroutine.second,
   Goroutine.second, Goroutine.second, Goroutine.second, Goroutine.second]

/-! # Lemmas and theorems -/

/-! ## The map -/

theorem insertEntry_keys (k : String) (v : TelegraphNews)
    (es : List (String × TelegraphNews)) :
    (insertEntry k v es).map Prod.fst =
      if k ∈ es.map Prod.fst then es.map Prod.fst else es.map Prod.fst ++ [k] := by
  induction es with
  | nil => simp [insertEntry]
  | cons e es ih =>
    simp only [insertEntry]
    by_cases h : e.1 = k
    · simp [h]
    · have hne : ¬ k = e.1 := fun h2 => h h2.symm
      simp only [h, if_false, List.map_cons, ih, List.mem_cons, hne, false_or]
      split <;> simp

theorem find_insertEntry (k k2 : String) (v : TelegraphNews)
    (es : List (String × TelegraphNews)) :
    ((insertEntry k v es).find? (fun e => decide (e.1 = k2))).map Prod.snd =
      if k2 = k then some v else (es.find? (fun e => decide (e.1 = k2))).map Prod.snd := by
  induction es with
  | nil =>
    by_cases h : k2 = k
    · simp [insertEntry, h]
    · have : ¬ k = k2 := fun h2 => h h2.symm
      simp [insertEntry, h, this]
  | cons e es ih =>
    simp only [insertEntry]
    by_cases he : e.1 = k
    · by_cases h : k2 = k
      · simp [he, h]
      · have : ¬ k = k2 := fun h2 => h h2.symm
        simp [he, h, this, List.find?_cons]
    · simp only [he, if_false, List.find?_cons]
      by_cases h2 : e.1 = k2
      · have : ¬ k2 = k := fun h3 => he (h2.trans h3)
        simp [h2, this]
      · simp [h2, ih]

theorem NewsCache.lookup_insert (m : NewsCache) (k k2 : String) (v : TelegraphNews) :
    (m.insert k v).lookup k2 = if k2 = k then some v else m.lookup k2 :=
  find_insertEntry k k2 v m.entries

theorem NewsCache.lookup_empty (k : String) : NewsCache.empty.lookup k = none := rfl

theorem NewsCache.len_insert (m : NewsCache) (k : String) (v : TelegraphNews) :
    (m.insert k v).len = if k ∈ m.entries.map Prod.fst then m.len else m.len + 1 := by
  have h := congrArg List.length (insertEntry_keys k v m.entries)
  simp only [List.length_map] at h
  unfold NewsCache.len NewsCache.insert
  simp only
  rw [h]
  split <;> simp

theorem NewsCache.len_insert_le (m : NewsCache) (k : String) (v : TelegraphNews) :
    (m.insert k v).len ≤ m.len + 1 := by
  rw [NewsCache.len_insert]; split <;> omega

theorem NewsCache.len_values (m : NewsCache) : m.values.length = m.len := by
  simp [NewsCache.values, NewsCache.len]

theorem mem_insertEntry_values (k : String) (v x : TelegraphNews)
    (es : List (String × TelegraphNews))
    (h : x ∈ (insertEntry k v es).map Prod.snd) : x = v ∨ x ∈ es.map Prod.snd := by
  induction es with
  | nil => simpa [insertEntry] using h
  | cons e es ih =>
    simp only [insertEntry] at h
    split at h
    · simp only [List.map_cons, List.mem_cons] at h ⊢
      rcases h with h1 | h1
      · exact Or.inl h1
      · exact Or.inr (Or.inr h1)
    · simp only [List.map_cons, List.mem_cons] at h ⊢
      rcases h with h1 | h1
      · exact Or.inr (Or.inl h1)
      · rcases ih h1 with h2 | h2
        · exact Or.inl h2
        · exact Or.inr (Or.inr h2)

theorem NewsCache.mem_values_insert (m : NewsCache) (k : String) (v x : TelegraphNews)
    (h : x ∈ (m.insert k v).values) : x = v ∨ x ∈ m.values :=
  mem_insertEntry_values k v x m.entries h

theorem foldl_insert_len_le (l : List TelegraphNews) (c : NewsCache) :
    (l.foldl (fun c news => c.insert news.ID news) c).len ≤ c.len + l.length := by
  induction l generalizing c with
  | nil => simp
  | cons x xs ih =>
    simp only [List.foldl_cons, List.length_cons]
    have h1 := ih (c.insert x.ID x)
    have h2 := c.len_insert_le x.ID x
    omega

theorem keepLatest_len_le (l : List TelegraphNews) : (keepLatest l).len ≤ 100 := by
  unfold keepLatest
  have h := foldl_insert_len_le (l.take 100) NewsCache.empty
  have h2 : (l.take 100).length ≤ 100 := by simp
  have h3 : NewsCache.empty.len = 0 := rfl
  omega

theorem updateGlobalCache_len_le (σ : RangeOrder) (now : Int) (batch : List TelegraphNews)
    (g : GlobalState) : (updateGlobalCache σ now batch g).globalNewsCache.len ≤ 100 := by
  unfold updateGlobalCache
  simp only
  split
  · exact keepLatest_len_le _
  · next h => omega

theorem runMerges_append (g : GlobalState) (cs ds : List MergeCall) :
    runMerges g (cs ++ ds) = runMerges (runMerges g cs) ds := by
  induction cs generalizing g with
  | nil => rfl
  | cons c cs ih => simp [runMerges, ih]

/-! ## The swap sort -/

theorem getElem?_mid (pre post : List TelegraphNews) (x : TelegraphNews) :
    (pre ++ x :: post)[pre.length]? = some x := by
  induction pre with
  | nil => simp
  | cons p ps ih => simpa using ih

theorem set_mid (pre post : List TelegraphNews) (x z : TelegraphNews) :
    (pre ++ x :: post).set pre.length z = pre ++ z :: post := by
  induction pre with
  | nil => rfl
  | cons p ps ih => simp

theorem compareSwap_mid (pre mid post : List TelegraphNews) (x y : TelegraphNews) :
    compareSwap (pre ++ x :: (mid ++ y :: post)) pre.length (pre.length + 1 + mid.length) =
      if x.PublishTime < y.PublishTime then pre ++ y :: (mid ++ x :: post)
      else pre ++ x :: (mid ++ y :: post) := by
  have h1 : (pre ++ x :: (mid ++ y :: post))[pre.length]? = some x := getElem?_mid _ _ _
  have h2 : (pre ++ x :: (mid ++ y :: post))[pre.length + 1 + mid.length]? = some y := by
    have := getElem?_mid (pre ++ x :: mid) post y
    rw [List.length_append, List.length_cons, List.append_assoc, List.cons_append] at this
    rw [← this]
    congr 1
    omega
  unfold compareSwap
  rw [h1, h2]
  simp only
  split
  · rw [set_mid]
    have := set_mid (pre ++ y :: mid) post y x
    rw [List.length_append, List.length_cons, List.append_assoc, List.cons_append,
      List.append_assoc, List.cons_append] at this
    rw [← this]
    congr 1
    omega
  · rfl

theorem passMax_length (x : TelegraphNews) (l : List TelegraphNews) :
    (passMax x l).2.length = l.length := by
  induction l generalizing x with
  | nil => rfl
  | cons y ys ih =>
    simp only [passMax]
    split <;> simp [ih]

theorem sortInner_fold (pre mid rest : List TelegraphNews) (x : TelegraphNews) :
    (List.range' (pre.length + 1 + mid.length) rest.length).foldl
        (fun a j => compareSwap a pre.length j) (pre ++ x :: (mid ++ rest)) =
      pre ++ (passMax x rest).1 :: (mid ++ (passMax x rest).2) := by
  induction rest generalizing x mid with
  | nil => simp [passMax]
  | cons y ys ih =>
    rw [List.length_cons, List.range'_succ, List.foldl_cons, compareSwap_mid]
    simp only [passMax]
    split
    · have := ih (mid ++ [x]) y
      simpa [Nat.add_assoc] using this
    · have := ih (mid ++ [y]) x
      simpa [Nat.add_assoc] using this

theorem sortInner_eq (pre xs : List TelegraphNews) (x : TelegraphNews) :
    sortInner pre.length (pre ++ x :: xs) = pre ++ (passMax x xs).1 :: (passMax x xs).2 := by
  unfold sortInner
  have h := sortInner_fold pre [] xs x
  have hl : (pre ++ x :: xs).length - (pre.length + 1) = xs.length := by
    simp; omega
  rw [hl]
  simpa using h

theorem sortOuter_fold (n : Nat) (pre l : List TelegraphNews) (h : n ≤ l.length - 1) :
    (List.range' pre.length n).foldl (fun a i => sortInner i a) (pre ++ l) =
      pre ++ sortPasses n l := by
  induction n generalizing pre l with
  | zero => simp [sortPasses]
  | succ n ih =>
    match l, h with
    | [], h => simp at h
    | x :: xs, h =>
      rw [List.range'_succ, List.foldl_cons, sortInner_eq]
      simp only [sortPasses]
      have hlen : n ≤ (passMax x xs).2.length - 1 := by
        rw [passMax_length]; simp at h; omega
      have := ih (pre ++ [(passMax x xs).1]) (passMax x xs).2 hlen
      simpa using this

theorem sortByPublishTime_eq (a : List TelegraphNews) :
    sortByPublishTime a = sortPasses (a.length - 1) a := by
  unfold sortByPublishTime
  rw [List.range_eq_range']
  have := sortOuter_fold (a.length - 1) [] a (le_refl _)
  simpa using this
theorem passMax_perm (x : TelegraphNews) (l : List TelegraphNews) :
    ((passMax x l).1 :: (passMax x l).2).Perm (x :: l) := by
  induction l generalizing x with
  | nil => simp [passMax]
  | cons y ys ih =>
    simp only [passMax]
    split
    · exact (List.Perm.swap x _ _).trans ((ih y).cons x)
    · exact (List.Perm.swap y _ _).trans (((ih x).cons y).trans (List.Perm.swap x y ys))

theorem passMax_ge (x : TelegraphNews) (l : List TelegraphNews) :
    x.PublishTime ≤ (passMax x l).1.PublishTime ∧
    ∀ y ∈ (passMax x l).2, y.PublishTime ≤ (passMax x l).1.PublishTime := by
  induction l generalizing x with
  | nil => simp [passMax]
  | cons y ys ih =>
    simp only [passMax]
    split
    · next h =>
      have hy := ih y
      refine ⟨le_trans (le_of_lt h) hy.1, ?_⟩
      intro z hz
      rcases List.mem_cons.mp hz with hzx | hzr
      · subst hzx; exact le_trans (le_of_lt h) hy.1
      · exact hy.2 z hzr
    · next h =>
      have hx := ih x
      refine ⟨hx.1, ?_⟩
      intro z hz
      rcases List.mem_cons.mp hz with hzy | hzr
      · subst hzy; exact le_trans (not_lt.mp h) hx.1
      · exact hx.2 z hzr

theorem passMax_of_ge (x : TelegraphNews) (l : List TelegraphNews)
    (h : ∀ y ∈ l, y.PublishTime ≤ x.PublishTime) : passMax x l = (x, l) := by
  induction l with
  | nil => rfl
  | cons y ys ih =>
    have hy : ¬ x.PublishTime < y.PublishTime := not_lt.mpr (h y (List.mem_cons_self _ _))
    simp only [passMax, hy, if_false]
    rw [ih (fun z hz => h z (List.mem_cons_of_mem _ hz))]

theorem sortPasses_perm (n : Nat) (l : List TelegraphNews) : (sortPasses n l).Perm l := by
  induction n generalizing l with
  | zero => simp [sortPasses]
  | succ n ih =>
    cases l with
    | nil => simp [sortPasses]
    | cons x xs =>
      simp only [sortPasses]
      exact ((ih _).cons _).trans (passMax_perm x xs)

theorem sortPasses_sorted (n : Nat) (l : List TelegraphNews) (h : l.length ≤ n + 1) :
    (sortPasses n l).Pairwise (fun a b => b.PublishTime ≤ a.PublishTime) := by
  induction n generalizing l with
  | zero =>
    simp only [sortPasses]
    match l, h with
    | [], _ => exact List.Pairwise.nil
    | [x], _ => exact List.pairwise_singleton _ _
  | succ n ih =>
    cases l with
    | nil => simp [sortPasses]
    | cons x xs =>
      simp only [sortPasses]
      refine List.pairwise_cons.mpr ⟨?_, ih _ ?_⟩
      · intro y hy
        exact (passMax_ge x xs).2 y ((sortPasses_perm n _).mem_iff.mp hy)
      · rw [passMax_length]; simpa using h

theorem sortPasses_of_sorted (n : Nat) (l : List TelegraphNews)
    (h : l.Pairwise (fun a b => b.PublishTime ≤ a.PublishTime)) : sortPasses n l = l := by
  induction n generalizing l with
  | zero => rfl
  | succ n ih =>
    cases l with
    | nil => rfl
    | cons x xs =>
      have hx := List.pairwise_cons.mp h
      simp only [sortPasses]
      rw [passMax_of_ge x xs hx.1]
      simp [ih xs hx.2]

theorem sortByPublishTime_perm (a : List TelegraphNews) : (sortByPublishTime a).Perm a := by
  rw [sortByPublishTime_eq]; exact sortPasses_perm _ a

theorem sortByPublishTime_sorted (a : List TelegraphNews) :
    (sortByPublishTime a).Pairwise (fun x y => y.PublishTime ≤ x.PublishTime) := by
  rw [sortByPublishTime_eq]; exact sortPasses_sorted _ a (by omega)

theorem sortByPublishTime_of_sorted (a : List TelegraphNews)
    (h : a.Pairwise (fun x y => y.PublishTime ≤ x.PublishTime)) : sortByPublishTime a = a := by
  rw [sortByPublishTime_eq]; exact sortPasses_of_sorted _ a h

theorem sortByPublishTime_length (a : List TelegraphNews) :
    (sortByPublishTime a).length = a.length := (sortByPublishTime_perm a).length_eq

/-! ## The merge loop -/

theorem lastWithID_cons_of_mem (k : String) (n : TelegraphNews) (rest : List TelegraphNews)
    (h : k ∈ rest.map TelegraphNews.ID) : lastWithID k (n :: rest) = lastWithID k rest := by
  unfold lastWithID
  have hne : rest.filter (fun r => decide (r.ID = k)) ≠ [] := by
    intro h0
    rw [List.filter_eq_nil_iff] at h0
    obtain ⟨r, hr, hrk⟩ := List.mem_map.mp h
    exact h0 r hr (by simpa using hrk)
  rw [List.filter_cons]
  split
  · rw [List.getLast?_cons]
    cases hg : (rest.filter (fun r => decide (r.ID = k))).getLast? with
    | none => exact absurd (List.getLast?_eq_none_iff.mp hg) hne
    | some r => rfl
  · rfl

theorem lastWithID_cons_of_not_mem (k : String) (n : TelegraphNews)
    (rest : List TelegraphNews) (h : k ∉ rest.map TelegraphNews.ID) :
    lastWithID k (n :: rest) = if n.ID = k then some n else none := by
  unfold lastWithID
  have hnil : rest.filter (fun r => decide (r.ID = k)) = [] := by
    rw [List.filter_eq_nil_iff]
    intro r hr hrk
    exact h (List.mem_map.mpr ⟨r, hr, by simpa using hrk⟩)
  rw [List.filter_cons, hnil]
  by_cases hk : n.ID = k <;> simp [hk]

theorem mergeNews_lookup_of_not_mem (c : NewsCache) (batch : List TelegraphNews) (k : String)
    (h : k = "" ∨ k ∉ batch.map TelegraphNews.ID) :
    (mergeNews c batch).lookup k = c.lookup k := by
  induction batch generalizing c with
  | nil => rfl
  | cons n rest ih =>
    have hrest : k = "" ∨ k ∉ rest.map TelegraphNews.ID := by
      rcases h with h | h
      · exact Or.inl h
      · exact Or.inr (fun hm => h (by simp only [List.map_cons, List.mem_cons]; exact Or.inr hm))
    simp only [mergeNews]
    split
    · next hn =>
      rw [ih _ hrest, NewsCache.lookup_insert]
      have hkn : ¬ k = n.ID := by
        rcases h with h | h
        · intro h2; exact hn (h2 ▸ h)
        · intro h2; exact h (by simp [h2])
      simp [hkn]
    · exact ih c hrest

theorem mergeNews_lookup_of_mem (c : NewsCache) (batch : List TelegraphNews) (k : String)
    (hk : k ≠ "") (h : k ∈ batch.map TelegraphNews.ID) :
    (mergeNews c batch).lookup k = lastWithID k batch := by
  induction batch generalizing c with
  | nil => simp at h
  | cons n rest ih =>
    by_cases hrest : k ∈ rest.map TelegraphNews.ID
    · rw [lastWithID_cons_of_mem k n rest hrest]
      simp only [mergeNews]
      split
      · exact ih _ hrest
      · exact ih _ hrest
    · have hnk : n.ID = k := by
        simp only [List.map_cons, List.mem_cons] at h
        rcases h with h | h
        · exact h.symm
        · exact absurd h hrest
      have hn : n.ID ≠ "" := by rw [hnk]; exact hk
      rw [lastWithID_cons_of_not_mem k n rest hrest]
      simp only [mergeNews]
      rw [if_pos hn, mergeNews_lookup_of_not_mem _ rest k (Or.inr hrest),
        NewsCache.lookup_insert]
      simp [hnk]

theorem perm_pair (a b : TelegraphNews) (l : List TelegraphNews) (h : l.Perm [a, b]) :
    l = [a, b] ∨ l = [b, a] := by
  have hlen := h.length_eq
  match l, hlen with
  | [x, y], _ =>
    have hx : x ∈ [a, b] := h.mem_iff.mp (List.mem_cons_self _ _)
    simp only [List.mem_cons, List.mem_singleton, List.not_mem_nil, or_false] at hx
    rcases hx with hx | hx
    · subst hx
      have := List.perm_singleton.mp (List.Perm.cons_inv h)
      simp at this
      left; simp [this]
    · subst hx
      have h2 : [x, y].Perm [x, a] := h.trans (List.Perm.swap x a [])
      have := List.perm_singleton.mp (List.Perm.cons_inv h2)
      simp at this
      right; simp [this]

theorem mergeNews_mem_values (c : NewsCache) (batch : List TelegraphNews) (x : TelegraphNews)
    (h : x ∈ (mergeNews c batch).values) : x ∈ c.values ∨ (x ∈ batch ∧ x.ID ≠ "") := by
  induction batch generalizing c with
  | nil => exact Or.inl h
  | cons n rest ih =>
    simp only [mergeNews] at h
    split at h
    · next hn =>
      rcases ih _ h with h1 | h1
      · rcases c.mem_values_insert n.ID n x h1 with h2 | h2
        · subst h2; exact Or.inr ⟨List.mem_cons_self _ _, hn⟩
        · exact Or.inl h2
      · exact Or.inr ⟨List.mem_cons_of_mem _ h1.1, h1.2⟩
    · rcases ih _ h with h1 | h1
      · exact Or.inl h1
      · exact Or.inr ⟨List.mem_cons_of_mem _ h1.1, h1.2⟩

theorem foldl_insert_mem_values (l : List TelegraphNews) (c : NewsCache) (x : TelegraphNews)
    (h : x ∈ (l.foldl (fun c news => c.insert news.ID news) c).values) :
    x ∈ c.values ∨ x ∈ l := by
  induction l generalizing c with
  | nil => exact Or.inl h
  | cons n rest ih =>
    simp only [List.foldl_cons] at h
    rcases ih _ h with h1 | h1
    · rcases c.mem_values_insert n.ID n x h1 with h2 | h2
      · subst h2; exact Or.inr (List.mem_cons_self _ _)
      · exact Or.inl h2
    · exact Or.inr (List.mem_cons_of_mem _ h1)

theorem keepLatest_mem_values (l : List TelegraphNews) (x : TelegraphNews)
    (h : x ∈ (keepLatest l).values) : x ∈ l := by
  rcases foldl_insert_mem_values (l.take 100) NewsCache.empty x h with h1 | h1
  · simp [NewsCache.values, NewsCache.empty] at h1
  · exact List.mem_of_mem_take h1

theorem updateGlobalCache_mem_values (σ : RangeOrder) (now : Int) (batch : List TelegraphNews)
    (g : GlobalState) (x : TelegraphNews)
    (h : x ∈ (updateGlobalCache σ now batch g).globalNewsCache.values) :
    x ∈ g.globalNewsCache.values ∨ (x ∈ batch ∧ x.ID ≠ "") := by
  simp only [updateGlobalCache] at h
  split at h
  · have h1 := keepLatest_mem_values _ x h
    have h2 := (σ.perm _).mem_iff.mp ((sortByPublishTime_perm _).mem_iff.mp h1)
    exact mergeNews_mem_values _ _ x h2
  · exact mergeNews_mem_values _ _ x h

theorem GetGlobalCachedNews_mem (σ : RangeOrder) (limit : Int) (g : GlobalState)
    (x : TelegraphNews) (h : x ∈ (GetGlobalCachedNews σ limit g).1) :
    x ∈ g.globalNewsCache.values := by
  simp only [GetGlobalCachedNews] at h
  split at h
  · exact (σ.perm _).mem_iff.mp ((sortByPublishTime_perm _).mem_iff.mp (List.mem_of_mem_take h))
  · exact (σ.perm _).mem_iff.mp ((sortByPublishTime_perm _).mem_iff.mp h)

/-! ## Caches keyed by the record ID -/

theorem insertEntry_of_not_mem (k : String) (v : TelegraphNews)
    (es : List (String × TelegraphNews)) (h : k ∉ es.map Prod.fst) :
    insertEntry k v es = es ++ [(k, v)] := by
  induction es with
  | nil => rfl
  | cons e es ih =>
    simp only [List.map_cons, List.mem_cons, not_or] at h
    have he : ¬ e.1 = k := fun h2 => h.1 h2.symm
    simp [insertEntry, he, ih h.2]

theorem mem_insertEntry (k : String) (v : TelegraphNews) (e : String × TelegraphNews)
    (es : List (String × TelegraphNews)) (h : e ∈ insertEntry k v es) :
    e = (k, v) ∨ e ∈ es := by
  induction es with
  | nil => simpa [insertEntry] using h
  | cons e2 es ih =>
    simp only [insertEntry] at h
    split at h
    · rcases List.mem_cons.mp h with h1 | h1
      · exact Or.inl h1
      · exact Or.inr (List.mem_cons_of_mem _ h1)
    · rcases List.mem_cons.mp h with h1 | h1
      · exact Or.inr (h1 ▸ List.mem_cons_self _ _)
      · rcases ih h1 with h2 | h2
        · exact Or.inl h2
        · exact Or.inr (List.mem_cons_of_mem _ h2)

theorem find_eq_some_iff_mem (es : List (String × TelegraphNews))
    (hnd : (es.map Prod.fst).Nodup) (k : String) (v : TelegraphNews) :
    (es.find? (fun e => decide (e.1 = k))).map Prod.snd = some v ↔ (k, v) ∈ es := by
  induction es with
  | nil => simp
  | cons e es ih =>
    have hnd2 : e.1 ∉ es.map Prod.fst ∧ (es.map Prod.fst).Nodup := by
      rw [List.map_cons] at hnd
      exact List.nodup_cons.mp hnd
    rw [List.find?_cons]
    by_cases he : e.1 = k
    · simp only [he, decide_True, Option.map_some', Option.some.injEq, List.mem_cons]
      constructor
      · intro h
        left
        rw [← h, ← he]
      · intro h
        rcases h with h | h
        · rw [← h]
        · exfalso
          apply hnd2.1
          rw [he]
          exact List.mem_map.mpr ⟨(k, v), h, rfl⟩
    · simp only [he, decide_False, List.mem_cons]
      rw [ih hnd2.2]
      constructor
      · intro h; exact Or.inr h
      · intro h
        rcases h with h | h
        · exfalso; apply he; rw [← h]
        · exact h

theorem NewsCache.lookup_eq_some_iff (c : NewsCache) (k : String) (v : TelegraphNews) :
    c.lookup k = some v ↔ (k, v) ∈ c.entries :=
  find_eq_some_iff_mem c.entries c.nodupKeys k v

theorem KeyedByID.entries_eq {c : NewsCache} (h : KeyedByID c) :
    c.entries = c.values.map (fun r => (r.ID, r)) := by
  unfold NewsCache.values
  rw [List.map_map]
  conv_lhs => rw [← List.map_id c.entries]
  apply List.map_congr_left
  intro e he
  have := h e he
  simp only [id, Function.comp]
  exact Prod.ext this rfl

theorem KeyedByID.keys_eq {c : NewsCache} (h : KeyedByID c) :
    c.entries.map Prod.fst = c.values.map TelegraphNews.ID := by
  conv_lhs => rw [h.entries_eq]
  rw [List.map_map]
  rfl

theorem KeyedByID.nodup_ids {c : NewsCache} (h : KeyedByID c) :
    (c.values.map TelegraphNews.ID).Nodup := by
  rw [← h.keys_eq]; exact c.nodupKeys

theorem KeyedByID.nodup_values {c : NewsCache} (h : KeyedByID c) : c.values.Nodup :=
  List.Nodup.of_map _ h.nodup_ids

theorem KeyedByID.lookup_some_iff_mem {c : NewsCache} (h : KeyedByID c) (k : String)
    (v : TelegraphNews) : c.lookup k = some v ↔ v ∈ c.values ∧ v.ID = k := by
  rw [c.lookup_eq_some_iff]
  constructor
  · intro hm
    have := h _ hm
    exact ⟨List.mem_map.mpr ⟨(k, v), hm, rfl⟩, this.symm⟩
  · intro ⟨hm, hk⟩
    obtain ⟨e, he, hev⟩ := List.mem_map.mp hm
    have := h e he
    have hek : e = (k, v) := Prod.ext (by rw [this, hev, hk]) hev
    rw [← hek]; exact he

theorem KeyedByID.lookup_ext {c₁ c₂ : NewsCache} (h₁ : KeyedByID c₁) (h₂ : KeyedByID c₂)
    (h : ∀ v, v ∈ c₁.values ↔ v ∈ c₂.values) (k : String) : c₁.lookup k = c₂.lookup k := by
  apply Option.ext
  intro v
  simp only [Option.mem_def]
  rw [h₁.lookup_some_iff_mem, h₂.lookup_some_iff_mem, h v]

theorem KeyedByID.of_empty : KeyedByID NewsCache.empty := by
  intro e he
  simp [NewsCache.empty] at he

theorem KeyedByID.after_insert {c : NewsCache} (h : KeyedByID c) (r : TelegraphNews) :
    KeyedByID (c.insert r.ID r) := by
  intro e he
  rcases mem_insertEntry r.ID r e c.entries he with h1 | h1
  · rw [h1]
  · exact h e h1

theorem KeyedByID.after_mergeNews {c : NewsCache} (h : KeyedByID c) (batch : List TelegraphNews) :
    KeyedByID (mergeNews c batch) := by
  induction batch generalizing c with
  | nil => exact h
  | cons n rest ih =>
    simp only [mergeNews]
    split
    · exact ih (h.after_insert n)
    · exact ih h

theorem KeyedByID.after_foldl_insert {c : NewsCache} (h : KeyedByID c) (l : List TelegraphNews) :
    KeyedByID (l.foldl (fun c news => c.insert news.ID news) c) := by
  induction l generalizing c with
  | nil => exact h
  | cons n rest ih => exact ih (h.after_insert n)

theorem KeyedByID.of_keepLatest (l : List TelegraphNews) : KeyedByID (keepLatest l) :=
  KeyedByID.of_empty.after_foldl_insert _

theorem KeyedByID.after_updateGlobalCache {g : GlobalState} (h : KeyedByID g.globalNewsCache)
    (σ : RangeOrder) (now : Int) (batch : List TelegraphNews) :
    KeyedByID (updateGlobalCache σ now batch g).globalNewsCache := by
  simp only [updateGlobalCache]
  split
  · exact KeyedByID.of_keepLatest _
  · exact h.after_mergeNews batch

theorem foldl_insert_values_fresh (l : List TelegraphNews) (c : NewsCache)
    (hnd : (l.map TelegraphNews.ID).Nodup)
    (hfresh : ∀ r ∈ l, r.ID ∉ c.entries.map Prod.fst) :
    (l.foldl (fun c news => c.insert news.ID news) c).values = c.values ++ l := by
  induction l generalizing c with
  | nil => simp
  | cons n rest ih =>
    have hnd2 : n.ID ∉ rest.map TelegraphNews.ID ∧ (rest.map TelegraphNews.ID).Nodup := by
      rw [List.map_cons] at hnd
      exact List.nodup_cons.mp hnd
    have hn := hfresh n (List.mem_cons_self _ _)
    have hins : (c.insert n.ID n).entries = c.entries ++ [(n.ID, n)] :=
      insertEntry_of_not_mem n.ID n c.entries hn
    simp only [List.foldl_cons]
    rw [ih (c.insert n.ID n) hnd2.2]
    · simp [NewsCache.values, hins]
    · intro r hr
      rw [hins]
      simp only [List.map_append, List.map_cons, List.map_nil, List.mem_append,
        List.mem_singleton, not_or]
      refine ⟨hfresh r (List.mem_cons_of_mem _ hr), ?_⟩
      intro heq
      exact hnd2.1 (List.mem_map.mpr ⟨r, hr, heq⟩)

theorem mergeNews_eq_foldl (c : NewsCache) (batch : List TelegraphNews)
    (hne : ∀ r ∈ batch, r.ID ≠ "") :
    mergeNews c batch = batch.foldl (fun c news => c.insert news.ID news) c := by
  induction batch generalizing c with
  | nil => rfl
  | cons n rest ih =>
    simp only [mergeNews, List.foldl_cons]
    rw [if_pos (hne n (List.mem_cons_self _ _))]
    exact ih _ (fun r hr => hne r (List.mem_cons_of_mem _ hr))

theorem keepLatest_values (l : List TelegraphNews) (hnd : (l.map TelegraphNews.ID).Nodup) :
    (keepLatest l).values = l.take 100 := by
  unfold keepLatest
  rw [foldl_insert_values_fresh]
  · simp [NewsCache.values, NewsCache.empty]
  · exact ((List.take_sublist 100 l).map _).nodup hnd
  · intro r _
    simp [NewsCache.empty]

/-! ## The latest records of a list -/

theorem exists_mem_not_mem (T T2 : List TelegraphNews) (hnd : T.Nodup)
    (hlen : T2.length ≤ T.length) (x : TelegraphNews) (hx : x ∈ T2) (hxn : x ∉ T) :
    ∃ t, t ∈ T ∧ t ∉ T2 := by
  by_contra hcon
  have hsub : T ⊆ T2 := by
    intro t ht
    by_contra htn
    exact hcon ⟨t, ht, htn⟩
  have hperm : T.Perm T2 := (List.subperm_of_subset hnd hsub).perm_of_length_le hlen
  exact hxn (hperm.mem_iff.mpr hx)

theorem pairwise_take_drop {R : TelegraphNews → TelegraphNews → Prop} (L : List TelegraphNews)
    (n : Nat) (h : L.Pairwise R) : ∀ x ∈ L.take n, ∀ y ∈ L.drop n, R x y := by
  have h2 : (L.take n ++ L.drop n).Pairwise R := by rw [List.take_append_drop]; exact h
  exact (List.pairwise_append.mp h2).2.2

theorem mem_take_or_drop (L : List TelegraphNews) (n : Nat) (x : TelegraphNews) (h : x ∈ L) :
    x ∈ L.take n ∨ x ∈ L.drop n := by
  rw [← List.take_append_drop n L] at h
  exact List.mem_append.mp h

theorem drop_eq_nil_or_take_length (L : List TelegraphNews) (n : Nat) :
    L.drop n = [] ∨ (L.take n).length = n := by
  by_cases h : L.length ≤ n
  · exact Or.inl (List.drop_of_length_le h)
  · right
    rw [List.length_take]
    omega

/-- The cache holds the 100 first records of some time-descending arrangement of
the list `A`. -/
theorem holdsLatest_step (σ : RangeOrder) (now : Int) (A B : List TelegraphNews)
    (g : GlobalState) (hkey : KeyedByID g.globalNewsCache)
    (hinv : ∃ L : List TelegraphNews, L.Perm A ∧
      L.Pairwise (fun a b => b.PublishTime ≤ a.PublishTime) ∧
      g.globalNewsCache.values.Perm (L.take 100))
    (hnd : ((A ++ B).map TelegraphNews.ID).Nodup) (hne : ∀ b ∈ B, b.ID ≠ "") :
    ∃ L : List TelegraphNews, L.Perm (A ++ B) ∧
      L.Pairwise (fun a b => b.PublishTime ≤ a.PublishTime) ∧
      (updateGlobalCache σ now B g).globalNewsCache.values.Perm (L.take 100) := by
  obtain ⟨L, hLA, hLs, hv⟩ := hinv
  have hndAB : (A ++ B).Nodup := List.Nodup.of_map _ hnd
  have hndLB : ((L ++ B).map TelegraphNews.ID).Nodup :=
    (((hLA.append_right B).map _).nodup_iff).mpr hnd
  have hndL : L.Nodup := (List.nodup_append.mp (List.Nodup.of_map _ hndLB)).1
  have hndB : (B.map TelegraphNews.ID).Nodup := by
    rw [List.map_append] at hnd
    exact (List.nodup_append.mp hnd).2.1
  have hdisj : ∀ a ∈ A, ∀ b ∈ B, a.ID ≠ b.ID := by
    rw [List.map_append] at hnd
    intro a ha b hb heq
    exact (List.nodup_append.mp hnd).2.2 (List.mem_map.mpr ⟨a, ha, rfl⟩)
      (List.mem_map.mpr ⟨b, hb, heq.symm⟩)
  have hfresh : ∀ b ∈ B, b.ID ∉ g.globalNewsCache.entries.map Prod.fst := by
    intro b hb hmem
    rw [hkey.keys_eq] at hmem
    obtain ⟨v, hv1, hv2⟩ := List.mem_map.mp hmem
    have hvA : v ∈ A := hLA.mem_iff.mp (List.mem_of_mem_take (hv.mem_iff.mp hv1))
    exact hdisj v hvA b hb hv2
  have hM : (mergeNews g.globalNewsCache B).values = g.globalNewsCache.values ++ B := by
    rw [mergeNews_eq_foldl _ _ hne]
    exact foldl_insert_values_fresh B _ hndB hfresh
  have hMlen : (mergeNews g.globalNewsCache B).len = (L.take 100).length + B.length := by
    rw [← NewsCache.len_values, hM, List.length_append, hv.length_eq]
  have hMperm : (mergeNews g.globalNewsCache B).values.Perm (L.take 100 ++ B) := by
    rw [hM]; exact hv.append_right B
  simp only [updateGlobalCache]
  split
  · next hgt =>
    have hSperm : (sortByPublishTime (σ.order (mergeNews g.globalNewsCache B).values)).Perm
        (L.take 100 ++ B) :=
      (sortByPublishTime_perm _).trans ((σ.perm _).trans hMperm)
    have hSsorted := sortByPublishTime_sorted (σ.order (mergeNews g.globalNewsCache B).values)
    generalize sortByPublishTime (σ.order (mergeNews g.globalNewsCache B).values) = S
      at hSperm hSsorted
    have hSlen : 100 < S.length := by
      rw [hSperm.length_eq, List.length_append, ← hMlen]; exact hgt
    have hsubl : ((L.take 100 ++ B).map TelegraphNews.ID).Nodup :=
      ((((List.take_sublist 100 L).append_right B)).map _).nodup hndLB
    have hSids : (S.map TelegraphNews.ID).Nodup := ((hSperm.map _).nodup_iff).mpr hsubl
    have hStake : (S.take 100).length = 100 := by
      rw [List.length_take]; omega
    rw [keepLatest_values S hSids]
    refine ⟨S.take 100 ++ sortByPublishTime (S.drop 100 ++ L.drop 100), ?_, ?_, ?_⟩
    · have h1 : (S.take 100 ++ sortByPublishTime (S.drop 100 ++ L.drop 100)).Perm
          (S.take 100 ++ (S.drop 100 ++ L.drop 100)) :=
        (sortByPublishTime_perm _).append_left _
      rw [← List.append_assoc, List.take_append_drop] at h1
      have h2 : (S ++ L.drop 100).Perm ((L.take 100 ++ B) ++ L.drop 100) :=
        hSperm.append_right _
      have h3 : ((L.take 100 ++ B) ++ L.drop 100).Perm (L ++ B) := by
        rw [List.append_assoc]
        have h4 : (L.take 100 ++ (B ++ L.drop 100)).Perm (L.take 100 ++ (L.drop 100 ++ B)) :=
          (@List.perm_append_comm _ B (L.drop 100)).append_left (L.take 100)
        have h5 : L.take 100 ++ (L.drop 100 ++ B) = L ++ B := by
          rw [← List.append_assoc, List.take_append_drop]
        rw [h5] at h4
        exact h4
      exact h1.trans (h2.trans (h3.trans (hLA.append_right B)))
    · rw [List.pairwise_append]
      refine ⟨hSsorted.sublist (List.take_sublist _ _), sortByPublishTime_sorted _, ?_⟩
      intro x hx y hy
      have hy2 := List.mem_append.mp ((sortByPublishTime_perm _).mem_iff.mp hy)
      rcases hy2 with hy2 | hy2
      · exact pairwise_take_drop S 100 hSsorted x hx y hy2
      · by_cases hxL : x ∈ L.take 100
        · exact pairwise_take_drop L 100 hLs x hxL y hy2
        · have hLtake : (L.take 100).length = 100 := by
            rcases drop_eq_nil_or_take_length L 100 with h | h
            · rw [h] at hy2; simp at hy2
            · exact h
          obtain ⟨t, ht, htn⟩ := exists_mem_not_mem (L.take 100) (S.take 100)
            (hndL.sublist (List.take_sublist _ _)) (by omega) x hx hxL
          have htS : t ∈ S := hSperm.mem_iff.mpr (List.mem_append_left _ ht)
          have htd : t ∈ S.drop 100 := by
            rcases mem_take_or_drop S 100 t htS with h | h
            · exact absurd h htn
            · exact h
          have h1 := pairwise_take_drop S 100 hSsorted x hx t htd
          have h2 := pairwise_take_drop L 100 hLs t ht y hy2
          exact le_trans h2 h1
    · rw [List.take_left' hStake]
  · next hle =>
    by_cases hL : L.length ≤ 100
    · have htake : L.take 100 = L := List.take_of_length_le hL
      rw [htake] at hMperm hMlen
      refine ⟨sortByPublishTime (L ++ B), ?_, sortByPublishTime_sorted _, ?_⟩
      · exact (sortByPublishTime_perm _).trans (hLA.append_right B)
      · rw [List.take_of_length_le]
        · exact hMperm.trans (sortByPublishTime_perm _).symm
        · rw [sortByPublishTime_length, List.length_append]; omega
    · have htl : (L.take 100).length = 100 := by
        rw [List.length_take]; omega
      have hB : B = [] := by
        apply List.length_eq_zero.mp
        omega
      subst hB
      refine ⟨L, by simpa using hLA, hLs, ?_⟩
      simpa using hMperm

theorem runMerges_holdsLatest (calls : List MergeCall) (g : GlobalState)
    (A : List TelegraphNews) (hkey : KeyedByID g.globalNewsCache)
    (hinv : ∃ L : List TelegraphNews, L.Perm A ∧
      L.Pairwise (fun a b => b.PublishTime ≤ a.PublishTime) ∧
      g.globalNewsCache.values.Perm (L.take 100))
    (hnd : ((A ++ allBatches calls).map TelegraphNews.ID).Nodup)
    (hne : ∀ b ∈ allBatches calls, b.ID ≠ "") :
    ∃ L : List TelegraphNews, L.Perm (A ++ allBatches calls) ∧
      L.Pairwise (fun a b => b.PublishTime ≤ a.PublishTime) ∧
      (runMerges g calls).globalNewsCache.values.Perm (L.take 100) := by
  induction calls generalizing g A with
  | nil => simpa [allBatches, runMerges] using hinv
  | cons c cs ih =>
    simp only [allBatches] at hnd hne ⊢
    simp only [runMerges]
    rw [← List.append_assoc] at hnd ⊢
    have hnd1 : ((A ++ c.batch).map TelegraphNews.ID).Nodup := by
      rw [List.map_append] at hnd
      exact (List.nodup_append.mp hnd).1
    have hne1 : ∀ b ∈ c.batch, b.ID ≠ "" := fun b hb => hne b (List.mem_append_left _ hb)
    have hne2 : ∀ b ∈ allBatches cs, b.ID ≠ "" :=
      fun b hb => hne b (List.mem_append_right _ hb)
    exact ih (updateGlobalCache c.order c.now c.batch g) (A ++ c.batch)
      (hkey.after_updateGlobalCache _ _ _)
      (holdsLatest_step c.order c.now A c.batch g hkey hinv hnd1 hne1) hnd hne2

theorem updateGlobalCache_cache_of_sorted (σ : RangeOrder) (now : Int)
    (batch : List TelegraphNews) (g : GlobalState)
    (hlen : (mergeNews g.globalNewsCache batch).len > 100)
    (hs : (σ.order (mergeNews g.globalNewsCache batch).values).Pairwise
      (fun x y => y.PublishTime ≤ x.PublishTime)) :
    (updateGlobalCache σ now batch g).globalNewsCache =
      keepLatest (σ.order (mergeNews g.globalNewsCache batch).values) := by
  simp only [updateGlobalCache]
  rw [if_pos hlen, sortByPublishTime_of_sorted _ hs]

theorem mergeNews_lookup (c : NewsCache) (batch : List TelegraphNews) (k : String) :
    (mergeNews c batch).lookup k =
      if k ≠ "" ∧ k ∈ batch.map TelegraphNews.ID then lastWithID k batch else c.lookup k := by
  split
  · next h => exact mergeNews_lookup_of_mem c batch k h.1 h.2
  · next h =>
    apply mergeNews_lookup_of_not_mem
    by_cases hk : k = ""
    · exact Or.inl hk
    · exact Or.inr (fun hm => h ⟨hk, hm⟩)

theorem mergeNews_keys_subset (c : NewsCache) (batch : List TelegraphNews) (k : String)
    (h : k ∈ c.entries.map Prod.fst) : k ∈ (mergeNews c batch).entries.map Prod.fst := by
  induction batch generalizing c with
  | nil => exact h
  | cons n rest ih =>
    simp only [mergeNews]
    split
    · apply ih
      show k ∈ (insertEntry n.ID n c.entries).map Prod.fst
      rw [insertEntry_keys]
      split
      · exact h
      · exact List.mem_append_left _ h
    · exact ih c h

theorem mergeNews_len_of_keys (c : NewsCache) (batch : List TelegraphNews)
    (h : ∀ r ∈ batch, r.ID ≠ "" → r.ID ∈ c.entries.map Prod.fst) :
    (mergeNews c batch).len = c.len := by
  induction batch generalizing c with
  | nil => rfl
  | cons n rest ih =>
    simp only [mergeNews]
    split
    · next hn =>
      have hk := h n (List.mem_cons_self _ _) hn
      have hlen : (c.insert n.ID n).len = c.len := by
        rw [NewsCache.len_insert, if_pos hk]
      have hkeys : (c.insert n.ID n).entries.map Prod.fst = c.entries.map Prod.fst := by
        show (insertEntry n.ID n c.entries).map Prod.fst = _
        rw [insertEntry_keys, if_pos hk]
      rw [ih (c.insert n.ID n), hlen]
      intro r hr hrn
      rw [hkeys]
      exact h r (List.mem_cons_of_mem _ hr) hrn
    · exact ih c (fun r hr hrn => h r (List.mem_cons_of_mem _ hr) hrn)

theorem mergeNews_batch_keys (c : NewsCache) (batch : List TelegraphNews) :
    ∀ r ∈ batch, r.ID ≠ "" → r.ID ∈ (mergeNews c batch).entries.map Prod.fst := by
  induction batch generalizing c with
  | nil => intro r hr; simp at hr
  | cons n rest ih =>
    intro r hr hrn
    simp only [mergeNews]
    rcases List.mem_cons.mp hr with h | h
    · subst h
      rw [if_pos hrn]
      apply mergeNews_keys_subset
      show r.ID ∈ (insertEntry r.ID r c.entries).map Prod.fst
      rw [insertEntry_keys]
      split
      · assumption
      · simp
    · split
      · exact ih _ r h hrn
      · exact ih _ r h hrn

theorem take_mem_iff_of_sorted (S₁ S₂ : List TelegraphNews) (n : Nat)
    (hnd₁ : S₁.Nodup) (hnd₂ : S₂.Nodup)
    (hs₁ : S₁.Pairwise (fun a b => b.PublishTime ≤ a.PublishTime))
    (hs₂ : S₂.Pairwise (fun a b => b.PublishTime ≤ a.PublishTime))
    (hinj : (S₁.map TelegraphNews.PublishTime).Nodup)
    (hsub : ∀ x ∈ S₂, x ∈ S₁) (htake : ∀ x ∈ S₁.take n, x ∈ S₂) (hn : n ≤ S₂.length) :
    ∀ x, x ∈ S₂.take n ↔ x ∈ S₁.take n := by
  have hlen : S₂.length ≤ S₁.length := (List.subperm_of_subset hnd₂ hsub).length_le
  have hl₁ : (S₁.take n).length = n := by rw [List.length_take]; omega
  have hl₂ : (S₂.take n).length = n := by rw [List.length_take]; omega
  have hsubset : ∀ x ∈ S₂.take n, x ∈ S₁.take n := by
    intro x hx
    by_contra hxn
    obtain ⟨t, ht, htn⟩ := exists_mem_not_mem (S₁.take n) (S₂.take n)
      (hnd₁.sublist (List.take_sublist _ _)) (by omega) x hx hxn
    have htd : t ∈ S₂.drop n := by
      rcases mem_take_or_drop S₂ n t (htake t ht) with h | h
      · exact absurd h htn
      · exact h
    have hxS₁ : x ∈ S₁ := hsub x (List.mem_of_mem_take hx)
    have hxd : x ∈ S₁.drop n := by
      rcases mem_take_or_drop S₁ n x hxS₁ with h | h
      · exact absurd h hxn
      · exact h
    have h1 := pairwise_take_drop S₂ n hs₂ x hx t htd
    have h2 := pairwise_take_drop S₁ n hs₁ t ht x hxd
    have heq : x = t :=
      List.inj_on_of_nodup_map hinj hxS₁ (List.mem_of_mem_take ht) (le_antisymm h2 h1)
    exact htn (heq ▸ hx)
  have hperm : (S₂.take n).Perm (S₁.take n) :=
    (List.subperm_of_subset (hnd₂.sublist (List.take_sublist _ _)) hsubset).perm_of_length_le
      (by omega)
  intro x
  exact hperm.mem_iff

theorem updateGlobalCache_cache (σ : RangeOrder) (now : Int) (batch : List TelegraphNews)
    (g : GlobalState) :
    (updateGlobalCache σ now batch g).globalNewsCache =
      if (mergeNews g.globalNewsCache batch).len > 100 then
        keepLatest (sortByPublishTime (σ.order (mergeNews g.globalNewsCache batch).values))
      else mergeNews g.globalNewsCache batch := rfl

theorem updateGlobalCache_twice_no_eviction (σ₁ σ₂ : RangeOrder) (now₁ now₂ : Int)
    (batch : List TelegraphNews) (g : GlobalState)
    (hlen : (mergeNews g.globalNewsCache batch).len ≤ 100) (k : String) :
    (updateGlobalCache σ₂ now₂ batch
        (updateGlobalCache σ₁ now₁ batch g)).globalNewsCache.lookup k =
      (updateGlobalCache σ₁ now₁ batch g).globalNewsCache.lookup k := by
  have h1 : (updateGlobalCache σ₁ now₁ batch g).globalNewsCache =
      mergeNews g.globalNewsCache batch := by
    simp only [updateGlobalCache]
    rw [if_neg (by omega)]
  have hlen2 : (mergeNews (mergeNews g.globalNewsCache batch) batch).len =
      (mergeNews g.globalNewsCache batch).len :=
    mergeNews_len_of_keys _ batch (mergeNews_batch_keys g.globalNewsCache batch)
  have h2 : (updateGlobalCache σ₂ now₂ batch
      (updateGlobalCache σ₁ now₁ batch g)).globalNewsCache =
      mergeNews (mergeNews g.globalNewsCache batch) batch := by
    simp only [updateGlobalCache] at h1 ⊢
    rw [h1, if_neg (by omega)]
  rw [h2, h1, mergeNews_lookup, mergeNews_lookup]
  split
  · rfl
  · rfl

theorem updateGlobalCache_twice_no_ties (σ₁ σ₂ : RangeOrder) (now₁ now₂ : Int)
    (batch : List TelegraphNews) (g : GlobalState) (hkey : KeyedByID g.globalNewsCache)
    (hgt : (mergeNews g.globalNewsCache batch).len > 100)
    (htimes : ((mergeNews g.globalNewsCache batch).values.map
      TelegraphNews.PublishTime).Nodup) (k : String) :
    (updateGlobalCache σ₂ now₂ batch
        (updateGlobalCache σ₁ now₁ batch g)).globalNewsCache.lookup k =
      (updateGlobalCache σ₁ now₁ batch g).globalNewsCache.lookup k := by
  have hM₁key : KeyedByID (mergeNews g.globalNewsCache batch) := hkey.after_mergeNews batch
  have hS₁perm : (sortByPublishTime (σ₁.order (mergeNews g.globalNewsCache batch).values)).Perm
      (mergeNews g.globalNewsCache batch).values :=
    (sortByPublishTime_perm _).trans (σ₁.perm _)
  have hS₁sorted :=
    sortByPublishTime_sorted (σ₁.order (mergeNews g.globalNewsCache batch).values)
  have h1 : (updateGlobalCache σ₁ now₁ batch g).globalNewsCache =
      keepLatest (sortByPublishTime (σ₁.order (mergeNews g.globalNewsCache batch).values)) := by
    simp only [updateGlobalCache]
    rw [if_pos hgt]
  generalize sortByPublishTime (σ₁.order (mergeNews g.globalNewsCache batch).values) = S₁
    at hS₁perm hS₁sorted h1
  have hS₁ids : (S₁.map TelegraphNews.ID).Nodup :=
    ((hS₁perm.map _).nodup_iff).mpr hM₁key.nodup_ids
  have hS₁nd : S₁.Nodup := List.Nodup.of_map _ hS₁ids
  have hS₁times : (S₁.map TelegraphNews.PublishTime).Nodup :=
    ((hS₁perm.map _).nodup_iff).mpr htimes
  have hS₁len : 100 < S₁.length := by
    rw [hS₁perm.length_eq, NewsCache.len_values]; exact hgt
  have hc₁vals : (keepLatest S₁).values = S₁.take 100 := keepLatest_values S₁ hS₁ids
  have hc₁key : KeyedByID (keepLatest S₁) := KeyedByID.of_keepLatest S₁
  have hc₁len : (keepLatest S₁).values.length = 100 := by
    rw [hc₁vals, List.length_take]; omega
  have hM₂key : KeyedByID (mergeNews (keepLatest S₁) batch) := hc₁key.after_mergeNews batch
  have hin : ∀ v, v ∈ (keepLatest S₁).values → v ∈ (mergeNews (keepLatest S₁) batch).values := by
    intro v hv
    have hvM₁ : v ∈ (mergeNews g.globalNewsCache batch).values := by
      rw [hc₁vals] at hv
      exact hS₁perm.mem_iff.mp (List.mem_of_mem_take hv)
    have hl₁ := (hM₁key.lookup_some_iff_mem v.ID v).mpr ⟨hvM₁, rfl⟩
    have hl₂ : (mergeNews (keepLatest S₁) batch).lookup v.ID = some v := by
      rw [mergeNews_lookup] at hl₁ ⊢
      split
      · next hb => rw [if_pos hb] at hl₁; exact hl₁
      · exact (hc₁key.lookup_some_iff_mem v.ID v).mpr ⟨hv, rfl⟩
    exact ((hM₂key.lookup_some_iff_mem v.ID v).mp hl₂).1
  have hout : ∀ v, v ∈ (mergeNews (keepLatest S₁) batch).values →
      v ∈ (mergeNews g.globalNewsCache batch).values := by
    intro v hv
    have hl₂ := (hM₂key.lookup_some_iff_mem v.ID v).mpr ⟨hv, rfl⟩
    have hl₁ : (mergeNews g.globalNewsCache batch).lookup v.ID = some v := by
      rw [mergeNews_lookup] at hl₂ ⊢
      split
      · next hb => rw [if_pos hb] at hl₂; exact hl₂
      · next hb =>
        rw [if_neg hb] at hl₂
        have hv₁ := ((hc₁key.lookup_some_iff_mem v.ID v).mp hl₂).1
        rw [hc₁vals] at hv₁
        have hvM₁ := hS₁perm.mem_iff.mp (List.mem_of_mem_take hv₁)
        have hl := (hM₁key.lookup_some_iff_mem v.ID v).mpr ⟨hvM₁, rfl⟩
        rw [mergeNews_lookup, if_neg hb] at hl
        exact hl
    exact ((hM₁key.lookup_some_iff_mem v.ID v).mp hl₁).1
  rw [updateGlobalCache_cache σ₂ now₂ batch (updateGlobalCache σ₁ now₁ batch g), h1]
  split
  · next hgt₂ =>
    have hS₂perm : (sortByPublishTime
        (σ₂.order (mergeNews (keepLatest S₁) batch).values)).Perm
        (mergeNews (keepLatest S₁) batch).values :=
      (sortByPublishTime_perm _).trans (σ₂.perm _)
    have hS₂sorted :=
      sortByPublishTime_sorted (σ₂.order (mergeNews (keepLatest S₁) batch).values)
    generalize sortByPublishTime (σ₂.order (mergeNews (keepLatest S₁) batch).values) = S₂
      at hS₂perm hS₂sorted
    have hS₂ids : (S₂.map TelegraphNews.ID).Nodup :=
      ((hS₂perm.map _).nodup_iff).mpr hM₂key.nodup_ids
    have hS₂len : 100 ≤ S₂.length := by
      rw [hS₂perm.length_eq, NewsCache.len_values]; omega
    apply KeyedByID.lookup_ext (KeyedByID.of_keepLatest S₂) hc₁key
    intro v
    rw [keepLatest_values S₂ hS₂ids, hc₁vals]
    apply take_mem_iff_of_sorted S₁ S₂ 100 hS₁nd (List.Nodup.of_map _ hS₂ids) hS₁sorted
      hS₂sorted hS₁times
    · intro x hx
      exact hS₁perm.mem_iff.mpr (hout x (hS₂perm.mem_iff.mp hx))
    · intro x hx
      rw [← hc₁vals] at hx
      exact hS₂perm.mem_iff.mpr (hin x hx)
    · exact hS₂len
  · next hle =>
    apply KeyedByID.lookup_ext hM₂key hc₁key
    have hperm : (keepLatest S₁).values.Perm (mergeNews (keepLatest S₁) batch).values :=
      (List.subperm_of_subset hc₁key.nodup_values hin).perm_of_length_le
        (by rw [NewsCache.len_values, hc₁len]; omega)
    intro v
    exact hperm.mem_iff.symm

/-! ## Merging a batch that the cache already holds -/

theorem insertEntry_of_mem_entry (k : String) (v : TelegraphNews)
    (es : List (String × TelegraphNews)) (hnd : (es.map Prod.fst).Nodup)
    (h : (k, v) ∈ es) : insertEntry k v es = es := by
  induction es with
  | nil => simp at h
  | cons e es ih =>
    have hnd2 : e.1 ∉ es.map Prod.fst ∧ (es.map Prod.fst).Nodup := by
      rw [List.map_cons] at hnd
      exact List.nodup_cons.mp hnd
    simp only [insertEntry]
    split
    · next he =>
      rcases List.mem_cons.mp h with h1 | h1
      · rw [h1]
      · exfalso
        apply hnd2.1
        rw [he]
        exact List.mem_map.mpr ⟨(k, v), h1, rfl⟩
    · next he =>
      rcases List.mem_cons.mp h with h1 | h1
      · exfalso; apply he; rw [← h1]
      · rw [ih hnd2.2 h1]

theorem NewsCache.eq_of_entries (c₁ c₂ : NewsCache) (h : c₁.entries = c₂.entries) :
    c₁ = c₂ := by
  cases c₁
  cases c₂
  simp only at h
  subst h
  rfl

theorem NewsCache.insert_of_mem (c : NewsCache) (k : String) (v : TelegraphNews)
    (h : (k, v) ∈ c.entries) : c.insert k v = c :=
  NewsCache.eq_of_entries _ _ (insertEntry_of_mem_entry k v c.entries c.nodupKeys h)

theorem mergeNews_of_mem (c : NewsCache) (l : List TelegraphNews)
    (h : ∀ r ∈ l, (r.ID, r) ∈ c.entries) : mergeNews c l = c := by
  induction l with
  | nil => rfl
  | cons n rest ih =>
    simp only [mergeNews]
    split
    · rw [c.insert_of_mem n.ID n (h n (List.mem_cons_self _ _))]
      exact ih (fun r hr => h r (List.mem_cons_of_mem _ hr))
    · exact ih (fun r hr => h r (List.mem_cons_of_mem _ hr))

theorem mergeNews_append (c : NewsCache) (l₁ l₂ : List TelegraphNews) :
    mergeNews c (l₁ ++ l₂) = mergeNews (mergeNews c l₁) l₂ := by
  induction l₁ generalizing c with
  | nil => rfl
  | cons n rest ih =>
    simp only [List.cons_append, mergeNews]
    split
    · exact ih _
    · exact ih _

theorem mergeNews_values_fresh (c : NewsCache) (B : List TelegraphNews)
    (hne : ∀ r ∈ B, r.ID ≠ "") (hnd : (B.map TelegraphNews.ID).Nodup)
    (hfresh : ∀ r ∈ B, r.ID ∉ c.entries.map Prod.fst) :
    (mergeNews c B).values = c.values ++ B := by
  rw [mergeNews_eq_foldl _ _ hne]
  exact foldl_insert_values_fresh B c hnd hfresh

theorem mergeNews_empty_values (B : List TelegraphNews)
    (hne : ∀ r ∈ B, r.ID ≠ "") (hnd : (B.map TelegraphNews.ID).Nodup) :
    (mergeNews NewsCache.empty B).values = B := by
  rw [mergeNews_values_fresh _ B hne hnd (by intro r _; simp [NewsCache.empty])]
  simp [NewsCache.values, NewsCache.empty]

theorem mergeNews_keepLatest_values (B : List TelegraphNews)
    (hne : ∀ r ∈ B, r.ID ≠ "") (hnd : (B.map TelegraphNews.ID).Nodup) :
    (mergeNews (keepLatest B) B).values = B := by
  have hkey : KeyedByID (keepLatest B) := KeyedByID.of_keepLatest B
  have hvals : (keepLatest B).values = B.take 100 := keepLatest_values B hnd
  have hsplit : B.take 100 ++ B.drop 100 = B := List.take_append_drop 100 B
  have hnd2 : ((B.take 100).map TelegraphNews.ID ++ (B.drop 100).map TelegraphNews.ID).Nodup := by
    rw [← List.map_append, hsplit]; exact hnd
  have hfirst : mergeNews (keepLatest B) (B.take 100) = keepLatest B := by
    apply mergeNews_of_mem
    intro r hr
    rw [hkey.entries_eq, hvals]
    exact List.mem_map.mpr ⟨r, hr, rfl⟩
  have hcut : mergeNews (keepLatest B) B =
      mergeNews (keepLatest B) (B.take 100 ++ B.drop 100) := by rw [hsplit]
  rw [hcut, mergeNews_append, hfirst, mergeNews_values_fresh, hvals, hsplit]
  · exact fun r hr => hne r (List.mem_of_mem_drop hr)
  · exact (List.nodup_append.mp hnd2).2.1
  · intro r hr hmem
    rw [hkey.keys_eq, hvals] at hmem
    exact (List.nodup_append.mp hnd2).2.2 hmem (List.mem_map.mpr ⟨r, hr, rfl⟩)

theorem pairwise_of_same_time (l : List TelegraphNews) (t : Int)
    (h : ∀ r ∈ l, r.PublishTime = t) :
    l.Pairwise (fun x y => y.PublishTime ≤ x.PublishTime) := by
  rw [List.pairwise_iff_forall_sublist]
  intro a b hab
  have ha := h a (hab.subset (List.mem_cons_self _ _))
  have hb := h b (hab.subset (List.mem_cons_of_mem _ (List.mem_singleton_self _)))
  rw [ha, hb]

theorem updateGlobalCache_cache_of_same_time (σ : RangeOrder) (now : Int)
    (B : List TelegraphNews) (g : GlobalState) (t : Int)
    (hvals : (mergeNews g.globalNewsCache B).values = B) (hlen : 100 < B.length)
    (ht : ∀ r ∈ B, r.PublishTime = t) :
    (updateGlobalCache σ now B g).globalNewsCache = keepLatest (σ.order B) := by
  rw [updateGlobalCache_cache_of_sorted σ now B g, hvals]
  · rw [← NewsCache.len_values, hvals]; exact hlen
  · rw [hvals]
    exact pairwise_of_same_time _ t (fun r hr => ht r ((σ.perm B).mem_iff.mp hr))

theorem keepLatest_lookup_eq_some (l : List TelegraphNews)
    (hnd : (l.map TelegraphNews.ID).Nodup) (k : String) (v : TelegraphNews) :
    (keepLatest l).lookup k = some v ↔ v ∈ l.take 100 ∧ v.ID = k := by
  rw [(KeyedByID.of_keepLatest l).lookup_some_iff_mem, keepLatest_values l hnd]

theorem keepLatest_lookup_eq_none (l : List TelegraphNews)
    (hnd : (l.map TelegraphNews.ID).Nodup) (k : String)
    (h : ∀ v ∈ l.take 100, v.ID ≠ k) : (keepLatest l).lookup k = none := by
  rw [Option.eq_none_iff_forall_not_mem]
  intro v hv
  rw [Option.mem_def, keepLatest_lookup_eq_some l hnd] at hv
  exact h v hv.1 hv.2

/-! ## The sample batches -/

theorem sameTimeBatch_ids_nodup : (sameTimeBatch.map TelegraphNews.ID).Nodup := by decide!

theorem sameTimeBatch_ids_ne : ∀ r ∈ sameTimeBatch, r.ID ≠ "" := by decide!

theorem sameTimeBatch_time : ∀ r ∈ sameTimeBatch, r.PublishTime = 5 := by decide!

theorem sameTimeBatch_length : 100 < sameTimeBatch.length := by decide!

theorem sameTimeBatch_first_call (now : Int) :
    (updateGlobalCache listOrder now sameTimeBatch initialState).globalNewsCache =
      keepLatest sameTimeBatch :=
  updateGlobalCache_cache_of_same_time listOrder now sameTimeBatch initialState 5
    (mergeNews_empty_values _ sameTimeBatch_ids_ne sameTimeBatch_ids_nodup)
    sameTimeBatch_length sameTimeBatch_time

theorem sameTimeBatch_kept_in_list_order :
    (keepLatest sameTimeBatch).lookup "0" = some (mkNews "0" "A" 5) :=
  (keepLatest_lookup_eq_some _ sameTimeBatch_ids_nodup "0" _).mpr ⟨by decide!, rfl⟩

theorem sameTimeBatch_dropped_in_reverse_order :
    (keepLatest (reverseOrder.order sameTimeBatch)).lookup "0" = none := by
  apply keepLatest_lookup_eq_none
  · show ((sameTimeBatch.reverse).map TelegraphNews.ID).Nodup
    rw [List.map_reverse, List.nodup_reverse]
    exact sameTimeBatch_ids_nodup
  · decide!

theorem risingBatch_ids_nodup : (risingBatch.map TelegraphNews.ID).Nodup := by decide!

theorem risingBatch_ids_ne : ∀ r ∈ risingBatch, r.ID ≠ "" := by decide!

theorem allBatches_risingCalls : allBatches risingCalls = risingBatch := by
  simp [allBatches, risingCalls]

/-! ## The scheduler -/

theorem foldl_ids_mem (old : List NewsWithAnalysis) (acc : List String) (x : String) :
    x ∈ old.foldl (fun m news => news.News.ID :: m) acc ↔
      x ∈ acc ∨ x ∈ old.map (fun news => news.News.ID) := by
  induction old generalizing acc with
  | nil => simp
  | cons n rest ih =>
    simp only [List.foldl_cons, List.map_cons, List.mem_cons]
    rw [ih]
    simp only [List.mem_cons]
    constructor
    · rintro ((h | h) | h)
      · exact Or.inr (Or.inl h)
      · exact Or.inl h
      · exact Or.inr (Or.inr h)
    · rintro (h | h | h)
      · exact Or.inl (Or.inr h)
      · exact Or.inl (Or.inl h)
      · exact Or.inr h

theorem foldl_append_filter (p : NewsWithAnalysis → Prop) [DecidablePred p]
    (current acc : List NewsWithAnalysis) :
    current.foldl (fun newNews news => if p news then newNews ++ [news] else newNews) acc =
      acc ++ current.filter (fun news => decide (p news)) := by
  induction current generalizing acc with
  | nil => simp
  | cons n rest ih =>
    simp only [List.foldl_cons]
    rw [ih]
    by_cases h : p n
    · simp [h, List.filter_cons]
    · simp [h, List.filter_cons]

theorem findNewNews_eq_filter (current old : List NewsWithAnalysis) :
    findNewNews current old =
      current.filter (fun news =>
        decide (news.News.ID ∉ old.map (fun o => o.News.ID))) := by
  unfold findNewNews
  split
  · next h =>
    have hold : old = [] := List.length_eq_zero.mp h
    subst hold
    simp
  · simp only
    rw [foldl_append_filter, List.nil_append]
    apply List.filter_congr
    intro x _
    have := foldl_ids_mem old [] x.News.ID
    simp only [List.not_mem_nil, false_or] at this
    simp only [this]

theorem FetchLatestNews_of_panicked (env : FetchEnv) (limit : Int) (fetchDetail : Bool)
    (g : GlobalState) (n : NewsAction)
    (h : (FetchLatestNews env limit fetchDetail g n).panicked ≠ none) :
    (FetchLatestNews env limit fetchDetail g n).err = none ∧
    (FetchLatestNews env limit fetchDetail g n).news = [] := by
  revert h
  simp only [FetchLatestNews]
  repeat' split
  all_goals simp

theorem fetchAndAnalyze_err (env : FetchEnv) (setNow : Int) (w : World) :
    (fetchAndAnalyze env setNow w).err =
      (FetchLatestNews env 20 false w.global w.scheduler.newsAction).err := by
  simp only [fetchAndAnalyze]
  cases hp : (FetchLatestNews env 20 false w.global w.scheduler.newsAction).panicked with
  | some p =>
    simp only
    exact (FetchLatestNews_of_panicked env 20 false w.global w.scheduler.newsAction
      (by rw [hp]; simp)).1.symm
  | none =>
    simp only
    cases h : (FetchLatestNews env 20 false w.global w.scheduler.newsAction).err with
    | some err => rfl
    | none =>
      simp only
      split
      · rfl
      · cases hf : w.scheduler.onNewNews with
        | none => rfl
        | some f =>
          simp only
          split <;> rfl

theorem fetchAndAnalyze_panicked (env : FetchEnv) (setNow : Int) (w : World) :
    (fetchAndAnalyze env setNow w).panicked =
      (FetchLatestNews env 20 false w.global w.scheduler.newsAction).panicked := by
  simp only [fetchAndAnalyze]
  cases hp : (FetchLatestNews env 20 false w.global w.scheduler.newsAction).panicked with
  | some p => rfl
  | none =>
    simp only
    cases h : (FetchLatestNews env 20 false w.global w.scheduler.newsAction).err with
    | some err => rfl
    | none =>
      simp only
      split
      · rfl
      · cases hf : w.scheduler.onNewNews with
        | none => rfl
        | some f =>
          simp only
          split <;> rfl

theorem fetchAndAnalyze_running (env : FetchEnv) (setNow : Int) (w : World) :
    (fetchAndAnalyze env setNow w).world.scheduler.running = w.scheduler.running := by
  simp only [fetchAndAnalyze]
  cases hp : (FetchLatestNews env 20 false w.global w.scheduler.newsAction).panicked with
  | some p => rfl
  | none =>
    simp only
    cases h : (FetchLatestNews env 20 false w.global w.scheduler.newsAction).err with
    | some err => rfl
    | none =>
      simp only
      split
      · rfl
      · cases hf : w.scheduler.onNewNews with
        | none => rfl
        | some f =>
          simp only
          split <;> rfl

theorem fetchAndAnalyze_of_panic (env : FetchEnv) (setNow : Int) (w : World) (p : String)
    (hp : (FetchLatestNews env 20 false w.global w.scheduler.newsAction).panicked = some p) :
    (fetchAndAnalyze env setNow w).world.scheduler.cache = w.scheduler.cache ∧
    (fetchAndAnalyze env setNow w).events = [Event.fetch 20 false] := by
  simp [fetchAndAnalyze, hp]

theorem fetchAndAnalyze_of_failure (env : FetchEnv) (setNow : Int) (w : World)
    (h : (FetchLatestNews env 20 false w.global w.scheduler.newsAction).err ≠ none ∨
      (FetchLatestNews env 20 false w.global w.scheduler.newsAction).news = []) :
    (fetchAndAnalyze env setNow w).world.scheduler.cache = w.scheduler.cache ∧
    (fetchAndAnalyze env setNow w).events = [Event.fetch 20 false] := by
  cases hp : (FetchLatestNews env 20 false w.global w.scheduler.newsAction).panicked with
  | some p => exact fetchAndAnalyze_of_panic env setNow w p hp
  | none =>
    simp only [fetchAndAnalyze, hp]
    cases he : (FetchLatestNews env 20 false w.global w.scheduler.newsAction).err with
    | some err => exact ⟨rfl, rfl⟩
    | none =>
      have hn : (FetchLatestNews env 20 false w.global w.scheduler.newsAction).news = [] := by
        rcases h with h | h
        · exact absurd he h
        · exact h
      simp [hn]

theorem fetchAndAnalyze_of_success (env : FetchEnv) (setNow : Int) (w : World)
    (L : List TelegraphNews)
    (herr : (FetchLatestNews env 20 false w.global w.scheduler.newsAction).err = none)
    (hL : (FetchLatestNews env 20 false w.global w.scheduler.newsAction).news = L)
    (hne : L ≠ []) :
    (fetchAndAnalyze env setNow w).world.scheduler.cache =
      ⟨L.map (fun news => ⟨news, none⟩), setNow⟩ ∧
    (fetchAndAnalyze env setNow w).events =
      Event.fetch 20 false ::
        (match w.scheduler.onNewNews with
          | none => []
          | some f =>
            if findNewNews (L.map (fun news => ⟨news, none⟩)) w.scheduler.cache.news = []
            then []
            else [Event.callback f
              (findNewNews (L.map (fun news => ⟨news, none⟩)) w.scheduler.cache.news)]) := by
  have hlen : ¬ L.length = 0 := fun h => hne (List.length_eq_zero.mp h)
  have hp : (FetchLatestNews env 20 false w.global w.scheduler.newsAction).panicked = none := by
    cases hp : (FetchLatestNews env 20 false w.global w.scheduler.newsAction).panicked with
    | none => rfl
    | some p =>
      have := (FetchLatestNews_of_panicked env 20 false w.global w.scheduler.newsAction
        (by rw [hp]; simp)).2
      rw [hL] at this
      exact absurd this hne
  simp only [fetchAndAnalyze, hp, herr, hL, hlen, if_false, SchedulerCache.Get,
    SchedulerCache.Set]
  cases hf : w.scheduler.onNewNews with
  | none => exact ⟨rfl, rfl⟩
  | some f =>
    simp only
    by_cases hd : findNewNews (L.map (fun news => ⟨news, none⟩)) w.scheduler.cache.news = []
    · simp [hd]
    · have hpos : (findNewNews (L.map (fun news => (⟨news, none⟩ : NewsWithAnalysis)))
          w.scheduler.cache.news).length > 0 := List.length_pos.mpr hd
      simp [hd, hpos]

theorem fetchAndAnalyze_stopChan (env : FetchEnv) (setNow : Int) (w : World) :
    (fetchAndAnalyze env setNow w).world.scheduler.stopChan = w.scheduler.stopChan := by
  simp only [fetchAndAnalyze]
  cases hp : (FetchLatestNews env 20 false w.global w.scheduler.newsAction).panicked with
  | some p => rfl
  | none =>
    simp only
    cases h : (FetchLatestNews env 20 false w.global w.scheduler.newsAction).err with
    | some err => rfl
    | none =>
      simp only
      split
      · rfl
      · cases hf : w.scheduler.onNewNews with
        | none => rfl
        | some f =>
          simp only
          split <;> rfl

theorem Start_stopChan (env : FetchEnv) (setNow : Int) (w : World) :
    (Start env setNow w).world.scheduler.stopChan = w.scheduler.stopChan := by
  simp only [Start]
  split
  · rfl
  · split <;> simp only [fetchAndAnalyze_stopChan]

theorem Start_running (env : FetchEnv) (setNow : Int) (w : World) :
    (Start env setNow w).world.scheduler.running = true := by
  simp only [Start]
  split
  · next h => exact h
  · split <;> simp only [fetchAndAnalyze_running]

theorem Start_err (env : FetchEnv) (setNow : Int) (w : World) :
    (Start env setNow w).err = none := by
  simp only [Start]
  split
  · rfl
  · split <;> rfl

theorem Start_of_stopped (env : FetchEnv) (setNow : Int) (w : World)
    (h : w.scheduler.running = false) :
    (Start env setNow w).panicked =
      (FetchLatestNews env 20 false w.global w.scheduler.newsAction).panicked ∧
    (Event.spawnRun ∈ (Start env setNow w).events ↔
      (FetchLatestNews env 20 false w.global w.scheduler.newsAction).panicked = none) := by
  have hp := fetchAndAnalyze_panicked env setNow
    { w with scheduler := { w.scheduler with running := true } }
  simp only at hp
  simp only [Start, h, Bool.false_eq_true, if_false]
  cases hq : (FetchLatestNews env 20 false w.global w.scheduler.newsAction).panicked with
  | some p =>
    rw [hq] at hp
    have hev := (fetchAndAnalyze_of_panic env setNow
      { w with scheduler := { w.scheduler with running := true } } p hq).2
    simp [hp, hev]
  | none =>
    rw [hq] at hp
    simp [hp]

theorem runCalls_start (env : FetchEnv) (setNow : Int) (rest : List SchedulerCall)
    (w : World) :
    runCalls (SchedulerCall.start env setNow :: rest) w =
      runCalls rest (Start env setNow w).world := rfl

theorem runCalls_stop_opened (rest : List SchedulerCall) (w : World)
    (hr : w.scheduler.running = true) (hc : w.scheduler.stopChan = StopChan.opened) :
    runCalls (SchedulerCall.stop :: rest) w =
      ⟨(runCalls rest { w with scheduler :=
          { w.scheduler with running := false, stopChan := StopChan.closed } }).world,
       1 + (runCalls rest { w with scheduler :=
          { w.scheduler with running := false, stopChan := StopChan.closed } }).closes,
       (runCalls rest { w with scheduler :=
          { w.scheduler with running := false, stopChan := StopChan.closed } }).panicked⟩ := by
  have hstop : Stop w.scheduler =
      ({ w.scheduler with running := false, stopChan := StopChan.closed }, false) := by
    simp [Stop, hr, hc]
  simp [runCalls, hstop, hr]

theorem runCalls_stop_closed (rest : List SchedulerCall) (w : World)
    (hr : w.scheduler.running = true) (hc : w.scheduler.stopChan = StopChan.closed) :
    runCalls (SchedulerCall.stop :: rest) w =
      ⟨{ w with scheduler := { w.scheduler with running := false } }, 1, true⟩ := by
  have hstop : Stop w.scheduler = ({ w.scheduler with running := false }, true) := by
    simp [Stop, hr, hc]
  simp [runCalls, hstop, hr]

/-! ## `FetchLatestNews` -/

theorem FetchLatestNews_of_navigateErr (env : FetchEnv) (limit : Int) (fetchDetail : Bool)
    (g : GlobalState) (n : NewsAction) (err : String) (h : env.navigateErr = some err) :
    FetchLatestNews env limit fetchDetail g n =
      ⟨[], some ("访问财联社电报页面失败: " ++ err), g, n, [], none⟩ := by
  simp only [FetchLatestNews, h]

theorem FetchLatestNews_of_loadPanic (env : FetchEnv) (limit : Int) (fetchDetail : Bool)
    (g : GlobalState) (n : NewsAction) (p : String) (hnav : env.navigateErr = none)
    (h : loadPanic env = some p) :
    FetchLatestNews env limit fetchDetail g n = ⟨[], none, g, n, [], some p⟩ := by
  simp only [FetchLatestNews, hnav]
  simp only [loadPanic] at h
  cases hw : env.waitLoadErr with
  | some e => rw [hw] at h; simp only at h; rw [Option.some.inj h]
  | none =>
    rw [hw] at h
    simp only at h ⊢
    cases hd : env.debugErr with
    | some e => rw [hd] at h; simp only at h; rw [Option.some.inj h]
    | none =>
      rw [hd] at h
      simp only at h ⊢
      rw [h]

theorem loadPanic_eq_none (env : FetchEnv) (h : loadPanic env = none) :
    env.waitLoadErr = none ∧ env.debugErr = none ∧ env.evalErr = none := by
  simp only [loadPanic] at h
  cases hw : env.waitLoadErr with
  | some e => rw [hw] at h; exact absurd h (by simp)
  | none =>
    rw [hw] at h
    cases hd : env.debugErr with
    | some e => rw [hd] at h; exact absurd h (by simp)
    | none =>
      rw [hd] at h
      exact ⟨rfl, rfl, h⟩

theorem FetchLatestNews_of_htmlErr (env : FetchEnv) (limit : Int) (fetchDetail : Bool)
    (g : GlobalState) (n : NewsAction) (p : String) (hnav : env.navigateErr = none)
    (hl : loadPanic env = none) (h : env.result = "" ∨ env.result = "[]")
    (hh : env.htmlErr = some p) :
    FetchLatestNews env limit fetchDetail g n = ⟨[], none, g, n, [], some p⟩ := by
  obtain ⟨h1, h2, h3⟩ := loadPanic_eq_none env hl
  simp only [FetchLatestNews, hnav, h1, h2, h3]
  rw [if_pos h]
  simp only [hh]

theorem FetchLatestNews_of_no_data (env : FetchEnv) (limit : Int) (fetchDetail : Bool)
    (g : GlobalState) (n : NewsAction) (hnav : env.navigateErr = none)
    (hl : loadPanic env = none) (h : env.result = "" ∨ env.result = "[]")
    (hh : env.htmlErr = none) :
    FetchLatestNews env limit fetchDetail g n =
      ⟨[], some "页面未返回新闻数据，请检查页面结构", g, n, [], none⟩ := by
  obtain ⟨h1, h2, h3⟩ := loadPanic_eq_none env hl
  simp only [FetchLatestNews, hnav, h1, h2, h3]
  rw [if_pos h]
  simp only [hh]

theorem FetchLatestNews_of_syntaxErr (env : FetchEnv) (limit : Int) (fetchDetail : Bool)
    (g : GlobalState) (n : NewsAction) (err : String) (hnav : env.navigateErr = none)
    (hl : loadPanic env = none)
    (h : ¬ (env.result = "" ∨ env.result = "[]")) (hs : env.syntaxErr = some err) :
    FetchLatestNews env limit fetchDetail g n =
      ⟨[], some ("解析新闻数据失败: " ++ err), g, n, [], none⟩ := by
  obtain ⟨h1, h2, h3⟩ := loadPanic_eq_none env hl
  simp only [FetchLatestNews, hnav, h1, h2, h3]
  rw [if_neg h]
  simp only [hs]

theorem FetchLatestNews_of_timeErr (env : FetchEnv) (limit : Int) (fetchDetail : Bool)
    (g : GlobalState) (n : NewsAction) (l : List TelegraphNews) (err : String)
    (hnav : env.navigateErr = none) (hl : loadPanic env = none)
    (h : ¬ (env.result = "" ∨ env.result = "[]")) (hs : env.syntaxErr = none)
    (hu : unmarshalNews env.items = (l, some err)) :
    FetchLatestNews env limit fetchDetail g n =
      ⟨[], some ("解析新闻数据失败: " ++ err), g, n, [], none⟩ := by
  obtain ⟨h1, h2, h3⟩ := loadPanic_eq_none env hl
  simp only [FetchLatestNews, hnav, h1, h2, h3]
  rw [if_neg h]
  simp only [hs, hu]

theorem FetchLatestNews_of_ok_fast (env : FetchEnv) (limit : Int)
    (g : GlobalState) (n : NewsAction) (newsList : List TelegraphNews)
    (hnav : env.navigateErr = none) (hl : loadPanic env = none)
    (h : ¬ (env.result = "" ∨ env.result = "[]")) (hs : env.syntaxErr = none)
    (hu : unmarshalNews env.items = (newsList, none)) :
    FetchLatestNews env limit false g n =
      ⟨(FetchLatestNews_ingest env.mergeOrder env.readOrder env.nowAt env.mergeNow
          limit newsList g).1, none,
        (FetchLatestNews_ingest env.mergeOrder env.readOrder env.nowAt env.mergeNow
          limit newsList g).2, n, [], none⟩ := by
  obtain ⟨h1, h2, h3⟩ := loadPanic_eq_none env hl
  simp only [FetchLatestNews, hnav, h1, h2, h3]
  rw [if_neg h]
  simp [hs, hu]

theorem FetchLatestNews_of_ok_detail (env : FetchEnv) (limit : Int)
    (g : GlobalState) (n : NewsAction) (newsList : List TelegraphNews)
    (hnav : env.navigateErr = none) (hl : loadPanic env = none)
    (h : ¬ (env.result = "" ∨ env.result = "[]")) (hs : env.syntaxErr = none)
    (hu : unmarshalNews env.items = (newsList, none)) :
    FetchLatestNews env limit true g n =
      ⟨(match (detailLoop env 0 (FetchLatestNews_ingest env.mergeOrder env.readOrder
            env.nowAt env.mergeNow limit newsList g).1 (detailStart n)).panicked with
          | some _ => []
          | none => (detailLoop env 0 (FetchLatestNews_ingest env.mergeOrder env.readOrder
            env.nowAt env.mergeNow limit newsList g).1 (detailStart n)).done), none,
        (FetchLatestNews_ingest env.mergeOrder env.readOrder env.nowAt env.mergeNow
          limit newsList g).2,
        ⟨(detailLoop env 0 (FetchLatestNews_ingest env.mergeOrder env.readOrder env.nowAt
          env.mergeNow limit newsList g).1 (detailStart n)).contentCache⟩,
        (detailLoop env 0 (FetchLatestNews_ingest env.mergeOrder env.readOrder env.nowAt
          env.mergeNow limit newsList g).1 (detailStart n)).fetched,
        (detailLoop env 0 (FetchLatestNews_ingest env.mergeOrder env.readOrder env.nowAt
          env.mergeNow limit newsList g).1 (detailStart n)).panicked⟩ := by
  obtain ⟨h1, h2, h3⟩ := loadPanic_eq_none env hl
  simp only [FetchLatestNews, hnav, h1, h2, h3]
  rw [if_neg h]
  simp only [hs, hu, detailStart]
  cases hp : (detailLoop env 0 (FetchLatestNews_ingest env.mergeOrder env.readOrder
      env.nowAt env.mergeNow limit newsList g).1
      { done := [], contentCache := n.contentCache, fetched := [], panicked := none }).panicked with
  | some p => simp
  | none => simp

/-- The outcomes of `FetchLatestNews`: a returned error or a panic of the driver
before the merge, which leave the state as it was, or a decoded list that is
merged into the store. -/
theorem FetchLatestNews_outcome (env : FetchEnv) (limit : Int) (fetchDetail : Bool)
    (g : GlobalState) (n : NewsAction) :
    ((FetchLatestNews env limit fetchDetail g n).err ≠ none ∧
      (FetchLatestNews env limit fetchDetail g n).panicked = none ∧
      (FetchLatestNews env limit fetchDetail g n).news = [] ∧
      (FetchLatestNews env limit fetchDetail g n).global = g ∧
      (FetchLatestNews env limit fetchDetail g n).action = n ∧
      (FetchLatestNews env limit fetchDetail g n).fetched = []) ∨
    ((FetchLatestNews env limit fetchDetail g n).panicked ≠ none ∧
      (FetchLatestNews env limit fetchDetail g n).err = none ∧
      (FetchLatestNews env limit fetchDetail g n).news = [] ∧
      (FetchLatestNews env limit fetchDetail g n).global = g ∧
      (FetchLatestNews env limit fetchDetail g n).action = n ∧
      (FetchLatestNews env limit fetchDetail g n).fetched = []) ∨
    ((FetchLatestNews env limit fetchDetail g n).err = none ∧
      env.navigateErr = none ∧ loadPanic env = none ∧
      env.result ≠ "" ∧ env.result ≠ "[]" ∧ env.syntaxErr = none ∧
      ∃ newsList, unmarshalNews env.items = (newsList, none) ∧
        (FetchLatestNews env limit fetchDetail g n).global =
          (FetchLatestNews_ingest env.mergeOrder env.readOrder env.nowAt env.mergeNow
            limit newsList g).2) := by
  cases hnav : env.navigateErr with
  | some err =>
    left
    rw [FetchLatestNews_of_navigateErr env limit fetchDetail g n err hnav]
    simp
  | none =>
    cases hl : loadPanic env with
    | some p =>
      right; left
      rw [FetchLatestNews_of_loadPanic env limit fetchDetail g n p hnav hl]
      simp
    | none =>
      by_cases h : env.result = "" ∨ env.result = "[]"
      · cases hh : env.htmlErr with
        | some p =>
          right; left
          rw [FetchLatestNews_of_htmlErr env limit fetchDetail g n p hnav hl h hh]
          simp
        | none =>
          left
          rw [FetchLatestNews_of_no_data env limit fetchDetail g n hnav hl h hh]
          simp
      · cases hs : env.syntaxErr with
        | some err =>
          left
          rw [FetchLatestNews_of_syntaxErr env limit fetchDetail g n err hnav hl h hs]
          simp
        | none =>
          cases hu : unmarshalNews env.items with
          | mk l e =>
            cases e with
            | some err =>
              left
              rw [FetchLatestNews_of_timeErr env limit fetchDetail g n l err hnav hl h hs hu]
              simp
            | none =>
              right; right
              have h1 : env.result ≠ "" := fun h2 => h (Or.inl h2)
              have h2 : env.result ≠ "[]" := fun h3 => h (Or.inr h3)
              cases fetchDetail with
              | false =>
                rw [FetchLatestNews_of_ok_fast env limit g n l hnav hl h hs hu]
                exact ⟨rfl, rfl, rfl, h1, h2, rfl, ⟨l, rfl, rfl⟩⟩
              | true =>
                rw [FetchLatestNews_of_ok_detail env limit g n l hnav hl h hs hu]
                exact ⟨rfl, rfl, rfl, h1, h2, rfl, ⟨l, rfl, rfl⟩⟩

/-! ## The detail loop -/

theorem detailStep_no_url (env : FetchEnv) (st : DetailState) (i : Nat)
    (news : TelegraphNews) (hurl : news.URL = "") :
    detailStep env st i news = { st with done := st.done ++ [news] } := by
  simp only [detailStep]
  rw [if_neg (by simpa using hurl)]

theorem detailStep_cached (env : FetchEnv) (st : DetailState) (i : Nat)
    (news : TelegraphNews) (c : String) (hurl : news.URL ≠ "")
    (hc : st.contentCache news.URL = some c) :
    detailStep env st i news = { st with done := st.done ++ [{ news with Content := c }] } := by
  simp only [detailStep]
  rw [if_pos hurl]
  simp only [hc]

theorem detailStep_panics (env : FetchEnv) (st : DetailState) (i : Nat)
    (news : TelegraphNews) (p : String) (hurl : news.URL ≠ "")
    (hc : st.contentCache news.URL = none)
    (hp : (FetchNewsDetail env.trimSpace (env.detailAt i news.URL)).panicked = some p) :
    detailStep env st i news =
      { st with fetched := st.fetched ++ [news.URL], panicked := some p } := by
  simp only [detailStep]
  rw [if_pos hurl]
  simp only [hc, hp]

theorem detailStep_failed (env : FetchEnv) (st : DetailState) (i : Nat)
    (news : TelegraphNews) (hurl : news.URL ≠ "") (hc : st.contentCache news.URL = none)
    (hp : (FetchNewsDetail env.trimSpace (env.detailAt i news.URL)).panicked = none)
    (hf : (FetchNewsDetail env.trimSpace (env.detailAt i news.URL)).err ≠ none ∨
      (FetchNewsDetail env.trimSpace (env.detailAt i news.URL)).content = "") :
    detailStep env st i news =
      { st with done := st.done ++ [news], fetched := st.fetched ++ [news.URL] } := by
  simp only [detailStep]
  rw [if_pos hurl]
  simp only [hc, hp]
  cases he : (FetchNewsDetail env.trimSpace (env.detailAt i news.URL)).err with
  | some err => rfl
  | none =>
    rcases hf with hf | hf
    · exact absurd he hf
    · simp [hf]

theorem detailStep_fetched (env : FetchEnv) (st : DetailState) (i : Nat)
    (news : TelegraphNews) (hurl : news.URL ≠ "")
    (hc : st.contentCache news.URL = none)
    (hp : (FetchNewsDetail env.trimSpace (env.detailAt i news.URL)).panicked = none)
    (he : (FetchNewsDetail env.trimSpace (env.detailAt i news.URL)).err = none)
    (hfull : (FetchNewsDetail env.trimSpace (env.detailAt i news.URL)).content ≠ "") :
    detailStep env st i news =
      { st with
        done := st.done ++ [{ news with Content :=
          (FetchNewsDetail env.trimSpace (env.detailAt i news.URL)).content }]
        contentCache := fun url =>
          if url = news.URL then
            some (FetchNewsDetail env.trimSpace (env.detailAt i news.URL)).content
          else st.contentCache url
        fetched := st.fetched ++ [news.URL] } := by
  simp only [detailStep]
  rw [if_pos hurl]
  simp only [hc, hp, he]
  rw [if_pos hfull]

/-- The five cases of one iteration. -/
theorem detailStep_cases (env : FetchEnv) (st : DetailState) (i : Nat)
    (news : TelegraphNews) :
    detailStep env st i news = { st with done := st.done ++ [news] } ∨
    (∃ c, st.contentCache news.URL = some c ∧
      detailStep env st i news =
        { st with done := st.done ++ [{ news with Content := c }] }) ∨
    (∃ p, st.contentCache news.URL = none ∧
      detailStep env st i news =
        { st with fetched := st.fetched ++ [news.URL], panicked := some p }) ∨
    (st.contentCache news.URL = none ∧
      detailStep env st i news =
        { st with done := st.done ++ [news], fetched := st.fetched ++ [news.URL] }) ∨
    (∃ c, st.contentCache news.URL = none ∧
      detailStep env st i news =
        { st with
          done := st.done ++ [{ news with Content := c }]
          contentCache := fun url => if url = news.URL then some c else st.contentCache url
          fetched := st.fetched ++ [news.URL] }) := by
  by_cases hurl : news.URL = ""
  · exact Or.inl (detailStep_no_url env st i news hurl)
  · cases hc : st.contentCache news.URL with
    | some c => exact Or.inr (Or.inl ⟨c, rfl, detailStep_cached env st i news c hurl hc⟩)
    | none =>
      cases hp : (FetchNewsDetail env.trimSpace (env.detailAt i news.URL)).panicked with
      | some p =>
        exact Or.inr (Or.inr (Or.inl ⟨p, rfl, detailStep_panics env st i news p hurl hc hp⟩))
      | none =>
        by_cases hf : (FetchNewsDetail env.trimSpace (env.detailAt i news.URL)).err ≠ none ∨
            (FetchNewsDetail env.trimSpace (env.detailAt i news.URL)).content = ""
        · exact Or.inr (Or.inr (Or.inr (Or.inl
            ⟨rfl, detailStep_failed env st i news hurl hc hp hf⟩)))
        · have he : (FetchNewsDetail env.trimSpace (env.detailAt i news.URL)).err = none := by
            by_contra h; exact hf (Or.inl h)
          have hfull : (FetchNewsDetail env.trimSpace (env.detailAt i news.URL)).content ≠ "" :=
            fun h => hf (Or.inr h)
          exact Or.inr (Or.inr (Or.inr (Or.inr
            ⟨_, rfl, detailStep_fetched env st i news hurl hc hp he hfull⟩)))

theorem detailStep_cache_mono (env : FetchEnv) (st : DetailState) (i : Nat)
    (news : TelegraphNews) (u c : String) (h : st.contentCache u = some c) :
    (detailStep env st i news).contentCache u = some c := by
  rcases detailStep_cases env st i news with h1 | ⟨c1, _, h1⟩ | ⟨p, _, h1⟩ | ⟨_, h1⟩ |
    ⟨c1, hc, h1⟩
  · rw [h1]; exact h
  · rw [h1]; exact h
  · rw [h1]; exact h
  · rw [h1]; exact h
  · rw [h1]
    simp only
    split
    · next heq => rw [heq, hc] at h; exact absurd h (by simp)
    · exact h

theorem detailStep_done_extends (env : FetchEnv) (st : DetailState) (i : Nat)
    (news : TelegraphNews) :
    ∃ more, (detailStep env st i news).done = st.done ++ more := by
  rcases detailStep_cases env st i news with h1 | ⟨c1, _, h1⟩ | ⟨p, _, h1⟩ | ⟨_, h1⟩ |
    ⟨c1, hc, h1⟩
  · rw [h1]; exact ⟨_, rfl⟩
  · rw [h1]; exact ⟨_, rfl⟩
  · rw [h1]; exact ⟨[], by simp⟩
  · rw [h1]; exact ⟨_, rfl⟩
  · rw [h1]; exact ⟨_, rfl⟩

theorem detailStep_of_not_panicked (env : FetchEnv) (st : DetailState) (i : Nat)
    (news : TelegraphNews) (h : (detailStep env st i news).panicked = none) :
    st.panicked = none ∧ ∃ o, (detailStep env st i news).done = st.done ++ [o] := by
  rcases detailStep_cases env st i news with h1 | ⟨c1, _, h1⟩ | ⟨p, _, h1⟩ | ⟨_, h1⟩ |
    ⟨c1, hc, h1⟩
  · rw [h1] at h ⊢; exact ⟨h, _, rfl⟩
  · rw [h1] at h ⊢; exact ⟨h, _, rfl⟩
  · rw [h1] at h; exact absurd h (by simp)
  · rw [h1] at h ⊢; exact ⟨h, _, rfl⟩
  · rw [h1] at h ⊢; exact ⟨h, _, rfl⟩

theorem detailStep_initial_cache (env : FetchEnv) (c0 : String → Option String)
    (st : DetailState) (i : Nat) (news : TelegraphNews)
    (hinv : ∀ url c, c0 url = some c → st.contentCache url = some c)
    (hf : ∀ u ∈ st.fetched, c0 u = none) :
    ∀ u ∈ (detailStep env st i news).fetched, c0 u = none := by
  have hnone : st.contentCache news.URL = none → c0 news.URL = none := by
    intro hc
    cases h0 : c0 news.URL with
    | none => rfl
    | some c =>
      have := hinv _ _ h0
      rw [hc] at this
      exact absurd this (by simp)
  have happ : st.contentCache news.URL = none →
      ∀ u ∈ st.fetched ++ [news.URL], c0 u = none := by
    intro hc u hu
    rcases List.mem_append.mp hu with h | h
    · exact hf u h
    · rw [List.mem_singleton.mp h]; exact hnone hc
  rcases detailStep_cases env st i news with h1 | ⟨c1, _, h1⟩ | ⟨p, hc, h1⟩ | ⟨hc, h1⟩ |
    ⟨c1, hc, h1⟩
  · rw [h1]; exact hf
  · rw [h1]; exact hf
  · rw [h1]; exact happ hc
  · rw [h1]; exact happ hc
  · rw [h1]; exact happ hc

theorem detailLoop_cons (env : FetchEnv) (i : Nat) (news : TelegraphNews)
    (rest : List TelegraphNews) (st : DetailState) :
    detailLoop env i (news :: rest) st =
      match (detailStep env st i news).panicked with
      | some _ => detailStep env st i news
      | none => detailLoop env (i + 1) rest (detailStep env st i news) := rfl

theorem detailLoop_cons_of_panicked (env : FetchEnv) (i : Nat) (news : TelegraphNews)
    (rest : List TelegraphNews) (st : DetailState) (p : String)
    (h : (detailStep env st i news).panicked = some p) :
    detailLoop env i (news :: rest) st = detailStep env st i news := by
  rw [detailLoop_cons]
  simp only [h]

theorem detailLoop_cons_of_not_panicked (env : FetchEnv) (i : Nat) (news : TelegraphNews)
    (rest : List TelegraphNews) (st : DetailState)
    (h : (detailStep env st i news).panicked = none) :
    detailLoop env i (news :: rest) st =
      detailLoop env (i + 1) rest (detailStep env st i news) := by
  rw [detailLoop_cons]
  simp only [h]

theorem detailLoop_of_not_panicked (env : FetchEnv) (l : List TelegraphNews) (i : Nat)
    (st : DetailState) (h : (detailLoop env i l st).panicked = none) :
    st.panicked = none ∧ (detailLoop env i l st).done.length = st.done.length + l.length := by
  induction l generalizing i st with
  | nil => exact ⟨h, by simp [detailLoop]⟩
  | cons news rest ih =>
    cases hs : (detailStep env st i news).panicked with
    | some p =>
      rw [detailLoop_cons_of_panicked env i news rest st p hs, hs] at h
      exact absurd h (by simp)
    | none =>
      rw [detailLoop_cons_of_not_panicked env i news rest st hs] at h ⊢
      obtain ⟨h1, o, ho⟩ := detailStep_of_not_panicked env st i news hs
      have h2 := (ih (i + 1) (detailStep env st i news) h).2
      rw [h2, ho]
      exact ⟨h1, by simp; omega⟩

theorem detailLoop_append (env : FetchEnv) (l1 l2 : List TelegraphNews) (i : Nat)
    (st : DetailState) (h : (detailLoop env i l1 st).panicked = none) :
    detailLoop env i (l1 ++ l2) st =
      detailLoop env (i + l1.length) l2 (detailLoop env i l1 st) := by
  induction l1 generalizing i st with
  | nil => simp [detailLoop]
  | cons news rest ih =>
    cases hs : (detailStep env st i news).panicked with
    | some p =>
      rw [detailLoop_cons_of_panicked env i news rest st p hs, hs] at h
      exact absurd h (by simp)
    | none =>
      rw [detailLoop_cons_of_not_panicked env i news rest st hs] at h ⊢
      rw [List.cons_append, detailLoop_cons_of_not_panicked env i news (rest ++ l2) st hs,
        ih (i + 1) (detailStep env st i news) h]
      congr 1
      simp only [List.length_cons]
      omega

theorem detailLoop_stuck (env : FetchEnv) (l1 l2 : List TelegraphNews) (i : Nat)
    (st : DetailState) (p : String) (hst : st.panicked = none)
    (h : (detailLoop env i l1 st).panicked = some p) :
    detailLoop env i (l1 ++ l2) st = detailLoop env i l1 st := by
  induction l1 generalizing i st with
  | nil =>
    simp only [detailLoop] at h
    rw [hst] at h
    exact absurd h (by simp)
  | cons news rest ih =>
    cases hs : (detailStep env st i news).panicked with
    | some q =>
      rw [List.cons_append, detailLoop_cons_of_panicked env i news rest st q hs,
        detailLoop_cons_of_panicked env i news (rest ++ l2) st q hs]
    | none =>
      rw [detailLoop_cons_of_not_panicked env i news rest st hs] at h ⊢
      rw [List.cons_append, detailLoop_cons_of_not_panicked env i news (rest ++ l2) st hs]
      exact ih (i + 1) (detailStep env st i news) hs h

theorem detailLoop_done_extends (env : FetchEnv) (l : List TelegraphNews) (i : Nat)
    (st : DetailState) : ∃ more, (detailLoop env i l st).done = st.done ++ more := by
  induction l generalizing i st with
  | nil => exact ⟨[], by simp [detailLoop]⟩
  | cons news rest ih =>
    obtain ⟨m1, hm1⟩ := detailStep_done_extends env st i news
    cases hs : (detailStep env st i news).panicked with
    | some p =>
      rw [detailLoop_cons_of_panicked env i news rest st p hs]
      exact ⟨m1, hm1⟩
    | none =>
      rw [detailLoop_cons_of_not_panicked env i news rest st hs]
      obtain ⟨m2, hm2⟩ := ih (i + 1) (detailStep env st i news)
      exact ⟨m1 ++ m2, by rw [hm2, hm1, List.append_assoc]⟩

theorem detailLoop_cache_mono (env : FetchEnv) (l : List TelegraphNews) (i : Nat)
    (st : DetailState) (u c : String) (h : st.contentCache u = some c) :
    (detailLoop env i l st).contentCache u = some c := by
  induction l generalizing i st with
  | nil => exact h
  | cons news rest ih =>
    have h1 := detailStep_cache_mono env st i news u c h
    cases hs : (detailStep env st i news).panicked with
    | some p =>
      rw [detailLoop_cons_of_panicked env i news rest st p hs]
      exact h1
    | none =>
      rw [detailLoop_cons_of_not_panicked env i news rest st hs]
      exact ih (i + 1) (detailStep env st i news) h1

theorem detailLoop_initial_cache (env : FetchEnv) (c0 : String → Option String)
    (l : List TelegraphNews) (i : Nat) (st : DetailState)
    (hinv : ∀ url c, c0 url = some c → st.contentCache url = some c)
    (hf : ∀ u ∈ st.fetched, c0 u = none) :
    ∀ u ∈ (detailLoop env i l st).fetched, c0 u = none := by
  induction l generalizing i st with
  | nil => exact hf
  | cons news rest ih =>
    have h1 := detailStep_initial_cache env c0 st i news hinv hf
    have h2 : ∀ url c, c0 url = some c →
        (detailStep env st i news).contentCache url = some c :=
      fun url c h => detailStep_cache_mono env st i news url c (hinv url c h)
    cases hs : (detailStep env st i news).panicked with
    | some p =>
      rw [detailLoop_cons_of_panicked env i news rest st p hs]
      exact h1
    | none =>
      rw [detailLoop_cons_of_not_panicked env i news rest st hs]
      exact ih (i + 1) (detailStep env st i news) h2 h1

theorem list_split_at (l : List TelegraphNews) (k : Nat) (r : TelegraphNews)
    (hk : l[k]? = some r) :
    k < l.length ∧ l = l.take k ++ r :: l.drop (k + 1) ∧ (l.take k).length = k ∧
    l.take (k + 1) = l.take k ++ [r] := by
  have hlt : k < l.length := by
    by_contra hge
    rw [List.getElem?_eq_none (not_lt.mp hge)] at hk
    exact Option.noConfusion hk
  have hget : l[k] = r := by
    rw [List.getElem?_eq_getElem hlt] at hk
    exact Option.some.inj hk
  refine ⟨hlt, ?_, ?_, ?_⟩
  · rw [← hget, ← List.drop_eq_getElem_cons hlt, List.take_append_drop]
  · rw [List.length_take]; omega
  · rw [List.take_succ, hk]; rfl

/-- The loop at the index `k` when it reaches it without a panic: the loop on the
whole list is the loop on the records after `k`, from the state of the iteration
at `k`. -/
theorem detailLoop_at (env : FetchEnv) (l : List TelegraphNews) (st0 : DetailState)
    (k : Nat) (r : TelegraphNews) (hk : l[k]? = some r)
    (hS : (detailLoop env 0 (l.take k) st0).panicked = none) :
    detailLoop env 0 l st0 =
      detailLoop env k (r :: l.drop (k + 1)) (detailLoop env 0 (l.take k) st0) ∧
    detailLoop env 0 (l.take (k + 1)) st0 =
      detailStep env (detailLoop env 0 (l.take k) st0) k r ∧
    (detailLoop env 0 (l.take k) st0).done.length = st0.done.length + k := by
  obtain ⟨hlt, hsplit, hlen, htake⟩ := list_split_at l k r hk
  have h1 := detailLoop_append env (l.take k) (r :: l.drop (k + 1)) 0 st0 hS
  rw [← hsplit, hlen, Nat.zero_add] at h1
  have h2 := detailLoop_append env (l.take k) [r] 0 st0 hS
  rw [← htake, hlen, Nat.zero_add] at h2
  refine ⟨h1, ?_, ?_⟩
  · rw [h2]
    cases hs : (detailStep env (detailLoop env 0 (l.take k) st0) k r).panicked with
    | some p => rw [detailLoop_cons_of_panicked env k r [] _ p hs]
    | none => rw [detailLoop_cons_of_not_panicked env k r [] _ hs]; rfl
  · have := (detailLoop_of_not_panicked env (l.take k) 0 st0 hS).2
    rw [this, hlen]

/-- A loop that ends without a panic reaches every index without a panic. -/
theorem detailLoop_reaches (env : FetchEnv) (l : List TelegraphNews) (st0 : DetailState)
    (k : Nat) (r : TelegraphNews) (hk : l[k]? = some r)
    (hfin : (detailLoop env 0 l st0).panicked = none) :
    (detailLoop env 0 (l.take k) st0).panicked = none ∧
    (detailStep env (detailLoop env 0 (l.take k) st0) k r).panicked = none ∧
    detailLoop env 0 l st0 =
      detailLoop env (k + 1) (l.drop (k + 1))
        (detailStep env (detailLoop env 0 (l.take k) st0) k r) := by
  obtain ⟨hlt, hsplit, hlen, htake⟩ := list_split_at l k r hk
  have hst0 := (detailLoop_of_not_panicked env l 0 st0 hfin).1
  have hS : (detailLoop env 0 (l.take k) st0).panicked = none := by
    cases hp : (detailLoop env 0 (l.take k) st0).panicked with
    | none => rfl
    | some p =>
      have := detailLoop_stuck env (l.take k) (r :: l.drop (k + 1)) 0 st0 p hst0 hp
      rw [← hsplit] at this
      rw [this, hp] at hfin
      exact absurd hfin (by simp)
  have h1 := (detailLoop_at env l st0 k r hk hS).1
  cases hs : (detailStep env (detailLoop env 0 (l.take k) st0) k r).panicked with
  | some p =>
    rw [h1, detailLoop_cons_of_panicked env k r _ _ p hs, hs] at hfin
    exact absurd hfin (by simp)
  | none =>
    refine ⟨hS, rfl, ?_⟩
    rw [h1, detailLoop_cons_of_not_panicked env k r _ _ hs]

/-! ## Goroutines on the global store -/

theorem mergeStep_inCritical (c : MergeCall) (pc : MergePc) (g : GlobalState)
    (h : inCritical pc = true) (hu : pc ≠ MergePc.unlocking) :
    inCritical (mergeStep c pc g).1 = true := by
  cases pc with
  | waiting => simp [inCritical] at h
  | finished => simp [inCritical] at h
  | unlocking => exact absurd rfl hu
  | merging rest =>
    cases rest with
    | nil => simp only [mergeStep]; split <;> rfl
    | cons n rest => simp only [mergeStep]; split <;> rfl
  | collecting allNews => simp only [mergeStep]; split <;> rfl
  | evicting allNews => rfl
  | refilling rest =>
    cases rest with
    | nil => rfl
    | cons n rest => rfl
  | stamping => rfl

theorem finishMerge_step (c : MergeCall) (pc : MergePc) (g : GlobalState)
    (h : inCritical pc = true) (hu : pc ≠ MergePc.unlocking) :
    finishMerge c (mergeStep c pc g).1 (mergeStep c pc g).2 = finishMerge c pc g := by
  cases pc with
  | waiting => simp [inCritical] at h
  | finished => simp [inCritical] at h
  | unlocking => exact absurd rfl hu
  | merging rest =>
    cases rest with
    | nil =>
      simp only [mergeStep]
      split
      · next hlen =>
        simp [finishMerge, updateGlobalCache, mergeNews, hlen]
      · next hlen =>
        simp [finishMerge, updateGlobalCache, mergeNews, hlen]
    | cons n rest =>
      simp only [mergeStep]
      split
      · next hid =>
        simp [finishMerge, updateGlobalCache, mergeNews, hid]
      · next hid =>
        simp [finishMerge, updateGlobalCache, mergeNews, hid]
  | collecting allNews =>
    simp only [mergeStep]
    split
    · next news hn =>
      simp only [finishMerge, List.length_append, List.length_singleton]
      have hlt : allNews.length < (c.order.order g.globalNewsCache.values).length := by
        by_contra hge
        rw [List.getElem?_eq_none (not_lt.mp hge)] at hn
        exact Option.noConfusion hn
      have hget : (c.order.order g.globalNewsCache.values)[allNews.length] = news := by
        rw [List.getElem?_eq_getElem hlt] at hn
        exact Option.some.inj hn
      rw [List.drop_eq_getElem_cons hlt, hget]
      simp
    · next hn =>
      have hge : (c.order.order g.globalNewsCache.values).length ≤ allNews.length := by
        by_contra hlt
        rw [List.getElem?_eq_getElem (not_le.mp hlt)] at hn
        exact Option.noConfusion hn
      simp [finishMerge, List.drop_eq_nil_of_le hge]
  | evicting allNews => rfl
  | refilling rest =>
    cases rest with
    | nil => rfl
    | cons n rest => rfl
  | stamping => rfl

theorem mergerStep_working (c : MergeCall) (pc : MergePc) (g : GlobalState) (writer : Bool)
    (readers : Nat) (h : inCritical pc = true) (hu : pc ≠ MergePc.unlocking) :
    mergerStep c pc g writer readers = ((mergeStep c pc g).1, (mergeStep c pc g).2, writer) := by
  cases pc with
  | waiting => simp [inCritical] at h
  | finished => simp [inCritical] at h
  | unlocking => exact absurd rfl hu
  | merging rest => rfl
  | collecting allNews => rfl
  | evicting allNews => rfl
  | refilling rest => rfl
  | stamping => rfl

theorem ReaderOk_of_not_holding (env : ConcEnv) (g0 g g1 : GlobalState) (pc : ReadPc)
    (h : holdsRead pc = false) (hr : ReaderOk env g0 g pc) : ReaderOk env g0 g1 pc := by
  cases pc with
  | waiting => exact hr
  | copying l => simp [holdsRead] at h
  | unlocking r => simp [holdsRead] at h
  | finished r => exact hr

theorem not_holding_of_readers (reader : ReadPc) (readers : Nat)
    (h3 : readers = (if holdsRead reader = true then 1 else 0)) (h0 : readers = 0) :
    holdsRead reader = false := by
  cases h : holdsRead reader with
  | false => rfl
  | true => rw [h] at h3; simp at h3; omega

theorem SerialStore_first_returns (env : ConcEnv) (g0 G : GlobalState) (b : Bool)
    (h : SerialStore env g0 false b G) :
    SerialStore env g0 true b (runMerges G [env.first]) := by
  cases b with
  | false => simp only [SerialStore] at h ⊢; rw [h]
  | true => simp only [SerialStore] at h ⊢; rw [h]; exact Or.inr rfl

theorem SerialStore_second_returns (env : ConcEnv) (g0 G : GlobalState) (a : Bool)
    (h : SerialStore env g0 a false G) :
    SerialStore env g0 a true (runMerges G [env.second]) := by
  cases a with
  | false => simp only [SerialStore] at h ⊢; rw [h]
  | true => simp only [SerialStore] at h ⊢; rw [h]; exact Or.inl rfl

theorem decide_finished_of_inCritical (pc : MergePc) (h : inCritical pc = true) :
    decide (pc = MergePc.finished) = false := by
  cases pc <;> simp [inCritical] at h ⊢

theorem concStep_first_inv (env : ConcEnv) (g0 : GlobalState) (s : Conc)
    (h : ConcInv env g0 s) : ConcInv env g0 (concStep env Goroutine.first s) := by
  obtain ⟨g, writer, readers, first, second, reader⟩ := s
  obtain ⟨G, L1, L2, L3, L4, D0, D1, D2, D3, D4⟩ := h
  simp only at L1 L2 L3 L4 D0 D1 D2 D3 D4
  simp only [concStep]
  by_cases hcrit : inCritical first = true
  · have hw : writer = true := L1.mpr (Or.inl hcrit)
    have hsec : inCritical second = false := by
      cases hs : inCritical second with
      | false => rfl
      | true => exact absurd ⟨hcrit, hs⟩ L2
    have hread : holdsRead reader = false := not_holding_of_readers reader readers L3 (L4 hw)
    by_cases hu : first = MergePc.unlocking
    · subst hu
      have hg : g = runMerges G [env.first] := D1 rfl
      refine ⟨g, ?_⟩
      simp only [mergerStep]
      refine ⟨?_, ?_, L3, ?_, ?_, ?_, ?_, ?_, ?_⟩
      · simp only [hsec]; simp [inCritical]
      · simp [inCritical]
      · intro hf; exact absurd hf (by simp)
      · have := SerialStore_first_returns env g0 G _ D0
        rw [← hg] at this
        simpa using this
      · intro hf; simp [inCritical] at hf
      · intro hf; rw [hsec] at hf; exact absurd hf (by simp)
      · intro _; trivial
      · exact D4
    · rw [mergerStep_working _ _ _ _ _ hcrit hu]
      have hnew := mergeStep_inCritical env.first first g hcrit hu
      refine ⟨G, ?_⟩
      refine ⟨?_, ?_, L3, L4, ?_, ?_, ?_, ?_, ?_⟩
      · simp [hnew, hw]
      · simp [hsec]
      · rw [decide_finished_of_inCritical _ hnew]
        rw [decide_finished_of_inCritical _ hcrit] at D0
        exact D0
      · intro _
        simp only
        rw [finishMerge_step _ _ _ hcrit hu]
        exact D1 hcrit
      · intro hf; rw [hsec] at hf; exact absurd hf (by simp)
      · intro hf; simp only at hf; rw [hw] at hf; exact absurd hf (by simp)
      · exact ReaderOk_of_not_holding env g0 g _ reader hread D4
  · have hcrit0 : inCritical first = false := by
      cases hc : inCritical first with
      | false => rfl
      | true => exact absurd hc hcrit
    cases first with
    | waiting =>
      simp only [mergerStep]
      by_cases hfree : writer = false ∧ readers = 0
      · rw [if_pos hfree]
        obtain ⟨hw, hr⟩ := hfree
        have hsec : inCritical second = false := by
          cases hs : inCritical second with
          | false => rfl
          | true => rw [L1.mpr (Or.inr hs)] at hw; exact absurd hw (by simp)
        have hgG : g = G := D3 hw
        refine ⟨G, ?_⟩
        refine ⟨?_, ?_, L3, ?_, ?_, ?_, ?_, ?_, D4⟩
        · simp [inCritical]
        · simp [hsec]
        · intro _; exact hr
        · simpa using D0
        · intro _
          simp only [finishMerge, runMerges, hgG]
        · intro hf; rw [hsec] at hf; exact absurd hf (by simp)
        · intro hf; exact absurd hf (by simp)
      · rw [if_neg hfree]
        exact ⟨G, L1, L2, L3, L4, D0, D1, D2, D3, D4⟩
    | finished =>
      simp only [mergerStep]
      exact ⟨G, L1, L2, L3, L4, D0, D1, D2, D3, D4⟩
    | merging rest => simp [inCritical] at hcrit0
    | collecting l => simp [inCritical] at hcrit0
    | evicting l => simp [inCritical] at hcrit0
    | refilling l => simp [inCritical] at hcrit0
    | stamping => simp [inCritical] at hcrit0
    | unlocking => simp [inCritical] at hcrit0

theorem concStep_second_inv (env : ConcEnv) (g0 : GlobalState) (s : Conc)
    (h : ConcInv env g0 s) : ConcInv env g0 (concStep env Goroutine.second s) := by
  obtain ⟨g, writer, readers, first, second, reader⟩ := s
  obtain ⟨G, L1, L2, L3, L4, D0, D1, D2, D3, D4⟩ := h
  simp only at L1 L2 L3 L4 D0 D1 D2 D3 D4
  simp only [concStep]
  by_cases hcrit : inCritical second = true
  · have hw : writer = true := L1.mpr (Or.inr hcrit)
    have hfst : inCritical first = false := by
      cases hs : inCritical first with
      | false => rfl
      | true => exact absurd ⟨hs, hcrit⟩ L2
    have hread : holdsRead reader = false := not_holding_of_readers reader readers L3 (L4 hw)
    by_cases hu : second = MergePc.unlocking
    · subst hu
      have hg : g = runMerges G [env.second] := D2 rfl
      refine ⟨g, ?_⟩
      simp only [mergerStep]
      refine ⟨?_, ?_, L3, ?_, ?_, ?_, ?_, ?_, ?_⟩
      · simp only [hfst]; simp [inCritical]
      · simp [inCritical]
      · intro hf; exact absurd hf (by simp)
      · have := SerialStore_second_returns env g0 G _ D0
        rw [← hg] at this
        simpa using this
      · intro hf; rw [hfst] at hf; exact absurd hf (by simp)
      · intro hf; simp [inCritical] at hf
      · intro _; trivial
      · exact D4
    · rw [mergerStep_working _ _ _ _ _ hcrit hu]
      have hnew := mergeStep_inCritical env.second second g hcrit hu
      refine ⟨G, ?_⟩
      refine ⟨?_, ?_, L3, L4, ?_, ?_, ?_, ?_, ?_⟩
      · simp [hnew, hw]
      · simp [hfst]
      · rw [decide_finished_of_inCritical _ hnew]
        rw [decide_finished_of_inCritical _ hcrit] at D0
        exact D0
      · intro hf; rw [hfst] at hf; exact absurd hf (by simp)
      · intro _
        simp only
        rw [finishMerge_step _ _ _ hcrit hu]
        exact D2 hcrit
      · intro hf; simp only at hf; rw [hw] at hf; exact absurd hf (by simp)
      · exact ReaderOk_of_not_holding env g0 g _ reader hread D4
  · have hcrit0 : inCritical second = false := by
      cases hc : inCritical second with
      | false => rfl
      | true => exact absurd hc hcrit
    cases second with
    | waiting =>
      simp only [mergerStep]
      by_cases hfree : writer = false ∧ readers = 0
      · rw [if_pos hfree]
        obtain ⟨hw, hr⟩ := hfree
        have hfst : inCritical first = false := by
          cases hs : inCritical first with
          | false => rfl
          | true => rw [L1.mpr (Or.inl hs)] at hw; exact absurd hw (by simp)
        have hgG : g = G := D3 hw
        refine ⟨G, ?_⟩
        refine ⟨?_, ?_, L3, ?_, ?_, ?_, ?_, ?_, D4⟩
        · simp [inCritical]
        · simp [hfst]
        · intro _; exact hr
        · simpa using D0
        · intro hf; rw [hfst] at hf; exact absurd hf (by simp)
        · intro _
          simp only [finishMerge, runMerges, hgG]
        · intro hf; exact absurd hf (by simp)
      · rw [if_neg hfree]
        exact ⟨G, L1, L2, L3, L4, D0, D1, D2, D3, D4⟩
    | finished =>
      simp only [mergerStep]
      exact ⟨G, L1, L2, L3, L4, D0, D1, D2, D3, D4⟩
    | merging rest => simp [inCritical] at hcrit0
    | collecting l => simp [inCritical] at hcrit0
    | evicting l => simp [inCritical] at hcrit0
    | refilling l => simp [inCritical] at hcrit0
    | stamping => simp [inCritical] at hcrit0
    | unlocking => simp [inCritical] at hcrit0

theorem SerialStore_read (env : ConcEnv) (g0 G : GlobalState) (a b : Bool)
    (h : SerialStore env g0 a b G) :
    SerialRead env g0 (GetGlobalCachedNews env.readOrder env.limit G).1 :=
  ⟨a, b, G, h, rfl⟩

theorem concStep_reader_inv (env : ConcEnv) (g0 : GlobalState) (s : Conc)
    (h : ConcInv env g0 s) : ConcInv env g0 (concStep env Goroutine.reader s) := by
  obtain ⟨g, writer, readers, first, second, reader⟩ := s
  obtain ⟨G, L1, L2, L3, L4, D0, D1, D2, D3, D4⟩ := h
  simp only at L1 L2 L3 L4 D0 D1 D2 D3 D4
  simp only [concStep]
  cases reader with
  | waiting =>
    simp only
    by_cases hw : writer = false
    · rw [if_pos hw]
      refine ⟨G, L1, L2, ?_, ?_, D0, D1, D2, D3, ?_⟩
      · simp only [holdsRead] at L3 ⊢
        simp at L3 ⊢
        exact L3
      · intro hf; rw [hw] at hf; exact absurd hf (by simp)
      · simp [ReaderOk]
    · rw [if_neg hw]
      exact ⟨G, L1, L2, L3, L4, D0, D1, D2, D3, D4⟩
  | copying newsList =>
    have hr1 : readers = 1 := by simpa [holdsRead] using L3
    have hw : writer = false := by
      cases hwr : writer with
      | false => rfl
      | true => have := L4 hwr; omega
    have hgG : g = G := D3 hw
    simp only [ReaderOk] at D4
    simp only [readStep]
    cases hn : (env.readOrder.order g.globalNewsCache.values)[newsList.length]? with
    | some news =>
      simp only
      refine ⟨G, L1, L2, ?_, L4, D0, D1, D2, D3, ?_⟩
      · simpa [holdsRead] using hr1
      · simp only [ReaderOk, List.length_append, List.length_singleton]
        have hlt : newsList.length < (env.readOrder.order g.globalNewsCache.values).length := by
          by_contra hge
          rw [List.getElem?_eq_none (not_lt.mp hge)] at hn
          exact Option.noConfusion hn
        have hget : (env.readOrder.order g.globalNewsCache.values)[newsList.length] = news := by
          rw [List.getElem?_eq_getElem hlt] at hn
          exact Option.some.inj hn
        rw [List.take_succ, hn, ← D4]
        rfl
    | none =>
      simp only
      have hge : (env.readOrder.order g.globalNewsCache.values).length ≤ newsList.length := by
        by_contra hlt
        rw [List.getElem?_eq_getElem (not_le.mp hlt)] at hn
        exact Option.noConfusion hn
      have hall : newsList = env.readOrder.order g.globalNewsCache.values := by
        rw [D4, List.take_of_length_le hge]
      refine ⟨G, L1, L2, ?_, L4, D0, D1, D2, D3, ?_⟩
      · simpa [holdsRead] using hr1
      · simp only [ReaderOk]
        have := SerialStore_read env g0 G _ _ D0
        rw [← hgG] at this
        simp only [GetGlobalCachedNews, ← hall] at this
        exact this
  | unlocking result =>
    have hr1 : readers = 1 := by simpa [holdsRead] using L3
    simp only
    refine ⟨G, L1, L2, ?_, ?_, D0, D1, D2, D3, ?_⟩
    · simp [holdsRead, hr1]
    · intro _; simp [hr1]
    · exact D4
  | finished result =>
    simp only
    exact ⟨G, L1, L2, L3, L4, D0, D1, D2, D3, D4⟩

theorem concStep_inv (env : ConcEnv) (g0 : GlobalState) (t : Goroutine) (s : Conc)
    (h : ConcInv env g0 s) : ConcInv env g0 (concStep env t s) := by
  cases t with
  | first => exact concStep_first_inv env g0 s h
  | second => exact concStep_second_inv env g0 s h
  | reader => exact concStep_reader_inv env g0 s h

theorem runSchedule_inv (env : ConcEnv) (g0 : GlobalState) (schedule : List Goroutine)
    (s : Conc) (h : ConcInv env g0 s) : ConcInv env g0 (runSchedule env schedule s) := by
  induction schedule generalizing s with
  | nil => exact h
  | cons t ts ih => exact ih _ (concStep_inv env g0 t s h)

theorem concStart_inv (env : ConcEnv) (g0 : GlobalState) : ConcInv env g0 (concStart g0) := by
  refine ⟨g0, ?_, ?_, ?_, ?_, ?_, ?_, ?_, ?_, ?_⟩ <;>
    simp [concStart, inCritical, holdsRead, SerialStore, ReaderOk]

theorem RangeOrder.length_order (σ : RangeOrder) (m : NewsCache) :
    (σ.order m.values).length = m.len := by
  rw [(σ.perm m.values).length_eq, NewsCache.len_values]

theorem mergeFuel_step (c : MergeCall) (pc : MergePc) (g : GlobalState)
    (h : inCritical pc = true) (hu : pc ≠ MergePc.unlocking) :
    mergeFuel (mergeStep c pc g).1 (mergeStep c pc g).2 < mergeFuel pc g := by
  cases pc with
  | waiting => simp [inCritical] at h
  | finished => simp [inCritical] at h
  | unlocking => exact absurd rfl hu
  | merging rest =>
    cases rest with
    | nil =>
      simp only [mergeStep]
      split <;> simp [mergeFuel]
    | cons n rest =>
      simp only [mergeStep]
      split
      · simp only [mergeFuel, List.length_cons]
        have := g.globalNewsCache.len_insert_le n.ID n
        omega
      · simp only [mergeFuel, List.length_cons]
        omega
  | collecting allNews =>
    simp only [mergeStep]
    split
    · next news hn =>
      have hlt : allNews.length < (c.order.order g.globalNewsCache.values).length := by
        by_contra hge
        rw [List.getElem?_eq_none (not_lt.mp hge)] at hn
        exact Option.noConfusion hn
      rw [RangeOrder.length_order] at hlt
      simp only [mergeFuel, List.length_append, List.length_singleton]
      omega
    · simp only [mergeFuel, List.length_take]
      omega
  | evicting allNews =>
    simp only [mergeStep, mergeFuel]
    omega
  | refilling rest =>
    cases rest with
    | nil => simp [mergeStep, mergeFuel]
    | cons n rest => simp [mergeStep, mergeFuel]
  | stamping => simp [mergeStep, mergeFuel]

theorem mergeFuel_outside (pc : MergePc) (g : GlobalState) (h : inCritical pc = false) :
    mergeFuel pc g = 0 := by
  cases pc <;> simp [inCritical] at h <;> rfl

theorem readFuel_outside (pc : ReadPc) (g : GlobalState) (h : holdsRead pc = false) :
    readFuel pc g = 0 := by
  cases pc <;> simp [holdsRead] at h <;> rfl

theorem waiting_of_inCritical (pc : MergePc) (h : inCritical pc = true) :
    pc ≠ MergePc.waiting := by
  intro hw; rw [hw] at h; simp [inCritical] at h

theorem readStep_copying (σ : RangeOrder) (limit : Int) (newsList : List TelegraphNews)
    (g : GlobalState) :
    (∃ news, newsList.length < g.globalNewsCache.len ∧
      readStep σ limit (ReadPc.copying newsList) g = ReadPc.copying (newsList ++ [news])) ∨
    (∃ result, readStep σ limit (ReadPc.copying newsList) g = ReadPc.unlocking result) := by
  simp only [readStep]
  cases hget : (σ.order g.globalNewsCache.values)[newsList.length]? with
  | some news =>
    have hlt : newsList.length < (σ.order g.globalNewsCache.values).length := by
      by_contra hge
      rw [List.getElem?_eq_none (not_lt.mp hge)] at hget
      exact Option.noConfusion hget
    rw [RangeOrder.length_order] at hlt
    exact Or.inl ⟨news, hlt, rfl⟩
  | none => exact Or.inr ⟨_, rfl⟩

theorem conc_progress (env : ConcEnv) (g0 : GlobalState) (s : Conc)
    (h : ConcInv env g0 s) (hn : ¬ AllReturned s) :
    ∃ t, waitingCount (concStep env t s) < waitingCount s ∨
      (waitingCount (concStep env t s) = waitingCount s ∧
        concFuel (concStep env t s) < concFuel s) := by
  obtain ⟨g, writer, readers, first, second, reader⟩ := s
  obtain ⟨G, L1, L2, L3, L4, D0, D1, D2, D3, D4⟩ := h
  simp only at L1 L2 L3 L4 D0 D1 D2 D3 D4
  by_cases hc1 : inCritical first = true
  · have hw : writer = true := L1.mpr (Or.inl hc1)
    have hsec : inCritical second = false := by
      cases hs : inCritical second with
      | false => rfl
      | true => exact absurd ⟨hc1, hs⟩ L2
    have hread : holdsRead reader = false := not_holding_of_readers reader readers L3 (L4 hw)
    refine ⟨Goroutine.first, Or.inr ?_⟩
    simp only [concStep, waitingCount, concFuel]
    by_cases hu : first = MergePc.unlocking
    · subst hu
      simp [mergerStep, mergeFuel]
    · have hnew := mergeStep_inCritical env.first first g hc1 hu
      have hf := mergeFuel_step env.first first g hc1 hu
      simp only [mergerStep_working _ _ _ _ _ hc1 hu,
        mergeFuel_outside _ _ hsec, readFuel_outside _ _ hread,
        if_neg (waiting_of_inCritical _ hnew), if_neg (waiting_of_inCritical _ hc1)]
      exact ⟨trivial, by omega⟩
  · have hc1f : inCritical first = false := by
      cases hc : inCritical first with
      | false => rfl
      | true => exact absurd hc hc1
    by_cases hc2 : inCritical second = true
    · have hw : writer = true := L1.mpr (Or.inr hc2)
      have hread : holdsRead reader = false :=
        not_holding_of_readers reader readers L3 (L4 hw)
      refine ⟨Goroutine.second, Or.inr ?_⟩
      simp only [concStep, waitingCount, concFuel]
      by_cases hu : second = MergePc.unlocking
      · subst hu
        simp [mergerStep, mergeFuel]
      · have hnew := mergeStep_inCritical env.second second g hc2 hu
        have hf := mergeFuel_step env.second second g hc2 hu
        simp only [mergerStep_working _ _ _ _ _ hc2 hu,
          mergeFuel_outside _ _ hc1f, readFuel_outside _ _ hread,
          if_neg (waiting_of_inCritical _ hnew), if_neg (waiting_of_inCritical _ hc2)]
        exact ⟨trivial, by omega⟩
    · have hc2f : inCritical second = false := by
        cases hc : inCritical second with
        | false => rfl
        | true => exact absurd hc hc2
      have hw : writer = false := by
        cases hwr : writer with
        | false => rfl
        | true =>
          rcases L1.mp hwr with h1 | h1
          · exact absurd h1 hc1
          · exact absurd h1 hc2
      cases reader with
      | copying newsList =>
        refine ⟨Goroutine.reader, Or.inr ?_⟩
        simp only [concStep, waitingCount, concFuel]
        rcases readStep_copying env.readOrder env.limit newsList g with
          ⟨news, hlt, hrs⟩ | ⟨result, hrs⟩
        · simp only [hrs, readFuel, List.length_append, List.length_singleton]
          refine ⟨by simp, by omega⟩
        · simp only [hrs, readFuel]
          refine ⟨by simp, by omega⟩
      | unlocking result =>
        refine ⟨Goroutine.reader, Or.inr ?_⟩
        simp [concStep, waitingCount, concFuel, readFuel]
      | waiting =>
        refine ⟨Goroutine.reader, Or.inl ?_⟩
        simp [concStep, waitingCount, hw]
      | finished result =>
        have hr0 : readers = 0 := by simpa [holdsRead] using L3
        cases first with
        | waiting =>
          refine ⟨Goroutine.first, Or.inl ?_⟩
          simp [concStep, waitingCount, mergerStep, hw, hr0]
        | finished =>
          cases second with
          | waiting =>
            refine ⟨Goroutine.second, Or.inl ?_⟩
            simp [concStep, waitingCount, mergerStep, hw, hr0]
          | finished => exact absurd ⟨rfl, rfl, result, rfl⟩ hn
          | merging rest => simp [inCritical] at hc2f
          | collecting l => simp [inCritical] at hc2f
          | evicting l => simp [inCritical] at hc2f
          | refilling l => simp [inCritical] at hc2f
          | stamping => simp [inCritical] at hc2f
          | unlocking => simp [inCritical] at hc2f
        | merging rest => simp [inCritical] at hc1f
        | collecting l => simp [inCritical] at hc1f
        | evicting l => simp [inCritical] at hc1f
        | refilling l => simp [inCritical] at hc1f
        | stamping => simp [inCritical] at hc1f
        | unlocking => simp [inCritical] at hc1f

theorem exists_completion (env : ConcEnv) (g0 : GlobalState) (s : Conc)
    (h : ConcInv env g0 s) :
    ∃ more, AllReturned (runSchedule env more s) := by
  by_cases hall : AllReturned s
  · exact ⟨[], hall⟩
  · obtain ⟨t, ht⟩ := conc_progress env g0 s h hall
    obtain ⟨more, hm⟩ :=
      exists_completion env g0 (concStep env t s) (concStep_inv env g0 t s h)
    exact ⟨t :: more, hm⟩
termination_by (waitingCount s, concFuel s)
decreasing_by
  rcases ht with ht | ⟨ht1, ht2⟩
  · exact Prod.Lex.left _ _ ht
  · rw [ht1]
    exact Prod.Lex.right _ ht2

theorem runSchedule_append (env : ConcEnv) (a b : List Goroutine) (s : Conc) :
    runSchedule env (a ++ b) s = runSchedule env b (runSchedule env a s) := by
  induction a generalizing s with
  | nil => rfl
  | cons t ts ih => exact ih _

theorem SerialStore_mem (env : ConcEnv) (g0 G : GlobalState) (a b : Bool)
    (h : SerialStore env g0 a b G) : G ∈ SerialStores env g0 := by
  cases a <;> cases b <;> simp only [SerialStore] at h <;>
    simp only [SerialStores, List.mem_cons, List.mem_singleton, List.not_mem_nil, or_false]
  · exact Or.inl h
  · exact Or.inr (Or.inr (Or.inl h))
  · exact Or.inr (Or.inl h)
  · rcases h with h | h
    · exact Or.inr (Or.inr (Or.inr (Or.inl h)))
    · exact Or.inr (Or.inr (Or.inr (Or.inr h)))

/-! ## The analyzer -/

theorem Join_snoc (l : List String) (x sep : String) :
    ∃ p, Join (l ++ [x]) sep = p ++ x := by
  induction l with
  | nil => exact ⟨"", by simp [Join]⟩
  | cons a l ih =>
    obtain ⟨p, hp⟩ := ih
    cases l with
    | nil => exact ⟨a ++ sep, by simp [Join]⟩
    | cons b l =>
      refine ⟨a ++ sep ++ p, ?_⟩
      have hj : Join (a :: b :: (l ++ [x])) sep = a ++ sep ++ Join (b :: (l ++ [x])) sep := rfl
      rw [List.cons_append, List.cons_append, hj, ← List.cons_append, hp,
        String.append_assoc, String.append_assoc, String.append_assoc]

theorem rateCutNews_fields :
    extractKeywords plainTextLib (listVisit String)
      (rateCutNews.Title ++ " " ++ rateCutNews.Content) = ["央行", "降息", "银行"] ∧
    identifyIndustries plainTextLib (listVisit (String × List String)) (listVisit String)
      (rateCutNews.Title ++ " " ++ rateCutNews.Content) = ["金融"] ∧
    identifyStocks plainTextLib (listVisit String)
      (rateCutNews.Title ++ " " ++ rateCutNews.Content) = [] ∧
    analyzeSentiment plainTextLib (rateCutNews.Title ++ " " ++ rateCutNews.Content) =
      "positive" := by
  decide

/-! ## Helper lemmas for `deduplicateNews` -/

theorem deduplicateLoop_eq (seen : List String) (result l : List TelegraphNews) :
    deduplicateLoop seen result l = result ++ keptFrom seen l := by
  induction l generalizing seen result with
  | nil => simp [deduplicateLoop, keptFrom]
  | cons news rest ih =>
    simp only [deduplicateLoop, keptFrom]
    split
    · rw [ih]; simp
    · split
      · rw [ih]; simp
      · rw [ih]

theorem deduplicateNews_eq (l : List TelegraphNews) :
    deduplicateNews l = keptFrom [] l := by
  unfold deduplicateNews
  split
  · next h =>
    have : l = [] := List.length_eq_zero.mp h
    subst this; rfl
  · rw [deduplicateLoop_eq]; simp

theorem keptFrom_sublist (seen : List String) (l : List TelegraphNews) :
    (keptFrom seen l).Sublist l := by
  induction l generalizing seen with
  | nil => simp [keptFrom]
  | cons news rest ih =>
    simp only [keptFrom]
    split
    · exact (ih seen).cons₂ _
    · split
      · exact (ih _).cons₂ _
      · exact (ih seen).cons _

theorem keptFrom_not_seen (seen : List String) (l : List TelegraphNews) :
    ∀ r ∈ keptFrom seen l, r.ID ≠ "" → r.ID ∉ seen := by
  induction l generalizing seen with
  | nil => simp [keptFrom]
  | cons news rest ih =>
    intro r hr hne
    simp only [keptFrom] at hr
    split at hr
    · next h0 =>
      rcases List.mem_cons.mp hr with h | h
      · subst h; exact absurd h0 hne
      · exact ih seen r h hne
    · split at hr
      · next h0 h1 =>
        rcases List.mem_cons.mp hr with h | h
        · subst h; exact h1
        · have := ih _ r h hne
          exact fun hm => this (List.mem_cons_of_mem _ hm)
      · exact ih seen r hr hne

theorem keptFrom_pairwise (seen : List String) (l : List TelegraphNews) :
    (keptFrom seen l).Pairwise (fun a b => a.ID ≠ "" → a.ID ≠ b.ID) := by
  induction l generalizing seen with
  | nil => simp [keptFrom]
  | cons news rest ih =>
    simp only [keptFrom]
    split
    · next h0 =>
      refine List.pairwise_cons.mpr ⟨?_, ih seen⟩
      intro b _ hne
      exact absurd h0 hne
    · split
      · next h0 h1 =>
        refine List.pairwise_cons.mpr ⟨?_, ih _⟩
        intro b hb _ heq
        have hbne : b.ID ≠ "" := by rw [← heq]; exact h0
        exact keptFrom_not_seen _ rest b hb hbne (by rw [← heq]; exact List.mem_cons_self _ _)
      · exact ih seen

theorem keptFrom_filter_empty (seen : List String) (l : List TelegraphNews) :
    (keptFrom seen l).filter (fun r => decide (r.ID = "")) =
      l.filter (fun r => decide (r.ID = "")) := by
  induction l generalizing seen with
  | nil => simp [keptFrom]
  | cons news rest ih =>
    simp only [keptFrom]
    split
    · next h0 => simp [List.filter_cons, h0, ih seen]
    · next h0 =>
      split
      · simp [List.filter_cons, h0, ih]
      · simp [List.filter_cons, h0, ih seen]

/-- The records with ID `k` that the loop keeps: the first one of the input,
unless `k` was seen before. -/
theorem keptFrom_filter_id (seen : List String) (l : List TelegraphNews) (k : String)
    (hk : k ≠ "") :
    (keptFrom seen l).filter (fun r => decide (r.ID = k)) =
      if k ∈ seen then [] else (l.find? (fun r => decide (r.ID = k))).toList := by
  induction l generalizing seen with
  | nil => simp [keptFrom]
  | cons news rest ih =>
    simp only [keptFrom]
    by_cases h0 : news.ID = ""
    · have hnk : ¬ news.ID = k := fun h => hk (h ▸ h0)
      simp [h0, List.filter_cons, List.find?_cons, ih seen]
      simp [h0] at hnk
      simp [hnk, fun h : "" = k => hk h.symm]
    · by_cases h1 : news.ID ∈ seen
      · simp only [h0, h1, if_false, not_true_eq_false]
        rw [ih seen]
        by_cases hks : k ∈ seen
        · simp [hks]
        · have hnk : ¬ news.ID = k := fun h => hks (h ▸ h1)
          simp [hks, List.find?_cons, hnk]
      · simp only [h0, h1, if_false, not_false_eq_true, if_true]
        by_cases hnk : news.ID = k
        · subst hnk
          simp [List.filter_cons, List.find?_cons, ih, h1]
        · have hne : ¬ k = news.ID := fun h => hnk h.symm
          simp [List.filter_cons, List.find?_cons, ih, hnk, hne]

/-! ## Theorems about `deduplicateNews` -/

/-- C1: in the output of deduplicateNews no two records (at two different
positions) carry the same non-empty ID. -/
theorem deduplicateNews_unique_nonempty_ids (newsList : List TelegraphNews) :
    (deduplicateNews newsList).Pairwise (fun a b => a.ID ≠ "" → a.ID ≠ b.ID) ∧
    (((deduplicateNews newsList).filter (fun r => decide (r.ID ≠ ""))).map
      TelegraphNews.ID).Nodup := by
  rw [deduplicateNews_eq]
  refine ⟨keptFrom_pairwise [] newsList, ?_⟩
  rw [List.Nodup, List.pairwise_map]
  refine ((keptFrom_pairwise [] newsList).filter _).imp_of_mem ?_
  intro a b ha _ h
  have : a.ID ≠ "" := by simpa using (List.mem_filter.mp ha).2
  exact h this

/-- C2: the output of deduplicateNews is a subsequence of the input (so the
kept records are in input order and the output is no longer than the input),
and for every non-empty ID occurring in the input the output holds exactly one
record with that ID, the first input record that carries it. -/
theorem deduplicateNews_first_occurrence (newsList : List TelegraphNews) :
    (deduplicateNews newsList).Sublist newsList ∧
    (deduplicateNews newsList).length ≤ newsList.length ∧
    ∀ k : String, k ≠ "" →
      (deduplicateNews newsList).filter (fun r => decide (r.ID = k)) =
        (newsList.find? (fun r => decide (r.ID = k))).toList := by
  rw [deduplicateNews_eq]
  refine ⟨keptFrom_sublist [] newsList, (keptFrom_sublist [] newsList).length_le, ?_⟩
  intro k hk
  rw [keptFrom_filter_id [] newsList k hk]
  simp

/-- C3: the empty-ID records of the output of deduplicateNews are exactly the
empty-ID records of the input, in the same order and multiplicity. -/
theorem deduplicateNews_keeps_empty_ids (newsList : List TelegraphNews) :
    (deduplicateNews newsList).filter (fun r => decide (r.ID = "")) =
      newsList.filter (fun r => decide (r.ID = "")) := by
  rw [deduplicateNews_eq]
  exact keptFrom_filter_empty [] newsList

/-! ## Theorems about the global cache -/

/-- C4: whatever the store held before, after every call of updateGlobalCache, alone
or as the last call of any sequence of calls with arbitrary batches and range
orders, the global cache holds at most 100 records. -/
theorem updateGlobalCache_capacity (g : GlobalState) :
    (∀ (σ : RangeOrder) (now : Int) (batch : List TelegraphNews),
      (updateGlobalCache σ now batch g).globalNewsCache.len ≤ 100) ∧
    (∀ (calls : List MergeCall) (call : MergeCall),
      (runMerges g (calls ++ [call])).globalNewsCache.len ≤ 100) := by
  refine ⟨fun σ now batch => updateGlobalCache_len_le σ now batch g, ?_⟩
  intro calls call
  rw [runMerges_append]
  exact updateGlobalCache_len_le _ _ _ _

/-- C5 as stated fails.  Merging, one call each, 101 records that all carry the ID 1
leaves one record in the store, not 100; and merging 101 records with pairwise
distinct IDs and one common publish time retains the record with ID 0 under one
range order of the map and drops it under another, so ties are not broken
deterministically. -/
theorem updateGlobalCache_latest_counterexample :
    ((allBatches sameIdCalls).length = 101 ∧
      (runMerges initialState sameIdCalls).globalNewsCache.values = [mkNews "1" "A" 100]) ∧
    (sameTimeBatch.length = 101 ∧
      (runMerges initialState [⟨listOrder, 0, sameTimeBatch⟩]).globalNewsCache.lookup "0" =
        some (mkNews "0" "A" 5) ∧
      (runMerges initialState [⟨reverseOrder, 0, sameTimeBatch⟩]).globalNewsCache.lookup "0" =
        none) := by
  refine ⟨⟨by decide!, by decide!⟩, by decide!, ?_, ?_⟩
  · simp only [runMerges]
    rw [sameTimeBatch_first_call 0]
    exact sameTimeBatch_kept_in_list_order
  · simp only [runMerges]
    rw [updateGlobalCache_cache_of_same_time reverseOrder 0 sameTimeBatch initialState 5
      (mergeNews_empty_values _ sameTimeBatch_ids_ne sameTimeBatch_ids_nodup)
      sameTimeBatch_length sameTimeBatch_time]
    exact sameTimeBatch_dropped_in_reverse_order

/-- C5 (amended): after any sequence of updateGlobalCache calls on an empty store
whose merged records carry non-empty, pairwise distinct IDs, the store holds
min(100, n) of the n merged records, namely the 100 first of some arrangement
of all merged records by non-increasing publish time: no merged record outside
the store is published later than a record in it.  Which of several records
with equal publish time at the cut are kept follows the range order of the map. -/
theorem updateGlobalCache_retains_latest (t0 : Int) (calls : List MergeCall)
    (hnd : ((allBatches calls).map TelegraphNews.ID).Nodup)
    (hne : ∀ r ∈ allBatches calls, r.ID ≠ "") :
    (runMerges ⟨NewsCache.empty, t0⟩ calls).globalNewsCache.len =
      min 100 (allBatches calls).length ∧
    (∃ L : List TelegraphNews, L.Perm (allBatches calls) ∧
      L.Pairwise (fun a b => b.PublishTime ≤ a.PublishTime) ∧
      (runMerges ⟨NewsCache.empty, t0⟩ calls).globalNewsCache.values.Perm (L.take 100)) ∧
    (∀ s ∈ (runMerges ⟨NewsCache.empty, t0⟩ calls).globalNewsCache.values,
      s ∈ allBatches calls ∧
      ∀ d ∈ allBatches calls,
        d ∉ (runMerges ⟨NewsCache.empty, t0⟩ calls).globalNewsCache.values →
        d.PublishTime ≤ s.PublishTime) := by
  have h := runMerges_holdsLatest calls ⟨NewsCache.empty, t0⟩ [] KeyedByID.of_empty
    ⟨[], List.Perm.refl _, List.Pairwise.nil, by simp [NewsCache.values, NewsCache.empty]⟩
    (by simpa using hnd) hne
  simp only [List.nil_append] at h
  obtain ⟨L, hLA, hLs, hv⟩ := h
  refine ⟨?_, ⟨L, hLA, hLs, hv⟩, ?_⟩
  · rw [← NewsCache.len_values, hv.length_eq, List.length_take, hLA.length_eq]
  · intro s hs
    have hsT : s ∈ L.take 100 := hv.mem_iff.mp hs
    refine ⟨hLA.mem_iff.mp (List.mem_of_mem_take hsT), ?_⟩
    intro d hd hdn
    have hdL : d ∈ L := hLA.mem_iff.mpr hd
    rcases mem_take_or_drop L 100 d hdL with h1 | h1
    · exact absurd (hv.mem_iff.mpr h1) hdn
    · exact pairwise_take_drop L 100 hLs s hsT d h1

/-- Witness for C5 (amended): 101 records with the IDs 0 to 100 and the publish
times 0 to 100, merged in two calls of 60 and 41 records. -/
theorem updateGlobalCache_retains_latest_witness :
    ((allBatches risingCalls).map TelegraphNews.ID).Nodup ∧
    (∀ r ∈ allBatches risingCalls, r.ID ≠ "") ∧
    (allBatches risingCalls).length = 101 ∧
    (runMerges ⟨NewsCache.empty, 0⟩ risingCalls).globalNewsCache.len =
      min 100 (allBatches risingCalls).length :=
  have hnd : ((allBatches risingCalls).map TelegraphNews.ID).Nodup :=
    allBatches_risingCalls ▸ risingBatch_ids_nodup
  have hne : ∀ r ∈ allBatches risingCalls, r.ID ≠ "" :=
    allBatches_risingCalls ▸ risingBatch_ids_ne
  ⟨hnd, hne, by decide!, (updateGlobalCache_retains_latest 0 risingCalls hnd hne).1⟩

theorem GetGlobalCachedNews_zero (σ : RangeOrder) (g : GlobalState) :
    (GetGlobalCachedNews σ 0 g).1 = sortByPublishTime (σ.order g.globalNewsCache.values) := by
  simp [GetGlobalCachedNews]

theorem GetGlobalCachedNews_zero_perm (σ : RangeOrder) (g : GlobalState) :
    (GetGlobalCachedNews σ 0 g).1.Perm g.globalNewsCache.values := by
  rw [GetGlobalCachedNews_zero]
  exact (sortByPublishTime_perm _).trans (σ.perm _)

theorem GetGlobalCachedNews_zero_length (σ : RangeOrder) (g : GlobalState) :
    (GetGlobalCachedNews σ 0 g).1.length = g.globalNewsCache.len := by
  rw [(GetGlobalCachedNews_zero_perm σ g).length_eq, NewsCache.len_values]

/-- C6: for every store content and every range order, the list returned by
GetGlobalCachedNews(0) is the stored records rearranged so that publish times are
non-increasing: no record is published before the record that follows it, nor
before any later one. -/
theorem GetGlobalCachedNews_descending (σ : RangeOrder) (g : GlobalState) :
    (GetGlobalCachedNews σ 0 g).1.Chain' (fun a b => ¬ a.PublishTime < b.PublishTime) ∧
    (GetGlobalCachedNews σ 0 g).1.Pairwise (fun a b => ¬ a.PublishTime < b.PublishTime) ∧
    (GetGlobalCachedNews σ 0 g).1.Perm g.globalNewsCache.values := by
  have h : (GetGlobalCachedNews σ 0 g).1.Pairwise
      (fun a b => ¬ a.PublishTime < b.PublishTime) := by
    rw [GetGlobalCachedNews_zero]
    exact (sortByPublishTime_sorted _).imp (fun hab => not_lt.mpr hab)
  exact ⟨h.chain', h, GetGlobalCachedNews_zero_perm σ g⟩

/-- C7: GetGlobalCachedNews(limit) on a store of n records returns, when limit ≤ 0, a
permutation of the n stored records, and when limit > 0 exactly min(limit, n)
records, the first min(limit, n) of the time-descending list that
GetGlobalCachedNews(0) builds from the same range order (a permutation of the
stored records with non-increasing publish times); the store is left as it was. -/
theorem GetGlobalCachedNews_limit (σ : RangeOrder) (limit : Int) (g : GlobalState) :
    (limit ≤ 0 → (GetGlobalCachedNews σ limit g).1.Perm g.globalNewsCache.values) ∧
    (0 < limit →
      (GetGlobalCachedNews σ limit g).1.length = min limit.toNat g.globalNewsCache.len ∧
      (GetGlobalCachedNews σ limit g).1 =
        (GetGlobalCachedNews σ 0 g).1.take (min limit.toNat g.globalNewsCache.len)) ∧
    ((GetGlobalCachedNews σ 0 g).1.Perm g.globalNewsCache.values ∧
      (GetGlobalCachedNews σ 0 g).1.Pairwise (fun a b => b.PublishTime ≤ a.PublishTime)) ∧
    (GetGlobalCachedNews σ limit g).2 = g := by
  have hlen : (sortByPublishTime (σ.order g.globalNewsCache.values)).length =
      g.globalNewsCache.len := by
    rw [← GetGlobalCachedNews_zero, GetGlobalCachedNews_zero_length]
  refine ⟨?_, ?_, ⟨GetGlobalCachedNews_zero_perm σ g, ?_⟩, rfl⟩
  · intro h
    have hn : ¬ limit > 0 := not_lt.mpr h
    simp only [GetGlobalCachedNews, hn, false_and, if_false]
    exact (sortByPublishTime_perm _).trans (σ.perm _)
  · intro h
    rw [GetGlobalCachedNews_zero]
    have hpos : limit > 0 := h
    have hcast : ((limit.toNat : Nat) : Int) = limit := Int.toNat_of_nonneg (le_of_lt h)
    simp only [GetGlobalCachedNews, hpos, true_and]
    split
    · next hgt =>
      have hlt : limit.toNat < g.globalNewsCache.len := by
        rw [hlen] at hgt; omega
      have hmin : min limit.toNat g.globalNewsCache.len = limit.toNat :=
        Nat.min_eq_left (le_of_lt hlt)
      rw [hmin]
      refine ⟨?_, rfl⟩
      rw [List.length_take, hlen]
      exact Nat.min_eq_left (le_of_lt hlt)
    · next hgt =>
      have hle : g.globalNewsCache.len ≤ limit.toNat := by
        rw [hlen] at hgt; omega
      have hmin : min limit.toNat g.globalNewsCache.len = g.globalNewsCache.len :=
        Nat.min_eq_right hle
      rw [hmin]
      refine ⟨hlen, ?_⟩
      rw [List.take_of_length_le (le_of_eq hlen)]
  · rw [GetGlobalCachedNews_zero]
    exact sortByPublishTime_sorted _

/-- Witness for C7 on a store of three records: limit 0 returns all three, limit 2
returns the two latest, latest first. -/
theorem GetGlobalCachedNews_limit_witness :
    ((0 : Int) ≤ 0 ∧
      (GetGlobalCachedNews listOrder 0 sampleState).1.Perm
        sampleState.globalNewsCache.values) ∧
    ((0 : Int) < 2 ∧
      (GetGlobalCachedNews listOrder 2 sampleState).1.length =
        min (2 : Int).toNat sampleState.globalNewsCache.len ∧
      (GetGlobalCachedNews listOrder 2 sampleState).1 =
        (GetGlobalCachedNews listOrder 0 sampleState).1.take
          (min (2 : Int).toNat sampleState.globalNewsCache.len)) ∧
    (GetGlobalCachedNews listOrder 2 sampleState).1 = [mkNews "2" "B" 30, mkNews "3" "C" 20] :=
  ⟨⟨by decide, (GetGlobalCachedNews_limit listOrder 0 sampleState).1 (by decide)⟩,
   ⟨by decide, (GetGlobalCachedNews_limit listOrder 2 sampleState).2.1 (by decide)⟩,
   by decide⟩

/-- C8: when the store holds at most 100 records after the insertion (no eviction),
updateGlobalCache maps every non-empty ID of the batch to the last batch record
with that ID and leaves every ID that does not occur in the batch as it was; and
in the two-merge scenario GetGlobalCachedNews(0) returns record 2 and then the
updated record 1, whatever the range orders. -/
theorem updateGlobalCache_insert_or_replace :
    (∀ (σ : RangeOrder) (now : Int) (batch : List TelegraphNews) (g : GlobalState),
      (mergeNews g.globalNewsCache batch).len ≤ 100 →
      (∀ k : String, k ≠ "" → k ∈ batch.map TelegraphNews.ID →
        (∃ r, r ∈ batch ∧ r.ID = k ∧
          (updateGlobalCache σ now batch g).globalNewsCache.lookup k = some r) ∧
        (updateGlobalCache σ now batch g).globalNewsCache.lookup k =
          (batch.filter (fun r => decide (r.ID = k))).getLast?) ∧
      (∀ k : String, k ∉ batch.map TelegraphNews.ID →
        (updateGlobalCache σ now batch g).globalNewsCache.lookup k =
          g.globalNewsCache.lookup k)) ∧
    (∀ (σ₁ σ₂ σ₃ : RangeOrder) (now₁ now₂ T1 T2 : Int), T1 < T2 →
      (GetGlobalCachedNews σ₃ 0
        (updateGlobalCache σ₂ now₂ [mkNews "1" "A-updated" T1, mkNews "2" "B" T2]
          (updateGlobalCache σ₁ now₁ [mkNews "1" "A" T1] initialState))).1 =
        [mkNews "2" "B" T2, mkNews "1" "A-updated" T1]) := by
  constructor
  · intro σ now batch g hlen
    have hcache : (updateGlobalCache σ now batch g).globalNewsCache =
        mergeNews g.globalNewsCache batch := by
      simp only [updateGlobalCache]
      rw [if_neg (by omega)]
    rw [hcache]
    constructor
    · intro k hk hmem
      have hl := mergeNews_lookup_of_mem g.globalNewsCache batch k hk hmem
      refine ⟨?_, hl⟩
      rw [hl]
      unfold lastWithID
      cases hg : (batch.filter (fun r => decide (r.ID = k))).getLast? with
      | none =>
        have h0 := List.getLast?_eq_none_iff.mp hg
        rw [List.filter_eq_nil_iff] at h0
        obtain ⟨r, hr, hrk⟩ := List.mem_map.mp hmem
        exact absurd (by simpa using hrk) (h0 r hr)
      | some r =>
        have hr := List.mem_of_getLast?_eq_some hg
        rw [List.mem_filter] at hr
        exact ⟨r, hr.1, by simpa using hr.2, rfl⟩
    · intro k hk
      exact mergeNews_lookup_of_not_mem g.globalNewsCache batch k (Or.inr hk)
  · intro σ₁ σ₂ σ₃ now₁ now₂ T1 T2 hT
    have hvals : (updateGlobalCache σ₂ now₂ [mkNews "1" "A-updated" T1, mkNews "2" "B" T2]
        (updateGlobalCache σ₁ now₁ [mkNews "1" "A" T1] initialState)).globalNewsCache.values =
        [mkNews "1" "A-updated" T1, mkNews "2" "B" T2] := by
      simp [updateGlobalCache, mergeNews, NewsCache.insert, insertEntry, mkNews, NewsCache.len,
        initialState, NewsCache.empty, NewsCache.values]
    rw [GetGlobalCachedNews_zero, hvals, sortByPublishTime_eq]
    have hnot : ¬ T2 < T1 := not_lt.mpr (le_of_lt hT)
    rcases perm_pair _ _ _ (σ₃.perm [mkNews "1" "A-updated" T1, mkNews "2" "B" T2]) with h | h
    · rw [h]
      simp [sortPasses, passMax, mkNews, hT]
    · rw [h]
      simp [sortPasses, passMax, mkNews, hnot]

/-- Witness for C8: the first merge of the scenario (one record into the empty
store, no eviction) and the scenario itself at T1 = 1, T2 = 2. -/
theorem updateGlobalCache_insert_or_replace_witness :
    ((mergeNews initialState.globalNewsCache [mkNews "1" "A" 1]).len ≤ 100 ∧
      (updateGlobalCache listOrder 5 [mkNews "1" "A" 1] initialState).globalNewsCache.lookup "2" =
        initialState.globalNewsCache.lookup "2") ∧
    ((1 : Int) < 2 ∧
      (GetGlobalCachedNews listOrder 0
        (updateGlobalCache listOrder 6 [mkNews "1" "A-updated" 1, mkNews "2" "B" 2]
          (updateGlobalCache listOrder 5 [mkNews "1" "A" 1] initialState))).1 =
        [mkNews "2" "B" 2, mkNews "1" "A-updated" 1]) :=
  ⟨⟨by decide,
    ((updateGlobalCache_insert_or_replace.1 listOrder 5 [mkNews "1" "A" 1] initialState
      (by decide)).2 "2" (by decide))⟩,
   ⟨by decide, updateGlobalCache_insert_or_replace.2 listOrder listOrder listOrder 5 6 1 2
      (by decide)⟩⟩

/-- C9 as stated fails when the merge evicts and publish times tie: with 101 records
of one common publish time, a first call keeps the record with ID 0 and a second
call with the same batch, ranging over the map in another order, drops it. -/
theorem updateGlobalCache_twice_counterexample :
    (updateGlobalCache listOrder 1 sameTimeBatch initialState).globalNewsCache.lookup "0" =
      some (mkNews "0" "A" 5) ∧
    (updateGlobalCache reverseOrder 2 sameTimeBatch
      (updateGlobalCache listOrder 1 sameTimeBatch initialState)).globalNewsCache.lookup "0" =
      none := by
  have h1 := sameTimeBatch_first_call 1
  constructor
  · rw [h1]
    exact sameTimeBatch_kept_in_list_order
  · have hvals : (mergeNews
        (updateGlobalCache listOrder 1 sameTimeBatch initialState).globalNewsCache
        sameTimeBatch).values = sameTimeBatch := by
      rw [h1]
      exact mergeNews_keepLatest_values _ sameTimeBatch_ids_ne sameTimeBatch_ids_nodup
    rw [updateGlobalCache_cache_of_same_time reverseOrder 2 sameTimeBatch _ 5 hvals
      sameTimeBatch_length sameTimeBatch_time]
    exact sameTimeBatch_dropped_in_reverse_order

/-- C9 (amended): on a store keyed by record ID, calling updateGlobalCache twice in a
row with the same batch leaves the same ID-to-record mapping as calling it once,
whenever the first call evicts nothing, or it evicts and no two records held
after its insertion have the same publish time. -/
theorem updateGlobalCache_idempotent (σ₁ σ₂ : RangeOrder) (now₁ now₂ : Int)
    (batch : List TelegraphNews) (g : GlobalState)
    (h : (mergeNews g.globalNewsCache batch).len ≤ 100 ∨
      (KeyedByID g.globalNewsCache ∧
        ((mergeNews g.globalNewsCache batch).values.map TelegraphNews.PublishTime).Nodup)) :
    ∀ k : String,
      (updateGlobalCache σ₂ now₂ batch
          (updateGlobalCache σ₁ now₁ batch g)).globalNewsCache.lookup k =
        (updateGlobalCache σ₁ now₁ batch g).globalNewsCache.lookup k := by
  intro k
  by_cases hlen : (mergeNews g.globalNewsCache batch).len ≤ 100
  · exact updateGlobalCache_twice_no_eviction σ₁ σ₂ now₁ now₂ batch g hlen k
  · rcases h with h | h
    · exact absurd h hlen
    · exact updateGlobalCache_twice_no_ties σ₁ σ₂ now₁ now₂ batch g h.1 (by omega) h.2 k

/-- Witness for C9 (amended): 101 records with the publish times 0 to 100 merged twice
into the empty store; the first call evicts the record with ID 0. -/
theorem updateGlobalCache_idempotent_witness :
    (mergeNews initialState.globalNewsCache risingBatch).len = 101 ∧
    ((mergeNews initialState.globalNewsCache risingBatch).values.map
      TelegraphNews.PublishTime).Nodup ∧
    (updateGlobalCache reverseOrder 2 risingBatch
        (updateGlobalCache listOrder 1 risingBatch initialState)).globalNewsCache.lookup "0" =
      (updateGlobalCache listOrder 1 risingBatch initialState).globalNewsCache.lookup "0" :=
  have hvals : (mergeNews initialState.globalNewsCache risingBatch).values = risingBatch :=
    mergeNews_empty_values _ risingBatch_ids_ne risingBatch_ids_nodup
  have hlen : (mergeNews initialState.globalNewsCache risingBatch).len = 101 := by
    rw [← NewsCache.len_values, hvals]; decide!
  have htimes : ((mergeNews initialState.globalNewsCache risingBatch).values.map
      TelegraphNews.PublishTime).Nodup := by
    rw [hvals]; decide!
  ⟨hlen, htimes,
   updateGlobalCache_idempotent listOrder reverseOrder 1 2 risingBatch initialState
     (Or.inr ⟨KeyedByID.of_empty, htimes⟩) "0"⟩

/-- C21: for every schedule of two goroutines that run `updateGlobalCache` and one
that runs `GetGlobalCachedNews` on the store `g0`: the two merges are never both
between `Lock()` and `Unlock()`, and the read is not between `RLock()` and
`RUnlock()` while a merge is; whenever the mutex is not held for writing, the
store is the one left by the merges that have returned, run one after the other
on `g0`; once both merges have returned it is the result of the two merges in
one of the two orders; the slice that the read returns is the snapshot of `g0` or
of a store left by one merge or by both, one after the other; and every schedule
can be continued so that the three calls return. -/
theorem updateGlobalCache_concurrent_atomic (env : ConcEnv) (g0 : GlobalState)
    (schedule : List Goroutine) :
    ¬ (inCritical (runSchedule env schedule (concStart g0)).first = true ∧
        inCritical (runSchedule env schedule (concStart g0)).second = true) ∧
    (holdsRead (runSchedule env schedule (concStart g0)).reader = true →
      inCritical (runSchedule env schedule (concStart g0)).first = false ∧
      inCritical (runSchedule env schedule (concStart g0)).second = false) ∧
    ((runSchedule env schedule (concStart g0)).writer = false →
      SerialStore env g0
        (decide ((runSchedule env schedule (concStart g0)).first = MergePc.finished))
        (decide ((runSchedule env schedule (concStart g0)).second = MergePc.finished))
        (runSchedule env schedule (concStart g0)).g) ∧
    ((runSchedule env schedule (concStart g0)).first = MergePc.finished →
      (runSchedule env schedule (concStart g0)).second = MergePc.finished →
      (runSchedule env schedule (concStart g0)).g = runMerges g0 [env.first, env.second] ∨
      (runSchedule env schedule (concStart g0)).g = runMerges g0 [env.second, env.first]) ∧
    (∀ result, (runSchedule env schedule (concStart g0)).reader = ReadPc.finished result →
      ∃ G, G ∈ SerialStores env g0 ∧
        result = (GetGlobalCachedNews env.readOrder env.limit G).1) ∧
    (∃ more, AllReturned (runSchedule env (schedule ++ more) (concStart g0))) := by
  have hinv := runSchedule_inv env g0 schedule (concStart g0) (concStart_inv env g0)
  obtain ⟨more, hmore⟩ := exists_completion env g0 _ hinv
  refine ⟨?_, ?_, ?_, ?_, ?_, ⟨more, by rw [runSchedule_append]; exact hmore⟩⟩ <;>
    clear hmore <;>
    generalize runSchedule env schedule (concStart g0) = s at hinv ⊢ <;>
    obtain ⟨G, L1, L2, L3, L4, D0, D1, D2, D3, D4⟩ := hinv
  · exact L2
  · intro hh
    have hr : s.readers = 1 := by rw [L3, if_pos hh]
    have hw : s.writer = false := by
      cases hwr : s.writer with
      | false => rfl
      | true => have := L4 hwr; omega
    constructor
    · cases hc : inCritical s.first with
      | false => rfl
      | true => rw [L1.mpr (Or.inl hc)] at hw; exact absurd hw (by simp)
    · cases hc : inCritical s.second with
      | false => rfl
      | true => rw [L1.mpr (Or.inr hc)] at hw; exact absurd hw (by simp)
  · intro hw
    rw [D3 hw]
    exact D0
  · intro hf hs
    have hw : s.writer = false := by
      cases hwr : s.writer with
      | false => rfl
      | true =>
        rcases L1.mp hwr with h1 | h1
        · rw [hf] at h1; simp [inCritical] at h1
        · rw [hs] at h1; simp [inCritical] at h1
    rw [D3 hw]
    simpa [hf, hs, SerialStore] using D0
  · intro result hres
    rw [hres] at D4
    obtain ⟨a, b, G1, hG1, hget⟩ := D4
    exact ⟨G1, SerialStore_mem env g0 G1 a b hG1, hget⟩

/-- Witness for C21: two merges of one record each and a read.  After five steps of
the schedule the first merge is inside with its record written and the cache
time not yet stamped, and the second merge and the read, both scheduled in
between, still wait.  At the end the three calls have returned, the read has
returned the record of the first merge, and the store is the result of the first
merge followed by the second. -/
theorem updateGlobalCache_concurrent_atomic_witness :
    (runSchedule twoMergesEnv (mixedSchedule.take 5) (concStart initialState)).first
      = MergePc.merging [] ∧
    (runSchedule twoMergesEnv (mixedSchedule.take 5) (concStart initialState)).second
      = MergePc.waiting ∧
    (runSchedule twoMergesEnv (mixedSchedule.take 5) (concStart initialState)).reader
      = ReadPc.waiting ∧
    (runSchedule twoMergesEnv (mixedSchedule.take 5)
      (concStart initialState)).g.globalNewsCache.values = [mkNews "1" "A" 10] ∧
    (runSchedule twoMergesEnv (mixedSchedule.take 5)
      (concStart initialState)).g.globalNewsCacheTime = 0 ∧
    (runSchedule twoMergesEnv mixedSchedule (concStart initialState)).first
      = MergePc.finished ∧
    (runSchedule twoMergesEnv mixedSchedule (concStart initialState)).second
      = MergePc.finished ∧
    (runSchedule twoMergesEnv mixedSchedule (concStart initialState)).reader
      = ReadPc.finished [mkNews "1" "A" 10] ∧
    (runSchedule twoMergesEnv mixedSchedule (concStart initialState)).g.globalNewsCache.values
      = [mkNews "1" "A" 10, mkNews "2" "B" 30] ∧
    (runSchedule twoMergesEnv mixedSchedule (concStart initialState)).g.globalNewsCacheTime
      = 2 ∧
    ((runSchedule twoMergesEnv mixedSchedule (concStart initialState)).g =
        runMerges initialState [twoMergesEnv.first, twoMergesEnv.second] ∨
      (runSchedule twoMergesEnv mixedSchedule (concStart initialState)).g =
        runMerges initialState [twoMergesEnv.second, twoMergesEnv.first]) :=
  ⟨by decide, by decide, by decide, by decide, by decide, by decide, by decide, by decide,
   by decide, by decide,
   (updateGlobalCache_concurrent_atomic twoMergesEnv initialState mixedSchedule).2.2.2.1
     (by decide) (by decide)⟩

/-! ## Theorems about the ingest pipeline -/

/-- C10 as stated fails: a batch of one record with an empty ID, ingested into the
empty store, leaves the store empty and returns the empty list. -/
theorem FetchLatestNews_ingest_empty_id_counterexample :
    anonymousNews.ID = "" ∧
    deduplicateNews [anonymousNews] = [anonymousNews] ∧
    (FetchLatestNews_ingest listOrder listOrder (fun _ => 9) 9 0
      [anonymousNews] initialState).1 = [] ∧
    (FetchLatestNews_ingest listOrder listOrder (fun _ => 9) 9 0
      [anonymousNews] initialState).2.globalNewsCache.values = [] := by
  decide

/-- C10 (amended): deduplicateNews keeps every empty-ID record of the batch, but
updateGlobalCache stores only records with a non-empty ID: after the ingest
pipeline on a store that holds no empty-ID record, no record with an empty ID is
in the store or in the returned list. -/
theorem FetchLatestNews_ingest_skips_empty_ids (σm σr : RangeOrder) (nowAt : Nat → Int)
    (now limit : Int) (extracted : List TelegraphNews) (g : GlobalState)
    (hg : ∀ v ∈ g.globalNewsCache.values, v.ID ≠ "") :
    (deduplicateNews extracted).filter (fun r => decide (r.ID = "")) =
      extracted.filter (fun r => decide (r.ID = "")) ∧
    (∀ r ∈ (FetchLatestNews_ingest σm σr nowAt now limit extracted g).2.globalNewsCache.values,
      r.ID ≠ "") ∧
    (∀ r ∈ (FetchLatestNews_ingest σm σr nowAt now limit extracted g).1, r.ID ≠ "") := by
  have hstore : ∀ r ∈
      (FetchLatestNews_ingest σm σr nowAt now limit extracted g).2.globalNewsCache.values,
      r.ID ≠ "" := by
    intro r hr
    simp only [FetchLatestNews_ingest, getLatestNewsFromCache, GetGlobalCachedNews] at hr
    rcases updateGlobalCache_mem_values _ _ _ _ r hr with h | h
    · exact hg r h
    · exact h.2
  refine ⟨?_, hstore, ?_⟩
  · rw [deduplicateNews_eq]
    exact keptFrom_filter_empty [] extracted
  · intro r hr
    have hmem := GetGlobalCachedNews_mem _ _ _ r hr
    exact hstore r hmem

/-- Witness for C10 (amended): an empty-ID record and a record with ID 7 ingested
into the empty store. -/
theorem FetchLatestNews_ingest_skips_empty_ids_witness :
    (∀ v ∈ initialState.globalNewsCache.values, v.ID ≠ "") ∧
    (FetchLatestNews_ingest listOrder listOrder (fun _ => 9) 9 0
      [anonymousNews, mkNews "7" "G" 3] initialState).1 =
        [{ mkNews "7" "G" 3 with Source := "财联社" }] ∧
    (∀ r ∈ (FetchLatestNews_ingest listOrder listOrder (fun _ => 9) 9 0
      [anonymousNews, mkNews "7" "G" 3] initialState).1, r.ID ≠ "") :=
  ⟨by decide, by decide,
   (FetchLatestNews_ingest_skips_empty_ids listOrder listOrder (fun _ => 9) 9 0
      [anonymousNews, mkNews "7" "G" 3] initialState (by decide)).2.2⟩

/-! ## Theorems about the scheduler -/

/-- C11: findNewNews(C, P) is the sub-list of C, in the order of C, of the records
whose ID is not the ID of a record of P; it is empty exactly when every ID of C
occurs in P, and it is C when P is empty. -/
theorem findNewNews_delta (C P : List NewsWithAnalysis) :
    findNewNews C P =
      C.filter (fun news => decide (news.News.ID ∉ P.map (fun o => o.News.ID))) ∧
    (findNewNews C P = [] ↔ ∀ c ∈ C, c.News.ID ∈ P.map (fun o => o.News.ID)) ∧
    findNewNews C [] = C := by
  refine ⟨findNewNews_eq_filter C P, ?_, ?_⟩
  · rw [findNewNews_eq_filter, List.filter_eq_nil_iff]
    constructor
    · intro h c hc
      by_contra hn
      exact h c hc (by simpa using hn)
    · intro h c hc
      simpa using h c hc
  · rw [findNewNews_eq_filter]
    simp

/-- C12: a cycle whose extraction succeeds with a non-empty list L returns no error,
leaves the scheduler cache holding exactly L, each record wrapped with no
analysis and in the same order, stamped with the time of the cycle, and calls
the registered callback exactly once, with findNewNews(L, previous cache), when
that delta is non-empty; it calls nothing when the delta is empty or no callback
is registered.  With an empty previous cache the callback gets all of L. -/
theorem fetchAndAnalyze_publishes (env : FetchEnv) (setNow : Int) (w : World)
    (L : List TelegraphNews)
    (herr : (FetchLatestNews env 20 false w.global w.scheduler.newsAction).err = none)
    (hL : (FetchLatestNews env 20 false w.global w.scheduler.newsAction).news = L)
    (hne : L ≠ []) :
    (fetchAndAnalyze env setNow w).err = none ∧
    (fetchAndAnalyze env setNow w).world.scheduler.cache.news =
      L.map (fun news => ⟨news, none⟩) ∧
    (fetchAndAnalyze env setNow w).world.scheduler.cache.lastUpdate = setNow ∧
    (fetchAndAnalyze env setNow w).events =
      Event.fetch 20 false ::
        (match w.scheduler.onNewNews with
          | none => []
          | some f =>
            if findNewNews (L.map (fun news => ⟨news, none⟩)) w.scheduler.cache.news = []
            then []
            else [Event.callback f
              (findNewNews (L.map (fun news => ⟨news, none⟩)) w.scheduler.cache.news)]) ∧
    (w.scheduler.cache.news = [] → ∀ f : Callback, w.scheduler.onNewNews = some f →
      (fetchAndAnalyze env setNow w).events =
        [Event.fetch 20 false, Event.callback f (L.map (fun news => ⟨news, none⟩))]) := by
  have h := fetchAndAnalyze_of_success env setNow w L herr hL hne
  refine ⟨?_, ?_, ?_, h.2, ?_⟩
  · rw [fetchAndAnalyze_err, herr]
  · rw [h.1]
  · rw [h.1]
  · intro hold f hf
    rw [h.2, hf, hold]
    have hall : findNewNews (L.map (fun news => (⟨news, none⟩ : NewsWithAnalysis))) [] =
        L.map (fun news => ⟨news, none⟩) := by
      simp [findNewNews]
    have hnil : L.map (fun news => (⟨news, none⟩ : NewsWithAnalysis)) ≠ [] := by
      simpa using hne
    simp only [hall]
    rw [if_neg hnil]

/-- Witness for C12: a new scheduler with a callback and an empty cache, and a page
with three bulletins; the callback is called once with the three records,
latest first. -/
theorem fetchAndAnalyze_publishes_witness :
    (FetchLatestNews threeItemsEnv 20 false callbackWorld.global
      callbackWorld.scheduler.newsAction).news =
      [mkRecord "b" "second bulletin" 30, mkRecord "c" "third bulletin" 20,
       mkRecord "a" "first bulletin" 10] ∧
    (fetchAndAnalyze threeItemsEnv 5 callbackWorld).events =
      [Event.fetch 20 false,
       Event.callback ⟨1⟩
         [⟨mkRecord "b" "second bulletin" 30, none⟩, ⟨mkRecord "c" "third bulletin" 20, none⟩,
          ⟨mkRecord "a" "first bulletin" 10, none⟩]] :=
  ⟨by decide,
   (fetchAndAnalyze_publishes threeItemsEnv 5 callbackWorld
      [mkRecord "b" "second bulletin" 30, mkRecord "c" "third bulletin" 20,
       mkRecord "a" "first bulletin" 10] (by decide) (by decide) (by decide)).2.2.2.2
      rfl ⟨1⟩ rfl⟩

/-- C13: a cycle whose extraction returns an error or an empty list is skipped: the
scheduler cache, records and last-update time, is what it was before the cycle,
and the callback is not called. -/
theorem fetchAndAnalyze_skips (env : FetchEnv) (setNow : Int) (w : World)
    (h : (FetchLatestNews env 20 false w.global w.scheduler.newsAction).err ≠ none ∨
      (FetchLatestNews env 20 false w.global w.scheduler.newsAction).news = []) :
    (fetchAndAnalyze env setNow w).world.scheduler.cache = w.scheduler.cache ∧
    (fetchAndAnalyze env setNow w).events = [Event.fetch 20 false] ∧
    (∀ (f : Callback) (items : List NewsWithAnalysis),
      Event.callback f items ∉ (fetchAndAnalyze env setNow w).events) := by
  have h2 := fetchAndAnalyze_of_failure env setNow w h
  refine ⟨h2.1, h2.2, ?_⟩
  intro f items hmem
  rw [h2.2] at hmem
  simp at hmem

/-- Witness for C13: a cycle on a page where the script finds nothing. -/
theorem fetchAndAnalyze_skips_witness :
    (FetchLatestNews emptyPageEnv 20 false callbackWorld.global
      callbackWorld.scheduler.newsAction).err ≠ none ∧
    (fetchAndAnalyze emptyPageEnv 5 callbackWorld).world.scheduler.cache =
      callbackWorld.scheduler.cache :=
  ⟨by decide, (fetchAndAnalyze_skips emptyPageEnv 5 callbackWorld (Or.inl (by decide))).1⟩

/-- C14 fails when the browser driver fails inside the cycle.  ForceUpdate returns
the error that FetchLatestNews returns and panics when FetchLatestNews panics;
Start returns no error and sets the running flag, and when its cycle panics it
panics too, after the flag was set and before the background loop is spawned.
On a page whose load wait fails (`page.MustWaitLoad()`, line 50) the extraction
fails and returns nothing: ForceUpdate returns no error but panics, and Start
panics and leaves a scheduler that reports running without a background loop. -/
theorem ForceUpdate_Start_driver_panic (env : FetchEnv) (setNow : Int) (w : World) :
    (ForceUpdate env setNow w).err =
      (FetchLatestNews env 20 false w.global w.scheduler.newsAction).err ∧
    (ForceUpdate env setNow w).panicked =
      (FetchLatestNews env 20 false w.global w.scheduler.newsAction).panicked ∧
    (Start env setNow w).err = none ∧
    (Start env setNow w).world.scheduler.running = true ∧
    (w.scheduler.running = false →
      (Start env setNow w).panicked =
        (FetchLatestNews env 20 false w.global w.scheduler.newsAction).panicked ∧
      (Event.spawnRun ∈ (Start env setNow w).events ↔
        (FetchLatestNews env 20 false w.global w.scheduler.newsAction).panicked = none)) ∧
    (FetchLatestNews loadFailureEnv 20 false freshWorld.global
      freshWorld.scheduler.newsAction).panicked = some "context deadline exceeded" ∧
    (FetchLatestNews loadFailureEnv 20 false freshWorld.global
      freshWorld.scheduler.newsAction).news = [] ∧
    (ForceUpdate loadFailureEnv 5 freshWorld).err = none ∧
    (ForceUpdate loadFailureEnv 5 freshWorld).panicked = some "context deadline exceeded" ∧
    (Start loadFailureEnv 5 freshWorld).panicked = some "context deadline exceeded" ∧
    IsRunning (Start loadFailureEnv 5 freshWorld).world.scheduler = true ∧
    Event.spawnRun ∉ (Start loadFailureEnv 5 freshWorld).events := by
  refine ⟨fetchAndAnalyze_err env setNow w, fetchAndAnalyze_panicked env setNow w,
    Start_err env setNow w, Start_running env setNow w,
    fun h => Start_of_stopped env setNow w h, ?_, ?_, ?_, ?_, ?_, ?_, ?_⟩ <;> decide

/-- Witness for C14: a new scheduler on a page with three bulletins returns from Start
with the background loop spawned, and ForceUpdate on a page without data returns
the error of the extraction. -/
theorem ForceUpdate_Start_driver_panic_witness :
    (Start threeItemsEnv 5 freshWorld).panicked = none ∧
    Event.spawnRun ∈ (Start threeItemsEnv 5 freshWorld).events ∧
    (ForceUpdate emptyPageEnv 5 freshWorld).err = some "页面未返回新闻数据，请检查页面结构" :=
  ⟨((ForceUpdate_Start_driver_panic threeItemsEnv 5 freshWorld).2.2.2.2.1 rfl).1.trans
      (by decide),
   ((ForceUpdate_Start_driver_panic threeItemsEnv 5 freshWorld).2.2.2.2.1 rfl).2.mpr
      (by decide),
   (ForceUpdate_Start_driver_panic emptyPageEnv 5 freshWorld).1.trans (by decide)⟩

/-- C15: Stop followed by Stop gives the state of a single Stop, which is stopped; the
second call changes nothing and does not panic. -/
theorem Stop_idempotent (s : NewsScheduler) :
    Stop (Stop s).1 = ((Stop s).1, false) ∧
    (Stop s).1.running = false ∧
    IsRunning (Stop s).1 = false := by
  have hrun : (Stop s).1.running = false := by
    simp only [Stop]
    split
    · next h => simpa using h
    · split <;> rfl
  refine ⟨?_, hrun, hrun⟩
  generalize (Stop s).1 = s1 at hrun
  simp [Stop, hrun]

/-- C16: Start on a scheduler that is already running returns no error, runs no fetch
cycle and spawns no background loop (no event at all), and leaves the whole
state, with the running flag, the cache and the callback, as it was. -/
theorem Start_when_running (env : FetchEnv) (setNow : Int) (w : World)
    (h : w.scheduler.running = true) :
    (Start env setNow w).err = none ∧
    (Start env setNow w).events = [] ∧
    (Start env setNow w).world = w ∧
    (Start env setNow w).world.scheduler.running = true ∧
    (Start env setNow w).world.scheduler.cache = w.scheduler.cache ∧
    (Start env setNow w).world.scheduler.onNewNews = w.scheduler.onNewNews := by
  have hs : Start env setNow w = ⟨none, w, [], none⟩ := by
    simp only [Start]
    rw [if_pos h]
  rw [hs]
  exact ⟨rfl, rfl, rfl, h, rfl, rfl⟩

/-- Witness for C16: Start on a running scheduler, on a page with three bulletins. -/
theorem Start_when_running_witness :
    runningWorld.scheduler.running = true ∧
    (Start threeItemsEnv 5 runningWorld).events = [] ∧
    (Start threeItemsEnv 5 callbackWorld).events ≠ [] :=
  ⟨rfl, (Start_when_running threeItemsEnv 5 runningWorld rfl).2.1, by decide⟩

/-- C23 fails on the sequence Start, Stop, Start, Stop: on a newly created scheduler,
whatever the pages answer, the first three calls do not panic and leave a scheduler
that reports running although its stop channel is closed, so that the `select` of
the loop spawned by the second Start can proceed with the stop case at once, and
is the only case that can proceed before the first tick; the second Stop then
executes `close(s.stopChan)` a second time and panics. -/
theorem Start_Stop_Start_Stop_panics (interval : Int) (g : GlobalState)
    (env1 env2 : FetchEnv) (now1 now2 : Int) :
    (runCalls [SchedulerCall.start env1 now1, SchedulerCall.stop,
        SchedulerCall.start env2 now2] ⟨g, NewNewsScheduler interval⟩).panicked = false ∧
    (runCalls [SchedulerCall.start env1 now1, SchedulerCall.stop,
        SchedulerCall.start env2 now2] ⟨g, NewNewsScheduler interval⟩).closes = 1 ∧
    IsRunning (runCalls [SchedulerCall.start env1 now1, SchedulerCall.stop,
        SchedulerCall.start env2 now2] ⟨g, NewNewsScheduler interval⟩).world.scheduler
      = true ∧
    (runCalls [SchedulerCall.start env1 now1, SchedulerCall.stop,
        SchedulerCall.start env2 now2] ⟨g, NewNewsScheduler interval⟩).world.scheduler.stopChan
      = StopChan.closed ∧
    (∀ tickPending, SelectCase.stop ∈ readyCases tickPending
      (runCalls [SchedulerCall.start env1 now1, SchedulerCall.stop,
        SchedulerCall.start env2 now2] ⟨g, NewNewsScheduler interval⟩).world.scheduler
      false) ∧
    readyCases false
      (runCalls [SchedulerCall.start env1 now1, SchedulerCall.stop,
        SchedulerCall.start env2 now2] ⟨g, NewNewsScheduler interval⟩).world.scheduler
      false = [SelectCase.stop] ∧
    (runCalls [SchedulerCall.start env1 now1, SchedulerCall.stop,
        SchedulerCall.start env2 now2, SchedulerCall.stop]
      ⟨g, NewNewsScheduler interval⟩).panicked = true ∧
    (runCalls [SchedulerCall.start env1 now1, SchedulerCall.stop,
        SchedulerCall.start env2 now2, SchedulerCall.stop]
      ⟨g, NewNewsScheduler interval⟩).closes = 2 := by
  have hr1 := Start_running env1 now1 ⟨g, NewNewsScheduler interval⟩
  have hc1 : (Start env1 now1 ⟨g, NewNewsScheduler interval⟩).world.scheduler.stopChan
      = StopChan.opened := by
    rw [Start_stopChan]; rfl
  have hr2 := Start_running env2 now2
    { (Start env1 now1 ⟨g, NewNewsScheduler interval⟩).world with scheduler :=
        { (Start env1 now1 ⟨g, NewNewsScheduler interval⟩).world.scheduler with
          running := false, stopChan := StopChan.closed } }
  have hc2 : (Start env2 now2
      { (Start env1 now1 ⟨g, NewNewsScheduler interval⟩).world with scheduler :=
        { (Start env1 now1 ⟨g, NewNewsScheduler interval⟩).world.scheduler with
          running := false, stopChan := StopChan.closed } }
      ).world.scheduler.stopChan = StopChan.closed := by
    rw [Start_stopChan]
  have h3 : runCalls [SchedulerCall.start env1 now1, SchedulerCall.stop,
        SchedulerCall.start env2 now2] ⟨g, NewNewsScheduler interval⟩ =
      ⟨(Start env2 now2
        { (Start env1 now1 ⟨g, NewNewsScheduler interval⟩).world with scheduler :=
          { (Start env1 now1 ⟨g, NewNewsScheduler interval⟩).world.scheduler with
            running := false, stopChan := StopChan.closed } }).world,
        1, false⟩ := by
    rw [runCalls_start, runCalls_stop_opened _ _ hr1 hc1, runCalls_start]
    rfl
  have h4 : runCalls [SchedulerCall.start env1 now1, SchedulerCall.stop,
        SchedulerCall.start env2 now2, SchedulerCall.stop] ⟨g, NewNewsScheduler interval⟩ =
      ⟨{ (Start env2 now2
        { (Start env1 now1 ⟨g, NewNewsScheduler interval⟩).world with scheduler :=
          { (Start env1 now1 ⟨g, NewNewsScheduler interval⟩).world.scheduler with
            running := false, stopChan := StopChan.closed } }).world with
          scheduler := { (Start env2 now2
        { (Start env1 now1 ⟨g, NewNewsScheduler interval⟩).world with scheduler :=
          { (Start env1 now1 ⟨g, NewNewsScheduler interval⟩).world.scheduler with
            running := false, stopChan := StopChan.closed } }).world.scheduler with
            running := false } },
        2, true⟩ := by
    rw [runCalls_start, runCalls_stop_opened _ _ hr1 hc1, runCalls_start,
      runCalls_stop_closed _ _ hr2 hc2]
    rfl
  rw [h3, h4]
  refine ⟨rfl, rfl, hr2, hc2, ?_, ?_, rfl, rfl⟩
  · intro tickPending
    simp [readyCases, hc2]
  · simp [readyCases, hc2]

/-! ## Theorems about `FetchLatestNews` -/

theorem mergeNews_of_all_empty (c : NewsCache) (l : List TelegraphNews)
    (h : ∀ r ∈ l, r.ID = "") : mergeNews c l = c := by
  induction l generalizing c with
  | nil => rfl
  | cons r rest ih =>
    have hr : r.ID = "" := h r (List.mem_cons_self r rest)
    simp only [mergeNews, hr, ne_eq, not_true_eq_false, if_false]
    exact ih c (fun x hx => h x (List.mem_cons_of_mem r hx))

theorem fillDefaults_ID (nowAt : Nat → Int) (i : Nat) (r : TelegraphNews) :
    (fillDefaults nowAt i r).ID = r.ID := by
  simp only [fillDefaults]
  split <;> split <;> rfl

theorem ingest_batch_ids (nowAt : Nat → Int) (L : List TelegraphNews)
    (h : ∀ r ∈ L, r.ID = "") :
    ∀ r ∈ (deduplicateNews L).enum.map (fun p => fillDefaults nowAt p.1 p.2), r.ID = "" := by
  intro r hr
  obtain ⟨p, hp, rfl⟩ := List.mem_map.mp hr
  rw [fillDefaults_ID]
  have hmem : p.2 ∈ deduplicateNews L := by
    obtain ⟨hlt, hx⟩ := List.mem_enum (show (p.1, p.2) ∈ (deduplicateNews L).enum from hp)
    rw [hx]
    exact List.getElem_mem hlt
  rw [deduplicateNews_eq] at hmem
  exact h p.2 ((keptFrom_sublist [] L).subset hmem)

theorem GetGlobalCachedNews_congr (σ : RangeOrder) (limit : Int) (g1 g2 : GlobalState)
    (h : g1.globalNewsCache = g2.globalNewsCache) :
    (GetGlobalCachedNews σ limit g1).1 = (GetGlobalCachedNews σ limit g2).1 := by
  simp only [GetGlobalCachedNews, h]

theorem FetchLatestNews_ingest_eq (σm σr : RangeOrder) (nowAt : Nat → Int) (now : Int)
    (limit : Int) (L : List TelegraphNews) (g : GlobalState) :
    (FetchLatestNews_ingest σm σr nowAt now limit L g).2 =
      updateGlobalCache σm now
        ((deduplicateNews L).enum.map (fun p => fillDefaults nowAt p.1 p.2)) g ∧
    (FetchLatestNews_ingest σm σr nowAt now limit L g).1 =
      (GetGlobalCachedNews σr limit (FetchLatestNews_ingest σm σr nowAt now limit L g).2).1 := by
  simp [FetchLatestNews_ingest, getLatestNewsFromCache, GetGlobalCachedNews]

theorem detailStep_same_record (env : FetchEnv) (st : DetailState) (i : Nat)
    (news : TelegraphNews) (h : (detailStep env st i news).panicked = none) :
    ∃ o, (detailStep env st i news).done = st.done ++ [o] ∧
      o = { news with Content := o.Content } := by
  rcases detailStep_cases env st i news with h1 | ⟨c1, _, h1⟩ | ⟨p, _, h1⟩ | ⟨_, h1⟩ |
    ⟨c1, hc, h1⟩
  · rw [h1]; exact ⟨news, rfl, rfl⟩
  · rw [h1]; exact ⟨_, rfl, rfl⟩
  · rw [h1] at h; exact absurd h (by simp)
  · rw [h1]; exact ⟨news, rfl, rfl⟩
  · rw [h1]; exact ⟨_, rfl, rfl⟩

theorem detailLoop_same_records (env : FetchEnv) (l : List TelegraphNews) (i : Nat)
    (st : DetailState) (h : (detailLoop env i l st).panicked = none) :
    ∃ out, (detailLoop env i l st).done = st.done ++ out ∧
      List.Forall₂ (fun r o => o = { r with Content := o.Content }) l out := by
  induction l generalizing i st with
  | nil => exact ⟨[], by simp [detailLoop], List.Forall₂.nil⟩
  | cons news rest ih =>
    cases hs : (detailStep env st i news).panicked with
    | some p =>
      rw [detailLoop_cons_of_panicked env i news rest st p hs, hs] at h
      exact absurd h (by simp)
    | none =>
      rw [detailLoop_cons_of_not_panicked env i news rest st hs] at h ⊢
      obtain ⟨o, ho, hrel⟩ := detailStep_same_record env st i news hs
      obtain ⟨out, hout, hrels⟩ := ih (i + 1) (detailStep env st i news) h
      exact ⟨o :: out, by rw [hout, ho]; simp, List.Forall₂.cons hrel hrels⟩

/-- Counterexample to C17: the extraction gives one bulletin, which has no ID, so that
no item of it can be stored.  On a store of three records the call succeeds and
returns the three old records; on an empty store it succeeds and returns no
record. -/
theorem FetchLatestNews_no_usable_items_counterexample :
    (unmarshalNews noIdEnv.items).1.map (fun r => r.ID) = [""] ∧
    (FetchLatestNews noIdEnv 20 false sampleState NewNewsAction).err = none ∧
    (FetchLatestNews noIdEnv 20 false sampleState NewNewsAction).panicked = none ∧
    (FetchLatestNews noIdEnv 20 false sampleState NewNewsAction).news =
      [mkNews "2" "B" 30, mkNews "3" "C" 20, mkNews "1" "A" 10] ∧
    (FetchLatestNews noIdEnv 20 false initialState NewNewsAction).err = none ∧
    (FetchLatestNews noIdEnv 20 false initialState NewNewsAction).panicked = none ∧
    (FetchLatestNews noIdEnv 20 false initialState NewNewsAction).news = [] := by
  decide

/-- C17, amended: when the page loads and the extraction script returns the empty
string or the text of the empty array, FetchLatestNews returns the no-data error
and no record, and leaves the global store and the action as they were (when
the HTML of the page cannot be read for the log, `page.MustHTML()` panics
instead); every call that returns an error returns no record and leaves them as
they were; and a call that returns without error had a script result other than
these two texts, which decoded to a list that was merged into the store, and
returns the records of the snapshot of the store after the merge, in the same
order, with at most the content changed (the snapshot itself in fast mode).
Items without an ID are not merged: when no decoded item has an ID, the store
(of at most 100 records) keeps its records and the call still succeeds, with the
snapshot of the records stored before. -/
theorem FetchLatestNews_fails_without_data (env : FetchEnv) (limit : Int)
    (fetchDetail : Bool) (g : GlobalState) (n : NewsAction) :
    (env.navigateErr = none → loadPanic env = none → env.htmlErr = none →
      (env.result = "" ∨ env.result = "[]") →
      FetchLatestNews env limit fetchDetail g n =
        ⟨[], some "页面未返回新闻数据，请检查页面结构", g, n, [], none⟩) ∧
    (∀ p, env.navigateErr = none → loadPanic env = none → env.htmlErr = some p →
      (env.result = "" ∨ env.result = "[]") →
      FetchLatestNews env limit fetchDetail g n = ⟨[], none, g, n, [], some p⟩) ∧
    ((FetchLatestNews env limit fetchDetail g n).err ≠ none →
      (FetchLatestNews env limit fetchDetail g n).panicked = none ∧
      (FetchLatestNews env limit fetchDetail g n).news = [] ∧
      (FetchLatestNews env limit fetchDetail g n).global = g ∧
      (FetchLatestNews env limit fetchDetail g n).action = n) ∧
    ((FetchLatestNews env limit fetchDetail g n).err = none →
      (FetchLatestNews env limit fetchDetail g n).panicked = none →
      env.result ≠ "" ∧ env.result ≠ "[]" ∧
      ∃ newsList, unmarshalNews env.items = (newsList, none) ∧
        (FetchLatestNews env limit fetchDetail g n).global =
          updateGlobalCache env.mergeOrder env.mergeNow
            ((deduplicateNews newsList).enum.map (fun p => fillDefaults env.nowAt p.1 p.2))
            g ∧
        List.Forall₂ (fun r o => o = { r with Content := o.Content })
          (GetGlobalCachedNews env.readOrder limit
            (FetchLatestNews env limit fetchDetail g n).global).1
          (FetchLatestNews env limit fetchDetail g n).news ∧
        (fetchDetail = false →
          (FetchLatestNews env limit fetchDetail g n).news =
            (GetGlobalCachedNews env.readOrder limit
              (FetchLatestNews env limit fetchDetail g n).global).1) ∧
        ((∀ r ∈ newsList, r.ID = "") → g.globalNewsCache.len ≤ 100 →
          (FetchLatestNews env limit fetchDetail g n).global.globalNewsCache =
            g.globalNewsCache ∧
          List.Forall₂ (fun r o => o = { r with Content := o.Content })
            (GetGlobalCachedNews env.readOrder limit g).1
            (FetchLatestNews env limit fetchDetail g n).news ∧
          (fetchDetail = false →
            (FetchLatestNews env limit fetchDetail g n).news =
              (GetGlobalCachedNews env.readOrder limit g).1))) := by
  refine ⟨?_, ?_, ?_, ?_⟩
  · intro hnav hl hh hr
    exact FetchLatestNews_of_no_data env limit fetchDetail g n hnav hl hr hh
  · intro p hnav hl hh hr
    exact FetchLatestNews_of_htmlErr env limit fetchDetail g n p hnav hl hr hh
  · intro herr
    rcases FetchLatestNews_outcome env limit fetchDetail g n with h1 | h1 | h1
    · exact ⟨h1.2.1, h1.2.2.1, h1.2.2.2.1, h1.2.2.2.2.1⟩
    · exact absurd h1.2.1 herr
    · exact absurd h1.1 herr
  · intro hok hpan
    rcases FetchLatestNews_outcome env limit fetchDetail g n with h1 | h1 | h1
    · exact absurd hok h1.1
    · exact absurd hpan h1.1
    · obtain ⟨-, hnav, hl, hr1, hr2, hs, L, hu, -⟩ := h1
      have hr : ¬ (env.result = "" ∨ env.result = "[]") := by
        rintro (h | h)
        · exact hr1 h
        · exact hr2 h
      obtain ⟨hi2, hi1⟩ := FetchLatestNews_ingest_eq env.mergeOrder env.readOrder env.nowAt
        env.mergeNow limit L g
      have hglobal : (FetchLatestNews env limit fetchDetail g n).global =
          (FetchLatestNews_ingest env.mergeOrder env.readOrder env.nowAt env.mergeNow
            limit L g).2 := by
        cases fetchDetail with
        | false => rw [FetchLatestNews_of_ok_fast env limit g n L hnav hl hr hs hu]
        | true => rw [FetchLatestNews_of_ok_detail env limit g n L hnav hl hr hs hu]
      have hfast : fetchDetail = false →
          (FetchLatestNews env limit fetchDetail g n).news =
            (FetchLatestNews_ingest env.mergeOrder env.readOrder env.nowAt env.mergeNow
              limit L g).1 := by
        intro hf
        subst hf
        rw [FetchLatestNews_of_ok_fast env limit g n L hnav hl hr hs hu]
      have hsame : List.Forall₂ (fun r o => o = { r with Content := o.Content })
          (FetchLatestNews_ingest env.mergeOrder env.readOrder env.nowAt env.mergeNow
            limit L g).1
          (FetchLatestNews env limit fetchDetail g n).news := by
        cases hfd : fetchDetail with
        | false =>
          rw [← hfd, hfast hfd]
          exact List.forall₂_same.mpr (fun _ _ => rfl)
        | true =>
          rw [hfd] at hpan
          rw [FetchLatestNews_of_ok_detail env limit g n L hnav hl hr hs hu] at hpan ⊢
          simp only at hpan ⊢
          rw [hpan]
          simp only
          obtain ⟨out, hout, hrels⟩ := detailLoop_same_records env _ 0 (detailStart n) hpan
          rw [hout]
          simpa [detailStart] using hrels
      have hempty : (∀ r ∈ L, r.ID = "") → g.globalNewsCache.len ≤ 100 →
          (FetchLatestNews_ingest env.mergeOrder env.readOrder env.nowAt env.mergeNow
            limit L g).2.globalNewsCache = g.globalNewsCache := by
        intro hall hlen
        rw [hi2]
        simp only [updateGlobalCache]
        rw [mergeNews_of_all_empty _ _ (ingest_batch_ids env.nowAt L hall)]
        rw [if_neg (by omega)]
      refine ⟨hr1, hr2, L, hu, ?_, ?_, ?_, ?_⟩
      · rw [hglobal, hi2]
      · rw [hglobal, ← hi1]
        exact hsame
      · intro hf
        rw [hfast hf, hglobal, ← hi1]
      · intro hall hlen
        have hc := hempty hall hlen
        have hsnap := GetGlobalCachedNews_congr env.readOrder limit _ _ hc
        refine ⟨?_, ?_, ?_⟩
        · rw [hglobal, hc]
        · rw [← hsnap, ← hi1]
          exact hsame
        · intro hf
          rw [hfast hf, hi1, hsnap]

/-- Witness for C17: a page on which the script finds nothing, against a store of three
records, gives the no-data error and leaves the store, and panics when its HTML
cannot be read; a page with an undecodable time gives an error and leaves the
store; a page with three bulletins succeeds on a script result that is not
empty; and a page whose only bulletin has no ID succeeds with the snapshot of the
three records stored before. -/
theorem FetchLatestNews_fails_without_data_witness :
    FetchLatestNews emptyPageEnv 20 false sampleState NewNewsAction =
      ⟨[], some "页面未返回新闻数据，请检查页面结构", sampleState, NewNewsAction, [], none⟩ ∧
    FetchLatestNews noHtmlEnv 20 false sampleState NewNewsAction =
      ⟨[], none, sampleState, NewNewsAction, [], some "context deadline exceeded"⟩ ∧
    ((FetchLatestNews rawTimeEnv 20 false sampleState NewNewsAction).panicked = none ∧
      (FetchLatestNews rawTimeEnv 20 false sampleState NewNewsAction).news = [] ∧
      (FetchLatestNews rawTimeEnv 20 false sampleState NewNewsAction).global = sampleState ∧
      (FetchLatestNews rawTimeEnv 20 false sampleState NewNewsAction).action =
        NewNewsAction) ∧
    threeItemsEnv.result ≠ "" ∧
    (FetchLatestNews noIdEnv 20 false sampleState NewNewsAction).news =
      (GetGlobalCachedNews noIdEnv.readOrder 20 sampleState).1 :=
  ⟨(FetchLatestNews_fails_without_data emptyPageEnv 20 false sampleState NewNewsAction).1
      rfl rfl rfl (by decide),
   (FetchLatestNews_fails_without_data noHtmlEnv 20 false sampleState NewNewsAction).2.1
      "context deadline exceeded" rfl rfl rfl (by decide),
   (FetchLatestNews_fails_without_data rawTimeEnv 20 false sampleState NewNewsAction).2.2.1
      (by decide),
   ((FetchLatestNews_fails_without_data threeItemsEnv 20 false sampleState
      NewNewsAction).2.2.2 (by decide) (by decide)).1,
   by
    obtain ⟨-, -, L, hu, -, -, -, h⟩ :=
      (FetchLatestNews_fails_without_data noIdEnv 20 false sampleState NewNewsAction).2.2.2
        (by decide) (by decide)
    have hL : L = (unmarshalNews noIdEnv.items).1 := by rw [hu]
    exact (h (by rw [hL]; decide) (by decide)).2.2 rfl⟩

/-- C18 fails on the code: a bulletin without a publish time is kept and gets the time
of the ingestion, but a bulletin whose publish time is a string that is not in
RFC 3339 format makes `json.Unmarshal` fail, and FetchLatestNews then returns an
error and no record, and stores nothing, not even the well-formed bulletin of
the same batch. -/
theorem FetchLatestNews_unparsable_time :
    ((FetchLatestNews noTimeEnv 0 false initialState NewNewsAction).err = none ∧
      (FetchLatestNews noTimeEnv 0 false initialState NewNewsAction).news =
        [mkRecord "cls_1" "央行宣布降息" 1000]) ∧
    ((FetchLatestNews rawTimeEnv 0 false initialState NewNewsAction).err =
        some "解析新闻数据失败: parsing time 10:30" ∧
      (FetchLatestNews rawTimeEnv 0 false initialState NewNewsAction).news = [] ∧
      (FetchLatestNews rawTimeEnv 0 false initialState
        NewNewsAction).global.globalNewsCache.values = []) := by
  decide

theorem getElem?_append_singleton (a more : List TelegraphNews) (o : TelegraphNews) (k : Nat)
    (h : a.length = k) : (a ++ [o] ++ more)[k]? = some o := by
  subst h
  rw [List.append_assoc, List.getElem?_append_right (Nat.le_refl _)]
  simp

/-- The record at the index `k` of a detail loop that ends without a panic. -/
theorem detailLoop_record (env : FetchEnv) (l : List TelegraphNews) (st0 : DetailState)
    (hd : st0.done = []) (k : Nat) (r : TelegraphNews) (hk : l[k]? = some r)
    (hfin : (detailLoop env 0 l st0).panicked = none) :
    ∃ o, (detailLoop env 0 l st0).done[k]? = some o ∧
      (r.URL = "" → o = r ∧
        (detailLoop env 0 (l.take (k + 1)) st0).contentCache =
          (detailLoop env 0 (l.take k) st0).contentCache ∧
        (detailLoop env 0 (l.take (k + 1)) st0).fetched =
          (detailLoop env 0 (l.take k) st0).fetched) ∧
      (∀ c, r.URL ≠ "" → (detailLoop env 0 (l.take k) st0).contentCache r.URL = some c →
        o = { r with Content := c } ∧
        (detailLoop env 0 (l.take (k + 1)) st0).contentCache =
          (detailLoop env 0 (l.take k) st0).contentCache ∧
        (detailLoop env 0 (l.take (k + 1)) st0).fetched =
          (detailLoop env 0 (l.take k) st0).fetched) ∧
      (r.URL ≠ "" → (detailLoop env 0 (l.take k) st0).contentCache r.URL = none →
        (detailLoop env 0 (l.take (k + 1)) st0).fetched =
          (detailLoop env 0 (l.take k) st0).fetched ++ [r.URL] ∧
        (FetchNewsDetail env.trimSpace (env.detailAt k r.URL)).panicked = none ∧
        ((FetchNewsDetail env.trimSpace (env.detailAt k r.URL)).err ≠ none ∨
            (FetchNewsDetail env.trimSpace (env.detailAt k r.URL)).content = "" →
          o = r ∧
          (detailLoop env 0 (l.take (k + 1)) st0).contentCache =
            (detailLoop env 0 (l.take k) st0).contentCache) ∧
        ((FetchNewsDetail env.trimSpace (env.detailAt k r.URL)).err = none →
            (FetchNewsDetail env.trimSpace (env.detailAt k r.URL)).content ≠ "" →
          o = { r with Content :=
            (FetchNewsDetail env.trimSpace (env.detailAt k r.URL)).content } ∧
          (detailLoop env 0 (l.take (k + 1)) st0).contentCache =
            (fun url =>
              if url = r.URL then
                some (FetchNewsDetail env.trimSpace (env.detailAt k r.URL)).content
              else (detailLoop env 0 (l.take k) st0).contentCache url) ∧
          (detailLoop env 0 l st0).contentCache r.URL =
            some (FetchNewsDetail env.trimSpace (env.detailAt k r.URL)).content)) := by
  obtain ⟨hS, hstep, hfinal⟩ := detailLoop_reaches env l st0 k r hk hfin
  obtain ⟨-, hnext, hlen⟩ := detailLoop_at env l st0 k r hk hS
  rw [hd, List.length_nil, Nat.zero_add] at hlen
  obtain ⟨more, hmore⟩ := detailLoop_done_extends env (l.drop (k + 1)) (k + 1)
    (detailStep env (detailLoop env 0 (l.take k) st0) k r)
  rw [← hfinal] at hmore
  have hcache : ∀ u c,
      (detailStep env (detailLoop env 0 (l.take k) st0) k r).contentCache u = some c →
      (detailLoop env 0 l st0).contentCache u = some c := by
    intro u c h
    rw [hfinal]
    exact detailLoop_cache_mono env _ _ _ u c h
  rw [hnext]
  have key : ∀ o, (detailStep env (detailLoop env 0 (l.take k) st0) k r).done =
      (detailLoop env 0 (l.take k) st0).done ++ [o] →
      (detailLoop env 0 l st0).done[k]? = some o := by
    intro o ho
    rw [hmore, ho]
    exact getElem?_append_singleton _ _ _ _ hlen
  generalize detailLoop env 0 (l.take k) st0 = S at hS hstep hcache key ⊢
  by_cases hurl : r.URL = ""
  · have e := detailStep_no_url env S k r hurl
    refine ⟨r, key r (by rw [e]), ?_, ?_, ?_⟩
    · intro _
      rw [e]
      exact ⟨rfl, rfl, rfl⟩
    · intro c h
      exact absurd hurl h
    · intro h
      exact absurd hurl h
  · cases hc : S.contentCache r.URL with
    | some c =>
      have e := detailStep_cached env S k r c hurl hc
      refine ⟨{ r with Content := c }, key _ (by rw [e]), ?_, ?_, ?_⟩
      · intro h
        exact absurd h hurl
      · intro c2 _ hc2
        rw [Option.some.inj hc2.symm, e]
        exact ⟨rfl, rfl, rfl⟩
      · intro _ h
        exact absurd h (by simp)
    | none =>
      cases hp : (FetchNewsDetail env.trimSpace (env.detailAt k r.URL)).panicked with
      | some p =>
        rw [detailStep_panics env S k r p hurl hc hp] at hstep
        exact absurd hstep (by simp)
      | none =>
        by_cases hf : (FetchNewsDetail env.trimSpace (env.detailAt k r.URL)).err ≠ none ∨
            (FetchNewsDetail env.trimSpace (env.detailAt k r.URL)).content = ""
        · have e := detailStep_failed env S k r hurl hc hp hf
          refine ⟨r, key r (by rw [e]), ?_, ?_, ?_⟩
          · intro h
            exact absurd h hurl
          · intro c _ h
            exact absurd h (by simp)
          · intro _ _
            refine ⟨by rw [e], rfl, ?_, ?_⟩
            · intro _
              rw [e]
              exact ⟨rfl, rfl⟩
            · intro he hfull
              rcases hf with hf | hf
              · exact absurd he hf
              · exact absurd hf hfull
        · have he : (FetchNewsDetail env.trimSpace (env.detailAt k r.URL)).err = none := by
            by_contra h; exact hf (Or.inl h)
          have hfull : (FetchNewsDetail env.trimSpace (env.detailAt k r.URL)).content ≠ "" :=
            fun h => hf (Or.inr h)
          have e := detailStep_fetched env S k r hurl hc hp he hfull
          refine ⟨{ r with Content :=
            (FetchNewsDetail env.trimSpace (env.detailAt k r.URL)).content },
            key _ (by rw [e]), ?_, ?_, ?_⟩
          · intro h
            exact absurd h hurl
          · intro c _ h
            exact absurd h (by simp)
          · intro _ _
            refine ⟨by rw [e], rfl, ?_, ?_⟩
            · intro h
              exact absurd h hf
            · intro _ _
              refine ⟨rfl, by rw [e], ?_⟩
              apply hcache
              rw [e]
              simp

/-- Detail mode on a page that loads and whose script result decodes: the call is the
detail loop on the snapshot that fast mode returns. -/
theorem FetchLatestNews_detail_of_env (env : FetchEnv) (limit : Int) (g : GlobalState)
    (n : NewsAction) (L : List TelegraphNews)
    (hnav : env.navigateErr = none) (hl : loadPanic env = none)
    (hr : ¬ (env.result = "" ∨ env.result = "[]")) (hs : env.syntaxErr = none)
    (hu : unmarshalNews env.items = (L, none)) :
    detailSnapshot env limit g n = (FetchLatestNews env limit false g n).news ∧
    (FetchLatestNews env limit true g n).global =
      (FetchLatestNews env limit false g n).global ∧
    (FetchLatestNews env limit true g n).err = none ∧
    (FetchLatestNews env limit true g n).panicked =
      (detailLoop env 0 (detailSnapshot env limit g n) (detailStart n)).panicked ∧
    (FetchLatestNews env limit true g n).news =
      (match (detailLoop env 0 (detailSnapshot env limit g n) (detailStart n)).panicked with
        | some _ => []
        | none => (detailLoop env 0 (detailSnapshot env limit g n) (detailStart n)).done) ∧
    (FetchLatestNews env limit true g n).action.contentCache =
      (detailLoop env 0 (detailSnapshot env limit g n) (detailStart n)).contentCache ∧
    (FetchLatestNews env limit true g n).fetched =
      (detailLoop env 0 (detailSnapshot env limit g n) (detailStart n)).fetched := by
  have hsnap : detailSnapshot env limit g n =
      (FetchLatestNews_ingest env.mergeOrder env.readOrder env.nowAt env.mergeNow
        limit L g).1 := by
    unfold detailSnapshot
    rw [FetchLatestNews_of_ok_detail env limit g n L hnav hl hr hs hu]
    exact (FetchLatestNews_ingest_eq env.mergeOrder env.readOrder env.nowAt env.mergeNow
      limit L g).2.symm
  rw [hsnap, FetchLatestNews_of_ok_detail env limit g n L hnav hl hr hs hu,
    FetchLatestNews_of_ok_fast env limit g n L hnav hl hr hs hu]
  exact ⟨rfl, rfl, rfl, rfl, rfl, rfl, rfl⟩

/-- C19 fails when the script of a detail page cannot be evaluated.  In detail mode
the loop starts on the content cache of the action; what the cache held is kept,
and no URL that it held is fetched.  When the call returns, it returns one
record for each record of the store snapshot, in the same order: a record
without URL as it is; a record whose URL is in the content cache when the loop
reaches it, with the cached content and without a detail fetch; a record whose
detail fetch returns an error or an empty text, as it is; a record whose detail
fetch returns a non-empty text, with that text, which is stored in the content
cache under the URL.  But the script of the detail page is evaluated with
`MustEval` (line 391): when the evaluation fails for the record at the index
k, the call panics, no record is returned although fast mode returns the
snapshot, and the store is already merged.  So it is on three bulletins of which
the second has a detail page whose script fails. -/
theorem FetchLatestNews_detail_mode (env : FetchEnv) (limit : Int) (g : GlobalState)
    (n : NewsAction) :
    detailBefore env limit g n 0 = detailStart n ∧
    (∀ url c, n.contentCache url = some c →
      (FetchLatestNews env limit true g n).action.contentCache url = some c) ∧
    (∀ url ∈ (FetchLatestNews env limit true g n).fetched, n.contentCache url = none) ∧
    ((FetchLatestNews env limit true g n).err = none →
      (FetchLatestNews env limit true g n).panicked = none →
      (FetchLatestNews env limit true g n).news.length =
        (detailSnapshot env limit g n).length ∧
      (FetchLatestNews env limit true g n).action.contentCache =
        (detailBefore env limit g n (detailSnapshot env limit g n).length).contentCache ∧
      (FetchLatestNews env limit true g n).fetched =
        (detailBefore env limit g n (detailSnapshot env limit g n).length).fetched ∧
      ∀ k r, (detailSnapshot env limit g n)[k]? = some r →
        ∃ o, (FetchLatestNews env limit true g n).news[k]? = some o ∧
          (r.URL = "" → o = r ∧
            (detailBefore env limit g n (k + 1)).contentCache =
              (detailBefore env limit g n k).contentCache ∧
            (detailBefore env limit g n (k + 1)).fetched =
              (detailBefore env limit g n k).fetched) ∧
          (∀ c, r.URL ≠ "" → (detailBefore env limit g n k).contentCache r.URL = some c →
            o = { r with Content := c } ∧
            (detailBefore env limit g n (k + 1)).contentCache =
              (detailBefore env limit g n k).contentCache ∧
            (detailBefore env limit g n (k + 1)).fetched =
              (detailBefore env limit g n k).fetched) ∧
          (r.URL ≠ "" → (detailBefore env limit g n k).contentCache r.URL = none →
            (detailBefore env limit g n (k + 1)).fetched =
              (detailBefore env limit g n k).fetched ++ [r.URL] ∧
            (FetchNewsDetail env.trimSpace (env.detailAt k r.URL)).panicked = none ∧
            ((FetchNewsDetail env.trimSpace (env.detailAt k r.URL)).err ≠ none ∨
                (FetchNewsDetail env.trimSpace (env.detailAt k r.URL)).content = "" →
              o = r ∧
              (detailBefore env limit g n (k + 1)).contentCache =
                (detailBefore env limit g n k).contentCache) ∧
            ((FetchNewsDetail env.trimSpace (env.detailAt k r.URL)).err = none →
                (FetchNewsDetail env.trimSpace (env.detailAt k r.URL)).content ≠ "" →
              o = { r with Content :=
                (FetchNewsDetail env.trimSpace (env.detailAt k r.URL)).content } ∧
              (detailBefore env limit g n (k + 1)).contentCache =
                (fun url =>
                  if url = r.URL then
                    some (FetchNewsDetail env.trimSpace (env.detailAt k r.URL)).content
                  else (detailBefore env limit g n k).contentCache url) ∧
              (FetchLatestNews env limit true g n).action.contentCache r.URL =
                some (FetchNewsDetail env.trimSpace (env.detailAt k r.URL)).content))) ∧
    (∀ k r p, (FetchLatestNews env limit false g n).err = none →
      (FetchLatestNews env limit false g n).panicked = none →
      (detailSnapshot env limit g n)[k]? = some r →
      (detailBefore env limit g n k).panicked = none →
      r.URL ≠ "" → (detailBefore env limit g n k).contentCache r.URL = none →
      (FetchNewsDetail env.trimSpace (env.detailAt k r.URL)).panicked = some p →
      (FetchLatestNews env limit true g n).panicked = some p ∧
      (FetchLatestNews env limit true g n).news = [] ∧
      (FetchLatestNews env limit true g n).err = none ∧
      (FetchLatestNews env limit false g n).news = detailSnapshot env limit g n ∧
      (FetchLatestNews env limit true g n).global =
        (FetchLatestNews env limit false g n).global ∧
      (FetchLatestNews env limit true g n).fetched =
        (detailBefore env limit g n k).fetched ++ [r.URL] ∧
      (FetchLatestNews env limit true g n).action.contentCache =
        (detailBefore env limit g n k).contentCache) ∧
    (FetchLatestNews detailPanicEnv 0 false initialState cachedAction).news =
      [{ mkRecord "a" "first bulletin" 30 with URL := "u1" },
       { mkRecord "b" "second bulletin" 20 with URL := "u2" },
       { mkRecord "c" "third bulletin" 10 with URL := "u3" }] ∧
    (FetchLatestNews detailPanicEnv 0 true initialState cachedAction).panicked =
      some "context deadline exceeded" ∧
    (FetchLatestNews detailPanicEnv 0 true initialState cachedAction).news = [] ∧
    (FetchLatestNews detailPanicEnv 0 true initialState cachedAction).err = none ∧
    (FetchLatestNews detailPanicEnv 0 true initialState cachedAction).fetched = ["u2"] ∧
    (FetchLatestNews detailPanicEnv 0 true initialState
      cachedAction).global.globalNewsCache.values.map (fun r => r.ID) = ["a", "b", "c"] := by
  refine ⟨rfl, ?_, ?_, ?_, ?_, by decide, by decide, by decide, by decide, by decide,
    by decide⟩
  · intro url c h
    rcases FetchLatestNews_outcome env limit true g n with h1 | h1 | h1
    · rw [h1.2.2.2.2.1]; exact h
    · rw [h1.2.2.2.2.1]; exact h
    · obtain ⟨-, hnav, hl, hr1, hr2, hs, L, hu, -⟩ := h1
      have hr : ¬ (env.result = "" ∨ env.result = "[]") := by
        rintro (h | h)
        · exact hr1 h
        · exact hr2 h
      rw [(FetchLatestNews_detail_of_env env limit g n L hnav hl hr hs hu).2.2.2.2.2.1]
      exact detailLoop_cache_mono env _ 0 (detailStart n) url c h
  · intro url hmem
    rcases FetchLatestNews_outcome env limit true g n with h1 | h1 | h1
    · rw [h1.2.2.2.2.2] at hmem; simp at hmem
    · rw [h1.2.2.2.2.2] at hmem; simp at hmem
    · obtain ⟨-, hnav, hl, hr1, hr2, hs, L, hu, -⟩ := h1
      have hr : ¬ (env.result = "" ∨ env.result = "[]") := by
        rintro (h | h)
        · exact hr1 h
        · exact hr2 h
      rw [(FetchLatestNews_detail_of_env env limit g n L hnav hl hr hs hu).2.2.2.2.2.2] at hmem
      exact detailLoop_initial_cache env n.contentCache _ 0 (detailStart n)
        (fun _ _ h => h) (fun u hu => by simp [detailStart] at hu) url hmem
  · intro hok hpan
    rcases FetchLatestNews_outcome env limit true g n with h1 | h1 | h1
    · exact absurd hok h1.1
    · exact absurd hpan h1.1
    · obtain ⟨-, hnav, hl, hr1, hr2, hs, L, hu, -⟩ := h1
      have hr : ¬ (env.result = "" ∨ env.result = "[]") := by
        rintro (h | h)
        · exact hr1 h
        · exact hr2 h
      obtain ⟨-, -, -, hp, hnews, hcache, hfetched⟩ :=
        FetchLatestNews_detail_of_env env limit g n L hnav hl hr hs hu
      have hfin : (detailLoop env 0 (detailSnapshot env limit g n) (detailStart n)).panicked
          = none := by rw [← hp]; exact hpan
      rw [hfin] at hnews
      simp only at hnews
      have hfull : detailBefore env limit g n (detailSnapshot env limit g n).length =
          detailLoop env 0 (detailSnapshot env limit g n) (detailStart n) := by
        simp only [detailBefore, List.take_length]
      refine ⟨?_, ?_, ?_, ?_⟩
      · rw [hnews, (detailLoop_of_not_panicked env _ 0 (detailStart n) hfin).2]
        simp [detailStart]
      · rw [hcache, hfull]
      · rw [hfetched, hfull]
      · intro k r hk
        rw [hnews, hcache]
        exact detailLoop_record env (detailSnapshot env limit g n) (detailStart n) rfl k r hk
          hfin
  · intro k r p hok hpan hk hS hurl hc hp
    rcases FetchLatestNews_outcome env limit false g n with h1 | h1 | h1
    · exact absurd hok h1.1
    · exact absurd hpan h1.1
    · obtain ⟨-, hnav, hl, hr1, hr2, hs, L, hu, -⟩ := h1
      have hr : ¬ (env.result = "" ∨ env.result = "[]") := by
        rintro (h | h)
        · exact hr1 h
        · exact hr2 h
      obtain ⟨hsnap, hglobal, herr, hpd, hnews, hcache, hfetched⟩ :=
        FetchLatestNews_detail_of_env env limit g n L hnav hl hr hs hu
      have hloop : detailLoop env 0 (detailSnapshot env limit g n) (detailStart n) =
          { detailBefore env limit g n k with
            fetched := (detailBefore env limit g n k).fetched ++ [r.URL],
            panicked := some p } := by
        have h1 := (detailLoop_at env (detailSnapshot env limit g n) (detailStart n) k r hk
          hS).1
        have h2 := detailStep_panics env (detailBefore env limit g n k) k r p hurl hc hp
        rw [h1]
        simp only [detailBefore] at h2 ⊢
        rw [detailLoop_cons_of_panicked env k r _ _ p (by rw [h2]), h2]
      rw [hloop] at hpd hnews hcache hfetched
      exact ⟨hpd, hnews, herr, hsnap.symm, hglobal, hfetched, hcache⟩

/-- Witness for C19: three bulletins with the URLs u1, u2, u3, an action that has the
text of u1 in its cache, a detail page for u2 only.  The first record gets the
cached text without a fetch, the second the fetched text, which is then cached,
the third keeps its content after its fetch failed. -/
theorem FetchLatestNews_detail_mode_witness :
    (FetchLatestNews detailEnv 0 true initialState cachedAction).err = none ∧
    (FetchLatestNews detailEnv 0 true initialState cachedAction).panicked = none ∧
    (FetchLatestNews detailEnv 0 true initialState cachedAction).news =
      [{ mkRecord "a" "first bulletin" 30 with URL := "u1", Content := "cached text of a" },
       { mkRecord "b" "second bulletin" 20 with URL := "u2", Content := "full text of b" },
       { mkRecord "c" "third bulletin" 10 with URL := "u3" }] ∧
    (FetchLatestNews detailEnv 0 true initialState cachedAction).fetched = ["u2", "u3"] ∧
    (FetchLatestNews detailEnv 0 true initialState cachedAction).action.contentCache "u2" =
      some "full text of b" ∧
    (FetchLatestNews detailEnv 0 true initialState cachedAction).news.length =
      (detailSnapshot detailEnv 0 initialState cachedAction).length ∧
    (∀ url ∈ (FetchLatestNews detailEnv 0 true initialState cachedAction).fetched,
      cachedAction.contentCache url = none) :=
  ⟨by decide, by decide, by decide, by decide, by decide,
   ((FetchLatestNews_detail_mode detailEnv 0 initialState cachedAction).2.2.2.1
      (by decide) (by decide)).1,
   (FetchLatestNews_detail_mode detailEnv 0 initialState cachedAction).2.2.1⟩

/-! ## Theorems about the analyzer -/

/-- C20: for every analysis value, whatever its keywords, industries, stocks and
sentiment label, calculateConfidence returns a score between 0 and 1, for every
rounding that sends no non-negative number below zero (as the rounding to the
nearest double does). -/
theorem calculateConfidence_range (rnd : ℚ → ℚ) (hrnd : ∀ x : ℚ, 0 ≤ x → 0 ≤ rnd x)
    (analysis : NewsAnalysis) :
    0 ≤ calculateConfidence rnd analysis ∧ calculateConfidence rnd analysis ≤ 1 := by
  have hbase : (0 : ℚ) ≤ rnd (3 / 10) := hrnd _ (by norm_num)
  have hbonus : ∀ (b : Prop) [Decidable b] (c d : ℚ), 0 ≤ c → 0 ≤ d →
      0 ≤ (if b then rnd (c + rnd d) else c) := by
    intro b _ c d hc hd
    split
    · exact hrnd _ (add_nonneg hc (hrnd d hd))
    · exact hc
  have h1 := hbonus (analysis.Keywords.length > 0) _ (2 / 10) hbase (by norm_num)
  have h2 := hbonus (analysis.Industries.length > 0) _ (2 / 10) h1 (by norm_num)
  have h3 := hbonus (analysis.Stocks.length > 0) _ (15 / 100) h2 (by norm_num)
  have h4 := hbonus (analysis.Sentiment ≠ "neutral") _ (15 / 100) h3 (by norm_num)
  have hcap : ∀ c : ℚ, 0 ≤ c →
      0 ≤ (if c > 1 then 1 else c) ∧ (if c > 1 then 1 else c) ≤ 1 := by
    intro c hc
    by_cases h : c > 1
    · rw [if_pos h]; exact ⟨by norm_num, le_refl 1⟩
    · rw [if_neg h]; exact ⟨hc, not_lt.mp h⟩
  exact hcap _ h4

/-- Witness for C20 with exact decimal arithmetic: keywords, industries, stocks and a
positive sentiment give the capped score 1, an empty neutral analysis gives 0.3. -/
theorem calculateConfidence_range_witness :
    (∀ x : ℚ, 0 ≤ x → 0 ≤ id x) ∧
    (0 ≤ calculateConfidence id fullAnalysis ∧ calculateConfidence id fullAnalysis ≤ 1) ∧
    calculateConfidence id fullAnalysis = 1 ∧
    calculateConfidence id emptyAnalysis = 3 / 10 :=
  ⟨fun _ h => h, calculateConfidence_range id (fun _ h => h) fullAnalysis,
   by
    have h : ("positive" : String) ≠ "neutral" := by decide
    simp only [calculateConfidence, fullAnalysis, id, List.length_cons, List.length_nil,
      ne_eq, h, not_false_eq_true, if_true]
    norm_num,
   by norm_num [calculateConfidence, emptyAnalysis]⟩

/-- C22 fails: `AnalyzeNews` calls `generatePrediction` before it sets
`Confidence`, so the test `analysis.Confidence < 0.5` reads the zero value: for
every bulletin the prediction is the one of the returned analysis with the
confidence 0, and it ends with the caveat.  The bulletin "央行宣布降息，利好银行板块" (three
keywords, the industry 金融, a positive sentiment) is returned with the confidence
0.85 and a prediction that ends with the caveat, while `generatePrediction` on the
returned analysis gives the prediction without it. -/
theorem AnalyzeNews_caveat_ignores_confidence :
    (∀ (env : AnalyzerEnv) (news : TelegraphNews),
      (AnalyzeNews env news).1.Prediction =
        generatePrediction news { (AnalyzeNews env news).1 with Confidence := 0 } ∧
      ∃ p, (AnalyzeNews env news).1.Prediction =
        p ++ "注意：分析置信度较低，建议结合更多信息综合判断") ∧
    (AnalyzeNews plainAnalyzerEnv rateCutNews).1.Confidence = 17 / 20 ∧
    ¬ (AnalyzeNews plainAnalyzerEnv rateCutNews).1.Confidence < 1 / 2 ∧
    (AnalyzeNews plainAnalyzerEnv rateCutNews).1.Prediction =
      "建议关注金融板块的投资机会；短期内相关标的可能有上涨动能；注意：分析置信度较低，建议结合更多信息综合判断" ∧
    generatePrediction rateCutNews (AnalyzeNews plainAnalyzerEnv rateCutNews).1 =
      "建议关注金融板块的投资机会；短期内相关标的可能有上涨动能" := by
  have h0 : ((0 : ℚ) < 1 / 2) := by norm_num
  have hne : ("positive" : String) ≠ "neutral" := by decide
  have hconf : (AnalyzeNews plainAnalyzerEnv rateCutNews).1.Confidence = 17 / 20 := by
    simp only [AnalyzeNews, calculateConfidence, plainAnalyzerEnv, rateCutNews_fields.1,
      rateCutNews_fields.2.1, rateCutNews_fields.2.2.1, rateCutNews_fields.2.2.2, id,
      List.length_cons, List.length_nil, ne_eq, hne, not_false_eq_true, if_true]
    norm_num
  refine ⟨?_, hconf, ?_, ?_, ?_⟩
  · intro env news
    refine ⟨?_, ?_⟩
    · simp only [AnalyzeNews, generatePrediction]
    · simp only [AnalyzeNews, generatePrediction, h0, if_true]
      exact Join_snoc _ _ _
  · rw [hconf]
    norm_num
  · simp only [AnalyzeNews, generatePrediction, h0, if_true, plainAnalyzerEnv,
      rateCutNews_fields.1, rateCutNews_fields.2.1, rateCutNews_fields.2.2.1,
      rateCutNews_fields.2.2.2]
    decide
  · have h1 : ¬ ((17 : ℚ) / 20 < 1 / 2) := by norm_num
    simp only [generatePrediction, hconf, h1, if_false]
    simp only [AnalyzeNews, plainAnalyzerEnv,
      rateCutNews_fields.1, rateCutNews_fields.2.1, rateCutNews_fields.2.2.1,
      rateCutNews_fields.2.2.2]
    decide

end Cailianshe
